import Mathlib

/-!
# Verification of the mqtt-rs MQTT v3.1.1 wire codec

A shallow embedding, in Lean 4, of the encoding/decoding core of the
`mqtt-rs` crate (packet layer, fixed header, remaining-length varint,
topic-name/topic-filter validation and matching), together with proofs of
the testable properties stated in the crate's specification.

Conventions of the embedding:

* Machine bytes are `Nat`s; a Rust `Vec<u8>` or `&[u8]` is a `List Nat`.
  Where u32 arithmetic can wrap, the wrap is written out explicitly
  (`% 4294967296`); the overflow-checked `u32` subtractions in the
  decoders are modelled with an explicit `subUnderflow` error standing
  for the debug-build panic / release-build wrap of `a - b` when `b > a`.
* Rust readers (`std::io::Read`) are modelled by a small syntactic parser
  type `Parser`: a decoder is a tree of single-byte reads (`read_u8`),
  exact multi-byte reads (`read_exact`), pure returns and failures.
  `runParser` feeds it a byte list and yields `Except DecErr (α × List Nat)`
  (the decoded value plus the unread remainder), with `DecErr.eof`
  standing for `std::io::ErrorKind::UnexpectedEof`.
* Rust `String`s are carried as their UTF-8 byte lists (`RStr`), with an
  executable validity predicate `utf8Valid` modelling
  `String::from_utf8`'s acceptance condition (RFC 3629: no surrogates,
  no overlong forms, limit U+10FFFF).
-/

/-- Decoder errors. One flat sum standing for the crate's error enums
(`FixedHeaderError`, `VariableHeaderError`, the per-packet payload errors
and `PacketError`); the crate's `From` conversions collapse the embedded
`io::Error` cases exactly as this sum does. `eof` is an `io::Error` of
kind `UnexpectedEof`; `subUnderflow` marks an overflow-checked `u32`
subtraction whose right operand exceeds its left (a panic in debug
builds). `reservedType`/`unrecognizedType` carry the type nibble, the
parsed remaining length and the drained body bytes. -/
inductive DecErr : Type where
  | eof : DecErr
  | malformedRemainingLength : DecErr
  | reservedType (code : Nat) (length : Nat) (drained : List Nat) : DecErr
  | unrecognizedType (code : Nat) (length : Nat) (drained : List Nat) : DecErr
  | invalidFlag : DecErr
  | invalidReservedFlag : DecErr
  | invalidProtocolVersion : DecErr
  | utf8Error : DecErr
  | invalidTopicName : DecErr
  | invalidTopicFilter : DecErr
  | invalidQualityOfService : DecErr
  | invalidSubscribeReturnCode (code : Nat) : DecErr
  | subUnderflow : DecErr
  deriving Repr, DecidableEq

/-- Syntactic decoders: a decoder is a tree of reads. `readByte` is a
single `read_u8`, `readExact n` is `read_exact` into an `n`-byte buffer.
Running one (`runParser`) makes the `UnexpectedEof` behaviour of Rust
readers explicit: a read past the end of input fails with `DecErr.eof`. -/
inductive Parser (α : Type) : Type where
  | pure (a : α) : Parser α
  | fail (e : DecErr) : Parser α
  | readByte (k : Nat → Parser α) : Parser α
  | readExact (n : Nat) (k : List Nat → Parser α) : Parser α

/-- Run a decoder against a byte list, returning the value and the
unconsumed remainder, or the error it failed with. -/
def runParser {α : Type} : Parser α → List Nat → Except DecErr (α × List Nat)
  | .pure a, bs => .ok (a, bs)
  | .fail e, _ => .error e
  | .readByte _, [] => .error .eof
  | .readByte k, b :: bs => runParser (k b) bs
  | .readExact n k, bs =>
    if n ≤ bs.length then runParser (k (bs.take n)) (bs.drop n) else .error .eof

/-- Sequencing of decoders (grafting of read trees). -/
def Parser.bind {α β : Type} : Parser α → (α → Parser β) → Parser β
  | .pure a, f => f a
  | .fail e, _ => .fail e
  | .readByte k, f => .readByte fun b => (k b).bind f
  | .readExact n k, f => .readExact n fun bs => (k bs).bind f

instance : Monad Parser where
  pure := Parser.pure
  bind := Parser.bind

@[simp] theorem runParser_pure {α : Type} (a : α) (bs : List Nat) :
    runParser (Parser.pure a) bs = .ok (a, bs) := rfl

@[simp] theorem runParser_fail {α : Type} (e : DecErr) (bs : List Nat) :
    runParser (Parser.fail (α := α) e) bs = .error e := rfl

@[simp] theorem runParser_readByte_cons {α : Type} (k : Nat → Parser α) (b : Nat)
    (bs : List Nat) : runParser (Parser.readByte k) (b :: bs) = runParser (k b) bs := rfl

@[simp] theorem runParser_readByte_nil {α : Type} (k : Nat → Parser α) :
    runParser (Parser.readByte k) [] = .error .eof := rfl

/-- Running a sequenced decoder: run the first, then run the continuation
on the remainder. -/
theorem runParser_bind {α β : Type} (p : Parser α) (f : α → Parser β) (bs : List Nat) :
    runParser (p.bind f) bs =
      match runParser p bs with
      | .ok (a, rest) => runParser (f a) rest
      | .error e => .error e := by
  induction p generalizing bs with
  | pure a => rfl
  | fail e => rfl
  | readByte k ih =>
    cases bs with
    | nil => rfl
    | cons b bs => simpa [Parser.bind] using ih b bs
  | readExact n k ih =>
    by_cases h : n ≤ bs.length <;> simp [Parser.bind, runParser, h, ih]

@[simp] theorem runParser_bind_do {α β : Type} (p : Parser α) (f : α → Parser β)
    (bs : List Nat) :
    runParser (p >>= f) bs =
      match runParser p bs with
      | .ok (a, rest) => runParser (f a) rest
      | .error e => .error e :=
  runParser_bind p f bs

/-- A decoder that succeeds consuming its whole input fails with an
`UnexpectedEof` io error on every strict prefix of that input: deleting
trailing bytes makes some read run past the end.  This is the engine
behind the truncation property. -/
theorem runParser_truncation {α : Type} (p : Parser α) :
    ∀ (pre : List Nat) (a : α), runParser p pre = .ok (a, []) →
      ∀ k, k < pre.length → runParser p (pre.take k) = .error .eof := by
  induction p with
  | pure a =>
    intro pre a' h k hk
    simp only [runParser_pure, Except.ok.injEq, Prod.mk.injEq] at h
    obtain ⟨-, rfl⟩ := h
    simp only [List.length_nil] at hk
    omega
  | fail e =>
    intro pre a h k hk
    rw [runParser_fail] at h
    exact Except.noConfusion h
  | readByte kp ih =>
    intro pre a h k hk
    cases pre with
    | nil => simp at h
    | cons b bs =>
      cases k with
      | zero => rfl
      | succ k =>
        simp only [List.take_succ_cons, runParser_readByte_cons]
        exact ih b bs a h k (by simpa using hk)
  | readExact n kp ih =>
    intro pre a h k hk
    simp only [runParser] at h
    by_cases hn : n ≤ pre.length
    · simp only [hn, if_pos] at h
      by_cases hkn : k < n
      · have hlt : (pre.take k).length < n := by
          simp only [List.length_take]
          omega
        show runParser (Parser.readExact n kp) (pre.take k) = .error .eof
        simp only [runParser]
        rw [if_neg (Nat.not_le.mpr hlt)]
      · push_neg at hkn
        have h1 : (pre.take k).take n = pre.take n := by
          rw [List.take_take, Nat.min_eq_left hkn]
        have h2 : (pre.take k).drop n = (pre.drop n).take (k - n) := by
          rw [List.drop_take]
        have hlen : n ≤ (pre.take k).length := by
          simp only [List.length_take]
          omega
        show runParser (Parser.readExact n kp) (pre.take k) = .error .eof
        simp only [runParser]
        rw [if_pos hlen, h1, h2]
        exact ih (pre.take n) (pre.drop n) a h (k - n)
          (by simp only [List.length_drop]; omega)
    · simp [hn] at h

/-! ## Bit-arithmetic bridges

Small lemmas translating the masks and shifts of the source
(`& 0x7F`, `& 0xFF`, `>> 7`, `| 0x80`, ...) into `%`, `/` and `+`. -/

theorem and_127_eq_mod (n : Nat) : n &&& 127 = n % 128 := by
  have h := Nat.and_pow_two_sub_one_eq_mod n 7
  norm_num at h
  exact h

theorem and_255_eq_mod (n : Nat) : n &&& 255 = n % 256 := by
  have h := Nat.and_pow_two_sub_one_eq_mod n 8
  norm_num at h
  exact h

theorem and_15_eq_mod (n : Nat) : n &&& 15 = n % 16 := by
  have h := Nat.and_pow_two_sub_one_eq_mod n 4
  norm_num at h
  exact h

/-- Oring a shifted value onto a small accumulator is plain addition. -/
theorem lor_shiftLeft_eq {a k : Nat} (b : Nat) (h : a < 2 ^ k) :
    a ||| (b <<< k) = 2 ^ k * b + a := by
  apply Nat.eq_of_testBit_eq
  intro j
  rw [Nat.testBit_or, Nat.testBit_shiftLeft, Nat.testBit_mul_pow_two_add b h j]
  by_cases hj : j < k
  · have : ¬ (j ≥ k) := by omega
    simp [hj, this]
  · push_neg at hj
    have ha : Nat.testBit a j = false :=
      Nat.testBit_lt_two_pow (lt_of_lt_of_le h (Nat.pow_le_pow_right (by norm_num) hj))
    have : j ≥ k := hj
    simp [ha, this, Nat.not_lt.mpr hj]

theorem and_128_eq_zero {a : Nat} (h : a < 128) : a &&& 128 = 0 := by
  have h7 : Nat.testBit a 7 = false := Nat.testBit_lt_two_pow (by norm_num; omega)
  have := Nat.and_two_pow a 7
  norm_num [h7] at this
  exact this

theorem lor_128_and_128 (a : Nat) : (a ||| 128) &&& 128 ≠ 0 := by
  have h7 : Nat.testBit (a ||| 128) 7 = true := by
    have : (128 : Nat) = 2 ^ 7 := by norm_num
    rw [Nat.testBit_or, this, Nat.testBit_two_pow_self]
    simp
  have := Nat.and_two_pow (a ||| 128) 7
  norm_num [h7] at this
  omega

theorem lor_128_eq_add {a : Nat} (h : a < 128) : a ||| 128 = 128 + a := by
  have := lor_shiftLeft_eq (a := a) (k := 7) 1 (by omega)
  norm_num at this
  have h2 : (1 : Nat) <<< 7 = 128 := by norm_num [Nat.shiftLeft_eq]
  rw [h2] at this
  omega

/-! ## Primitive codec: big-endian u16 (`byteorder::BigEndian`) -/

/-- `write_u16::<BigEndian>`: most significant byte first. -/
def encodeU16 (x : Nat) : List Nat := [(x >>> 8) &&& 255, x &&& 255]

/-- `read_u16::<BigEndian>`: two `read_u8`s, recombined. -/
def decodeU16 : Parser Nat :=
  Parser.readByte fun hi => Parser.readByte fun lo => Parser.pure ((hi <<< 8) ||| lo)

theorem decodeU16_encodeU16 {x : Nat} (h : x < 65536) (rest : List Nat) :
    runParser decodeU16 (encodeU16 x ++ rest) = .ok (x, rest) := by
  have hhi : (x >>> 8) &&& 255 = x / 256 := by
    rw [and_255_eq_mod, Nat.shiftRight_eq_div_pow]
    norm_num
    omega
  have hlo : x &&& 255 = x % 256 := and_255_eq_mod x
  simp only [encodeU16, List.cons_append, List.nil_append, decodeU16,
    runParser_readByte_cons, runParser_pure, hhi, hlo]
  rw [Nat.lor_comm, lor_shiftLeft_eq (x / 256) (by norm_num; omega)]
  norm_num
  omega

/-- Byte count of the u16 encoding. -/
theorem encodeU16_length (x : Nat) : (encodeU16 x).length = 2 := rfl

/-! ## Remaining-length variable-length integer
(`impl Encodable for FixedHeader` / `impl Decodable for FixedHeader`,
`src/control/fixed_header.rs`) -/

/-- The encoder loop of `FixedHeader::encode`: repeatedly emit the low
7 bits, setting the continuation bit 0x80 whenever more bits remain. -/
def encodeRemLen (n : Nat) : List Nat :=
  let byte := n &&& 127
  let rest := n >>> 7
  if 0 < rest then (byte ||| 128) :: encodeRemLen rest else [byte]
  termination_by n
  decreasing_by
    rename_i h
    rw [Nat.shiftRight_eq_div_pow] at *
    norm_num at *
    omega

/-- The decoder loop of `FixedHeader::decode_with`: accumulate 7-bit
groups shifted by `7*i` (as u32, wrapping), erroring with
`MalformedRemainingLength` once a fifth byte has been read. -/
def remLenLoop (i cur : Nat) : Parser Nat :=
  Parser.readByte fun byte =>
    let cur' := cur ||| (((byte &&& 127) <<< (7 * i)) % 4294967296)
    if 4 ≤ i then Parser.fail .malformedRemainingLength
    else if byte &&& 128 == 0 then Parser.pure cur'
    else remLenLoop (i + 1) cur'
  termination_by 5 - i
  decreasing_by omega

/-- Generalized round-trip of the remaining-length codec: starting the
decoder loop at position `i` with accumulator `cur` on the encoding of
`n` recovers `2^(7*i) * n + cur`. -/
theorem remLenLoop_encodeRemLen :
    ∀ n i cur rest, n < 128 ^ (4 - i) → i ≤ 3 → cur < 2 ^ (7 * i) →
      runParser (remLenLoop i cur) (encodeRemLen n ++ rest) =
        .ok (2 ^ (7 * i) * n + cur, rest) := by
  intro n
  induction n using Nat.strong_induction_on with
  | _ n ih =>
    intro i cur rest hn hi hcur
    rw [encodeRemLen]
    have hshift : n >>> 7 = n / 128 := by
      rw [Nat.shiftRight_eq_div_pow]
    have hib : ¬ (4 ≤ i) := by omega
    by_cases hbig : 0 < n >>> 7
    · -- continuation byte, then recurse on n >> 7
      have h128 : 128 ≤ n := by rw [hshift] at hbig; omega
      have hrange : 2 ≤ 4 - i := by
        rcases Nat.lt_or_ge (4 - i) 2 with hlt2 | hge
        · exfalso
          have hle : (128 : Nat) ^ (4 - i) ≤ 128 ^ 1 :=
            Nat.pow_le_pow_right (by norm_num) (by omega)
          have h1 : (128 : Nat) ^ 1 = 128 := by norm_num
          omega
        · exact hge
      have hmod : n &&& 127 = n % 128 := and_127_eq_mod n
      have hb1 : ((n &&& 127) ||| 128) &&& 127 = n % 128 := by
        rw [hmod, lor_128_eq_add (Nat.mod_lt n (by norm_num))]
        rw [and_127_eq_mod]
        omega
      have hb2 : ¬ ((((n &&& 127) ||| 128) &&& 128 == 0) = true) := by
        simp only [beq_iff_eq]
        exact lor_128_and_128 (n &&& 127)
      simp only [hbig, if_pos, List.cons_append]
      rw [remLenLoop]
      simp only [runParser_readByte_cons, hb1]
      rw [if_neg hib, if_neg hb2]
      have hsmall : (n % 128) <<< (7 * i) % 4294967296 = (n % 128) <<< (7 * i) := by
        apply Nat.mod_eq_of_lt
        rw [Nat.shiftLeft_eq]
        have h1 : n % 128 < 128 := Nat.mod_lt n (by norm_num)
        have h2 : (2 : Nat) ^ (7 * i) ≤ 2 ^ 21 :=
          Nat.pow_le_pow_right (by norm_num) (by omega)
        calc n % 128 * 2 ^ (7 * i) < 128 * 2 ^ (7 * i) :=
              (Nat.mul_lt_mul_right (Nat.two_pow_pos _)).mpr h1
          _ ≤ 128 * 2 ^ 21 := Nat.mul_le_mul_left _ h2
          _ < 4294967296 := by norm_num
      rw [hsmall, lor_shiftLeft_eq (n % 128) hcur]
      have hcur' : 2 ^ (7 * i) * (n % 128) + cur < 2 ^ (7 * (i + 1)) := by
        have h1 : n % 128 < 128 := Nat.mod_lt n (by norm_num)
        have hpow : 2 ^ (7 * (i + 1)) = 2 ^ (7 * i) * 128 := by
          rw [Nat.mul_succ, Nat.pow_add]
        rw [hpow]
        calc 2 ^ (7 * i) * (n % 128) + cur
            < 2 ^ (7 * i) * (n % 128) + 2 ^ (7 * i) := by omega
          _ = 2 ^ (7 * i) * (n % 128 + 1) := by ring
          _ ≤ 2 ^ (7 * i) * 128 := Nat.mul_le_mul_left _ (by omega)
      have hdiv_lt : n / 128 < n := Nat.div_lt_self (by omega) (by norm_num)
      have hdiv_bound : n / 128 < 128 ^ (4 - (i + 1)) := by
        have heq : 128 ^ (4 - i) = 128 ^ (4 - (i + 1)) * 128 := by
          have h41 : 4 - i = (4 - (i + 1)) + 1 := by omega
          rw [h41, Nat.pow_succ]
        rw [heq] at hn
        exact Nat.div_lt_of_lt_mul (by omega)
      rw [hshift]
      rw [ih (n / 128) hdiv_lt (i + 1) (2 ^ (7 * i) * (n % 128) + cur) rest
        hdiv_bound (by omega) hcur']
      congr 2
      have hsplit : 128 * (n / 128) + n % 128 = n := Nat.div_add_mod n 128
      have hpow : 2 ^ (7 * (i + 1)) = 2 ^ (7 * i) * 128 := by
        rw [Nat.mul_succ, Nat.pow_add]
      calc 2 ^ (7 * (i + 1)) * (n / 128) + (2 ^ (7 * i) * (n % 128) + cur)
          = 2 ^ (7 * i) * (128 * (n / 128) + n % 128) + cur := by rw [hpow]; ring
        _ = 2 ^ (7 * i) * n + cur := by rw [hsplit]
    · -- final byte: continuation bit clear, decoder stops
      have hlt : n < 128 := by
        rw [hshift] at hbig
        omega
      have hmod : n &&& 127 = n := by rw [and_127_eq_mod]; omega
      have hb0 : ((n &&& 128 == 0)) = true := by
        simp only [beq_iff_eq]
        exact and_128_eq_zero hlt
      simp only [hbig, if_neg, if_false, List.cons_append, List.nil_append]
      rw [remLenLoop]
      simp only [runParser_readByte_cons, hmod]
      rw [if_neg hib, if_pos hb0]
      have hsmall : n <<< (7 * i) % 4294967296 = n <<< (7 * i) := by
        apply Nat.mod_eq_of_lt
        rw [Nat.shiftLeft_eq]
        have h2 : (2 : Nat) ^ (7 * i) ≤ 2 ^ 21 :=
          Nat.pow_le_pow_right (by norm_num) (by omega)
        calc n * 2 ^ (7 * i) < 128 * 2 ^ (7 * i) :=
              (Nat.mul_lt_mul_right (Nat.two_pow_pos _)).mpr hlt
          _ ≤ 128 * 2 ^ 21 := Nat.mul_le_mul_left _ h2
          _ < 4294967296 := by norm_num
      rw [hsmall, lor_shiftLeft_eq n hcur]
      rfl

/-- Round-trip of the remaining-length codec (`decode(encode n) = n`)
for every `n` below the protocol bound `2^28`. -/
theorem remLen_roundtrip {n : Nat} (h : n < 268435456) (rest : List Nat) :
    runParser (remLenLoop 0 0) (encodeRemLen n ++ rest) = .ok (n, rest) := by
  have hr := remLenLoop_encodeRemLen n 0 0 rest (by norm_num; omega) (by omega)
    (by norm_num)
  simpa using hr

/-- A single unfolding of the encoder loop, phrased with `/`. -/
theorem encodeRemLen_length_step (m : Nat) :
    (encodeRemLen m).length =
      if 0 < m / 128 then 1 + (encodeRemLen (m / 128)).length else 1 := by
  rw [encodeRemLen]
  have hs : m >>> 7 = m / 128 := by rw [Nat.shiftRight_eq_div_pow]
  rw [hs]
  split <;> simp [Nat.add_comm]

/-- Encoded byte count of the remaining length: 1/2/3/4 bytes over the
ranges `[0,128)`, `[128,16384)`, `[16384,2097152)`, `[2097152,2^28)`. -/
theorem encodeRemLen_length {n : Nat} (h : n < 268435456) :
    (encodeRemLen n).length =
      if n < 128 then 1 else if n < 16384 then 2
      else if n < 2097152 then 3 else 4 := by
  have d2 : n / 128 / 128 = n / 16384 := by
    rw [Nat.div_div_eq_div_mul]
  have d3 : n / 16384 / 128 = n / 2097152 := by
    rw [Nat.div_div_eq_div_mul]
  have d4 : n / 2097152 / 128 = n / 268435456 := by
    rw [Nat.div_div_eq_div_mul]
  rcases Nat.lt_or_ge n 128 with h1 | h1
  · rw [encodeRemLen_length_step, if_neg (by omega)]
    simp [h1]
  rcases Nat.lt_or_ge n 16384 with h2 | h2
  · rw [encodeRemLen_length_step, if_pos (by omega),
      encodeRemLen_length_step, d2, if_neg (by omega)]
    rw [if_neg (by omega), if_pos h2]
  rcases Nat.lt_or_ge n 2097152 with h3 | h3
  · rw [encodeRemLen_length_step, if_pos (by omega),
      encodeRemLen_length_step, d2, if_pos (by omega),
      encodeRemLen_length_step, d3, if_neg (by omega)]
    rw [if_neg (by omega), if_neg (by omega), if_pos h3]
  · rw [encodeRemLen_length_step, if_pos (by omega),
      encodeRemLen_length_step, d2, if_pos (by omega),
      encodeRemLen_length_step, d3, if_pos (by omega),
      encodeRemLen_length_step, d4, if_neg (by omega)]
    rw [if_neg (by omega), if_neg (by omega), if_neg (by omega)]

/-- Any input whose first four remaining-length bytes all carry the
continuation bit drives the decoder loop to its fifth read, which fails
with `MalformedRemainingLength` whatever that fifth byte is. -/
theorem remLenLoop_malformed (b0 b1 b2 b3 b4 : Nat) (rest : List Nat)
    (h0 : b0 &&& 128 ≠ 0) (h1 : b1 &&& 128 ≠ 0)
    (h2 : b2 &&& 128 ≠ 0) (h3 : b3 &&& 128 ≠ 0) :
    runParser (remLenLoop 0 0) (b0 :: b1 :: b2 :: b3 :: b4 :: rest) =
      .error .malformedRemainingLength := by
  rw [remLenLoop]
  simp only [runParser_readByte_cons]
  rw [if_neg (by omega : ¬ (4:Nat) ≤ 0), if_neg (by simpa using h0)]
  rw [remLenLoop]
  simp only [runParser_readByte_cons]
  rw [if_neg (by omega : ¬ (4:Nat) ≤ 1), if_neg (by simpa using h1)]
  rw [remLenLoop]
  simp only [runParser_readByte_cons]
  rw [if_neg (by omega : ¬ (4:Nat) ≤ 2), if_neg (by simpa using h2)]
  rw [remLenLoop]
  simp only [runParser_readByte_cons]
  rw [if_neg (by omega : ¬ (4:Nat) ≤ 3), if_neg (by simpa using h3)]
  rw [remLenLoop]
  simp only [runParser_readByte_cons]
  rw [if_pos (by omega : (4:Nat) ≤ 4)]
  rfl

/-! ## UTF-8 validity and length-prefixed strings
(`impl Decodable for String`, `src/encodable.rs`) -/

/-- A Rust `String`, carried as its UTF-8 byte list. -/
abbrev RStr := List Nat

/-- Continuation byte `0x80..=0xBF`. -/
def utf8Cont (b : Nat) : Bool := decide (128 ≤ b ∧ b ≤ 191)

/-- Acceptance condition of `String::from_utf8` (RFC 3629): ASCII,
2/3/4-byte sequences with the usual restricted second bytes ruling out
overlong forms, surrogates and values above U+10FFFF. -/
def utf8Valid : List Nat → Bool
  | [] => true
  | b :: r =>
    if b < 128 then utf8Valid r
    else if 194 ≤ b ∧ b ≤ 223 then
      match r with
      | c :: r2 => utf8Cont c && utf8Valid r2
      | [] => false
    else if b = 224 then
      match r with
      | c :: d :: r2 => decide (160 ≤ c ∧ c ≤ 191) && utf8Cont d && utf8Valid r2
      | _ => false
    else if (225 ≤ b ∧ b ≤ 236) ∨ b = 238 ∨ b = 239 then
      match r with
      | c :: d :: r2 => utf8Cont c && utf8Cont d && utf8Valid r2
      | _ => false
    else if b = 237 then
      match r with
      | c :: d :: r2 => decide (128 ≤ c ∧ c ≤ 159) && utf8Cont d && utf8Valid r2
      | _ => false
    else if b = 240 then
      match r with
      | c :: d :: e :: r2 =>
        decide (144 ≤ c ∧ c ≤ 191) && utf8Cont d && utf8Cont e && utf8Valid r2
      | _ => false
    else if 241 ≤ b ∧ b ≤ 243 then
      match r with
      | c :: d :: e :: r2 => utf8Cont c && utf8Cont d && utf8Cont e && utf8Valid r2
      | _ => false
    else if b = 244 then
      match r with
      | c :: d :: e :: r2 =>
        decide (128 ≤ c ∧ c ≤ 143) && utf8Cont d && utf8Cont e && utf8Valid r2
      | _ => false
    else false

/-- `impl Encodable for &str`: 16-bit big-endian byte length (the `as
u16` cast is the `% 65536`), then the raw bytes. -/
def encodeStr (s : RStr) : List Nat := encodeU16 (s.length % 65536) ++ s

/-- `encoded_length` of a string: `2 + byte length`. -/
def strEncodedLength (s : RStr) : Nat := 2 + s.length

/-- `impl Decodable for String`: read the 16-bit length, `read_exact`
that many bytes, then `String::from_utf8`. -/
def decodeStr : Parser RStr :=
  decodeU16.bind fun len =>
    Parser.readExact len fun buf =>
      if utf8Valid buf then Parser.pure buf else Parser.fail .utf8Error

theorem decodeStr_encodeStr {s : RStr} (hlen : s.length ≤ 65535)
    (hu : utf8Valid s = true) (rest : List Nat) :
    runParser decodeStr (encodeStr s ++ rest) = .ok (s, rest) := by
  have hmod : s.length % 65536 = s.length := Nat.mod_eq_of_lt (by omega)
  rw [decodeStr, encodeStr, List.append_assoc, runParser_bind,
    decodeU16_encodeU16 (by omega) (s ++ rest), hmod]
  simp only [runParser]
  rw [if_pos (by simp), List.take_left, List.drop_left, if_pos hu]
  exact rfl

/-! ## Packet type and fixed header
(`src/control/packet_type.rs`, `src/control/fixed_header.rs`) -/

/-- The fourteen MQTT control types. -/
inductive ControlType : Type where
  | connect
  | connack
  | publish
  | puback
  | pubrec
  | pubrel
  | pubcomp
  | subscribe
  | suback
  | unsubscribe
  | unsuback
  | pingreq
  | pingresp
  | disconnect
  deriving Repr, DecidableEq

/-- The wire value of each control type (`mod value` constants, 1..14). -/
def ControlType.val : ControlType → Nat
  | .connect => 1
  | .connack => 2
  | .publish => 3
  | .puback => 4
  | .pubrec => 5
  | .pubrel => 6
  | .pubcomp => 7
  | .subscribe => 8
  | .suback => 9
  | .unsubscribe => 10
  | .unsuback => 11
  | .pingreq => 12
  | .pingresp => 13
  | .disconnect => 14

/-- A control type together with its four flag bits. The source stores
the bits as four `bool`s in the old `packet_type.rs` and as a `u8`
nibble in the newer packet files; the nibble view is used here, `flags`
being the low four bits of the type byte. -/
structure PacketType where
  control_type : ControlType
  flags : Nat
  deriving Repr, DecidableEq

/-- `PacketType::with_default`: the flag nibble required by MQTT-2.2.2
(`0010` for PUBREL/SUBSCRIBE/UNSUBSCRIBE, `0000` otherwise). -/
def PacketType.defaultFlags : ControlType → Nat
  | .pubrel => 2
  | .subscribe => 2
  | .unsubscribe => 2
  | _ => 0

def PacketType.withDefault (t : ControlType) : PacketType := ⟨t, PacketType.defaultFlags t⟩

/-- `PacketType::to_u8`: control type in the high nibble, flags in the low. -/
def PacketType.toU8 (pt : PacketType) : Nat := (pt.control_type.val <<< 4) ||| pt.flags

/-- `PacketTypeError` (`src/control/packet_type.rs`). -/
inductive PacketTypeError : Type where
  | reservedType (t : Nat) : PacketTypeError
  | undefinedType (t : Nat) : PacketTypeError
  | invalidFlag : PacketTypeError
  deriving Repr, DecidableEq

/-- `PacketType::from_u8`: split the byte into nibbles, validate the flag
nibble (any nibble is accepted for PUBLISH), reject types 0 and 15 as
reserved. -/
def PacketType.fromU8 (v : Nat) : Except PacketTypeError PacketType :=
  let type_val := v >>> 4
  let flag := v &&& 15
  match type_val with
  | 1 => if flag ≠ 0 then .error .invalidFlag else .ok ⟨.connect, 0⟩
  | 2 => if flag ≠ 0 then .error .invalidFlag else .ok ⟨.connack, 0⟩
  | 3 => .ok ⟨.publish, flag⟩
  | 4 => if flag ≠ 0 then .error .invalidFlag else .ok ⟨.puback, 0⟩
  | 5 => if flag ≠ 0 then .error .invalidFlag else .ok ⟨.pubrec, 0⟩
  | 6 => if flag ≠ 2 then .error .invalidFlag else .ok ⟨.pubrel, 2⟩
  | 7 => if flag ≠ 0 then .error .invalidFlag else .ok ⟨.pubcomp, 0⟩
  | 8 => if flag ≠ 2 then .error .invalidFlag else .ok ⟨.subscribe, 2⟩
  | 9 => if flag ≠ 0 then .error .invalidFlag else .ok ⟨.suback, 0⟩
  | 10 => if flag ≠ 2 then .error .invalidFlag else .ok ⟨.unsubscribe, 2⟩
  | 11 => if flag ≠ 0 then .error .invalidFlag else .ok ⟨.unsuback, 0⟩
  | 12 => if flag ≠ 0 then .error .invalidFlag else .ok ⟨.pingreq, 0⟩
  | 13 => if flag ≠ 0 then .error .invalidFlag else .ok ⟨.pingresp, 0⟩
  | 14 => if flag ≠ 0 then .error .invalidFlag else .ok ⟨.disconnect, 0⟩
  | 0 => .error (.reservedType type_val)
  | 15 => .error (.reservedType type_val)
  | _ => .error (.undefinedType type_val)

theorem toU8_eq (ct : ControlType) (f : Nat) (hf : f < 16) :
    PacketType.toU8 ⟨ct, f⟩ = 16 * ct.val + f := by
  unfold PacketType.toU8
  have h := lor_shiftLeft_eq (a := f) (k := 4) ct.val hf
  rw [Nat.lor_comm] at h
  simpa using h

theorem shiftRight4_16 (c f : Nat) (hf : f < 16) : (16 * c + f) >>> 4 = c := by
  rw [Nat.shiftRight_eq_div_pow]
  norm_num
  omega

theorem and15_16 (c f : Nat) (hf : f < 16) : (16 * c + f) &&& 15 = f := by
  rw [and_15_eq_mod]
  omega

/-- Type-byte round-trip: `from_u8(to_u8(pt)) = pt` whenever the flags
are the default nibble, or any nibble for PUBLISH. -/
theorem fromU8_toU8 {ct : ControlType} {f : Nat} (hf : f < 16)
    (hok : ct = .publish ∨ f = PacketType.defaultFlags ct) :
    PacketType.fromU8 (PacketType.toU8 ⟨ct, f⟩) = .ok ⟨ct, f⟩ := by
  rcases hok with rfl | hdef
  · rw [toU8_eq _ _ hf]
    simp only [ControlType.val]
    simp only [PacketType.fromU8]
    rw [shiftRight4_16 3 f hf, and15_16 3 f hf]
  · cases ct <;> (subst hdef; rfl)

/-- `FixedHeader` (`src/control/fixed_header.rs`): packet-type byte plus
the remaining length. -/
structure FixedHeader where
  packet_type : PacketType
  remaining_length : Nat
  deriving Repr, DecidableEq

/-- `FixedHeader::new`. -/
def FixedHeader.new (pt : PacketType) (rl : Nat) : FixedHeader := ⟨pt, rl⟩

/-- `impl Encodable for FixedHeader`: the type byte, then the
remaining-length varint. -/
def FixedHeader.encode (fh : FixedHeader) : List Nat :=
  fh.packet_type.toU8 :: encodeRemLen fh.remaining_length

/-- `FixedHeader::encoded_length`: 1 type byte plus 1-4 varint bytes. -/
def FixedHeader.encodedLength (fh : FixedHeader) : Nat :=
  let rem_size :=
    if 2097152 ≤ fh.remaining_length then 4
    else if 16384 ≤ fh.remaining_length then 3
    else if 128 ≤ fh.remaining_length then 2
    else 1
  1 + rem_size

/-- The reads performed by `FixedHeader::decode_with` before packet-type
classification: one type byte, then the remaining-length loop. -/
def fixedHeaderRaw : Parser (Nat × Nat) :=
  Parser.readByte fun type_val =>
    (remLenLoop 0 0).bind fun remaining_len => Parser.pure (type_val, remaining_len)

/-- How `FixedHeader::decode_with` surfaces `PacketTypeError`:
`Unrecognized` and `ReservedType` pick up the parsed remaining length
(the drained-bytes buffer is empty at this layer). -/
def fixedHeaderErrOf : PacketTypeError → Nat → DecErr
  | .reservedType t, len => .reservedType t len []
  | .undefinedType t, len => .unrecognizedType t len []
  | .invalidFlag, _ => .invalidFlag

/-- `impl Decodable for FixedHeader`. -/
def fixedHeaderDecode : Parser FixedHeader :=
  fixedHeaderRaw.bind fun tr =>
    match PacketType.fromU8 tr.1 with
    | .ok pt => Parser.pure (FixedHeader.new pt tr.2)
    | .error e => Parser.fail (fixedHeaderErrOf e tr.2)

/-- Conditional form of `runParser_bind`, convenient for chaining
round-trip lemmas. -/
theorem runParser_bind_ok {α β : Type} {p : Parser α} {f : α → Parser β}
    {bs : List Nat} {a : α} {rest : List Nat}
    (h : runParser p bs = .ok (a, rest)) :
    runParser (p.bind f) bs = runParser (f a) rest := by
  rw [runParser_bind, h]

theorem fixedHeaderRaw_encode {fh : FixedHeader} (hrl : fh.remaining_length < 268435456)
    (rest : List Nat) :
    runParser fixedHeaderRaw (fh.encode ++ rest) =
      .ok ((fh.packet_type.toU8, fh.remaining_length), rest) := by
  rw [FixedHeader.encode, fixedHeaderRaw]
  simp only [List.cons_append, runParser_readByte_cons, runParser_bind,
    remLen_roundtrip hrl, runParser_pure]

/-- Fixed-header round-trip for headers with an in-range remaining
length and a legal flag nibble. -/
theorem fixedHeaderDecode_encode {fh : FixedHeader}
    (hrl : fh.remaining_length < 268435456) (hf : fh.packet_type.flags < 16)
    (hok : fh.packet_type.control_type = .publish ∨
      fh.packet_type.flags = PacketType.defaultFlags fh.packet_type.control_type)
    (rest : List Nat) :
    runParser fixedHeaderDecode (fh.encode ++ rest) = .ok (fh, rest) := by
  obtain ⟨⟨ct, f⟩, rl⟩ := fh
  rw [fixedHeaderDecode, runParser_bind_ok (fixedHeaderRaw_encode hrl rest)]
  simp only at hf hok ⊢
  rw [fromU8_toU8 hf hok]
  rfl

/-! ## Topic names and topic filters on the wire
(`src/topic_name.rs`, `src/topic_filter.rs`)

The validators work on the UTF-8 byte lists.  `#`, `+` and `/` are the
ASCII bytes 35, 43 and 47; in valid UTF-8 those byte values occur exactly
where the corresponding characters do (continuation bytes are `≥ 0x80`),
so the char-level checks of the source coincide with these byte-level
ones on the decoded (UTF-8-checked) strings. -/

/-- `is_invalid_topic_name`: empty, longer than 65535 bytes, or
containing `#` (35) or `+` (43). -/
def isInvalidTopicNameBytes (t : RStr) : Bool :=
  t.isEmpty || decide (65535 < t.length) || t.any (fun b => b = 35 ∨ b = 43)

/-- `impl Decodable for TopicName`: a length-prefixed string followed by
`TopicName::new` validation. -/
def decodeTopicName : Parser RStr :=
  decodeStr.bind fun s =>
    if isInvalidTopicNameBytes s then Parser.fail .invalidTopicName else Parser.pure s

/-- `str::split('/')` on bytes: split at each separator byte; always at
least one (possibly empty) level. -/
def splitOnByte (sep : Nat) : List Nat → List (List Nat)
  | [] => [[]]
  | b :: r =>
    if b = sep then [] :: splitOnByte sep r
    else
      match splitOnByte sep r with
      | l :: ls => (b :: l) :: ls
      | [] => [[b]]

/-- A level matching `[^+#]*`: no wildcard byte at all. -/
def levelPlain (l : List Nat) : Bool := !(l.any (fun b => b = 43 ∨ b = 35))

/-- A level matching `([^+#]*|\+)`. -/
def levelA (l : List Nat) : Bool := levelPlain l || l == [43]

/-- The language of `VALIDATE_TOPIC_FILTER_REGEX`,
`^(([^+#]*|\+)(/([^+#]*|\+))*(/#)?|#)$`, read along the `/`-level
decomposition: since `[^+#]` never needs to match across a written `/`
of the pattern, the anchored regex accepts a string iff every level but
the last matches `([^+#]*|\+)` and the last matches that or is exactly
`#`. -/
def filterLevelsOk : List (List Nat) → Bool
  | [] => false
  | [l] => levelA l || l == [35]
  | l :: rest => levelA l && filterLevelsOk rest

/-- `is_invalid_topic_filter`: empty, longer than 65535 bytes, or
rejected by the validation regex. -/
def isInvalidTopicFilterBytes (t : RStr) : Bool :=
  t.isEmpty || decide (65535 < t.length) || !(filterLevelsOk (splitOnByte 47 t))

/-- `impl Decodable for TopicFilter`: a length-prefixed string followed
by `TopicFilter::new` validation. -/
def decodeTopicFilter : Parser RStr :=
  decodeStr.bind fun s =>
    if isInvalidTopicFilterBytes s then Parser.fail .invalidTopicFilter else Parser.pure s

theorem decodeTopicName_encode {s : RStr} (hlen : s.length ≤ 65535)
    (hu : utf8Valid s = true) (hv : isInvalidTopicNameBytes s = false) (rest : List Nat) :
    runParser decodeTopicName (encodeStr s ++ rest) = .ok (s, rest) := by
  rw [decodeTopicName, runParser_bind_ok (decodeStr_encodeStr hlen hu rest), hv]
  rfl

theorem decodeTopicFilter_encode {s : RStr} (hlen : s.length ≤ 65535)
    (hu : utf8Valid s = true) (hv : isInvalidTopicFilterBytes s = false) (rest : List Nat) :
    runParser decodeTopicFilter (encodeStr s ++ rest) = .ok (s, rest) := by
  rw [decodeTopicFilter, runParser_bind_ok (decodeStr_encodeStr hlen hu rest), hv]
  rfl

/-! ## Variable-header fragments (`src/control/variable_header/`) -/

/-- `ProtocolLevel` (`protocol_level.rs`): `0x03`/`0x04`/`0x05`. -/
inductive ProtocolLevel : Type where
  | version310
  | version311
  | version50
  deriving Repr, DecidableEq

def ProtocolLevel.toU8 : ProtocolLevel → Nat
  | .version310 => 3
  | .version311 => 4
  | .version50 => 5

/-- `ProtocolLevel::from_u8`. -/
def ProtocolLevel.fromU8 (n : Nat) : Option ProtocolLevel :=
  match n with
  | 3 => some .version310
  | 4 => some .version311
  | 5 => some .version50
  | _ => none

/-- `impl Decodable for ProtocolLevel`: unknown bytes fail with
`InvalidProtocolVersion`. -/
def decodeProtocolLevel : Parser ProtocolLevel :=
  Parser.readByte fun b =>
    match ProtocolLevel.fromU8 b with
    | some l => Parser.pure l
    | none => Parser.fail .invalidProtocolVersion

theorem decodeProtocolLevel_roundtrip (l : ProtocolLevel) (rest : List Nat) :
    runParser decodeProtocolLevel (l.toU8 :: rest) = .ok (l, rest) := by
  cases l <;> rfl

/-- `ConnectFlags` (`connect_flags.rs`). -/
structure ConnectFlags where
  user_name : Bool
  password : Bool
  will_retain : Bool
  will_qos : Nat
  will_flag : Bool
  clean_session : Bool
  reserved : Bool
  deriving Repr, DecidableEq

def ConnectFlags.empty : ConnectFlags := ⟨false, false, false, 0, false, false, false⟩

/-- The flag byte written by `impl Encodable for ConnectFlags`
(bit 7 username, 6 password, 5 will-retain, 4..3 will-qos, 2 will,
1 clean-session; bit 0 is never set). -/
def ConnectFlags.encodeByte (f : ConnectFlags) : Nat :=
  (f.user_name.toNat <<< 7) ||| (f.password.toNat <<< 6) |||
    (f.will_retain.toNat <<< 5) ||| (f.will_qos <<< 3) |||
    (f.will_flag.toNat <<< 2) ||| (f.clean_session.toNat <<< 1)

/-- `impl Decodable for ConnectFlags`: a nonzero reserved bit 0 is
`InvalidReservedFlag`. -/
def decodeConnectFlags : Parser ConnectFlags :=
  Parser.readByte fun code =>
    if code &&& 1 ≠ 0 then Parser.fail .invalidReservedFlag
    else
      Parser.pure
        { user_name := decide (code &&& 128 ≠ 0)
          password := decide (code &&& 64 ≠ 0)
          will_retain := decide (code &&& 32 ≠ 0)
          will_qos := (code &&& 24) >>> 3
          will_flag := decide (code &&& 4 ≠ 0)
          clean_session := decide (code &&& 2 ≠ 0)
          reserved := decide (code &&& 1 ≠ 0) }

theorem decodeConnectFlags_roundtrip {f : ConnectFlags} (hres : f.reserved = false)
    (hq : f.will_qos < 4) (rest : List Nat) :
    runParser decodeConnectFlags (f.encodeByte :: rest) = .ok (f, rest) := by
  obtain ⟨u, p, r, q, w, c, res⟩ := f
  simp only at hres hq
  subst hres
  have hq4 : q = 0 ∨ q = 1 ∨ q = 2 ∨ q = 3 := by omega
  rcases hq4 with rfl | rfl | rfl | rfl <;>
    cases u <;> cases p <;> cases r <;> cases w <;> cases c <;> rfl

/-- `ConnackFlags` (`connect_ack_flags.rs`): only bit 0 (session
present) may be set. -/
structure ConnackFlags where
  session_present : Bool
  deriving Repr, DecidableEq

def ConnackFlags.encodeByte (f : ConnackFlags) : Nat := f.session_present.toNat

/-- `impl Decodable for ConnackFlags`: `code & !1 != 0` (i.e. any of
bits 7..1) is `InvalidReservedFlag`; session-present is `code == 1`. -/
def decodeConnackFlags : Parser ConnackFlags :=
  Parser.readByte fun code =>
    if code &&& 254 ≠ 0 then Parser.fail .invalidReservedFlag
    else Parser.pure ⟨code == 1⟩

theorem decodeConnackFlags_roundtrip (f : ConnackFlags) (rest : List Nat) :
    runParser decodeConnackFlags (f.encodeByte :: rest) = .ok (f, rest) := by
  obtain ⟨s⟩ := f
  cases s <;> rfl

/-- The variable-header sum (`impl_variable_headers!` in
`src/control/variable_header/mod.rs`).  The connect return code is the
raw byte, as `ConnackPacket` (`ConnectReturnCode(ret_code)`) stores it. -/
inductive VariableHeader : Type where
  | packetIdentifier (v : Nat) : VariableHeader
  | protocolName (v : RStr) : VariableHeader
  | protocolLevel (v : ProtocolLevel) : VariableHeader
  | connectFlags (v : ConnectFlags) : VariableHeader
  | keepAlive (v : Nat) : VariableHeader
  | connackFlags (v : ConnackFlags) : VariableHeader
  | connectReturnCode (v : Nat) : VariableHeader
  deriving Repr, DecidableEq

/-- `impl Encodable for VariableHeader`, dispatching to each fragment. -/
def VariableHeader.encode : VariableHeader → List Nat
  | .packetIdentifier v => encodeU16 v
  | .protocolName s => encodeStr s
  | .protocolLevel l => [l.toU8]
  | .connectFlags f => [f.encodeByte]
  | .keepAlive v => encodeU16 v
  | .connackFlags f => [f.encodeByte]
  | .connectReturnCode c => [c]

/-- `VariableHeader::encoded_length`. -/
def VariableHeader.encodedLength : VariableHeader → Nat
  | .packetIdentifier _ => 2
  | .protocolName s => strEncodedLength s
  | .protocolLevel _ => 1
  | .connectFlags _ => 1
  | .keepAlive _ => 2
  | .connackFlags _ => 1
  | .connectReturnCode _ => 1

/-! ## Quality of service (`src/qos.rs`, `src/packet/publish.rs`) -/

/-- `QualityOfService`. -/
inductive QualityOfService : Type where
  | level0
  | level1
  | level2
  deriving Repr, DecidableEq

def QualityOfService.toU8 : QualityOfService → Nat
  | .level0 => 0
  | .level1 => 1
  | .level2 => 2

/-- The QoS byte read by the SUBSCRIBE payload decoder. -/
def qosOfByte : Nat → Option QualityOfService
  | 0 => some .level0
  | 1 => some .level1
  | 2 => some .level2
  | _ => none

/-- `QoSWithPacketIdentifier` (`src/packet/publish.rs`). -/
inductive QoSWithPacketIdentifier : Type where
  | level0
  | level1 (pkid : Nat)
  | level2 (pkid : Nat)
  deriving Repr, DecidableEq

/-! ## CONNECT (`src/packet/connect.rs`) -/

/-- `ConnectPacketPayload`: client identifier plus the four optional
fields gated by the connect flags. -/
structure ConnectPacketPayload where
  client_identifier : RStr
  will_topic : Option RStr
  will_message : Option RStr
  user_name : Option RStr
  password : Option RStr
  deriving Repr, DecidableEq

def ConnectPacketPayload.mkNew (client_identifier : RStr) : ConnectPacketPayload :=
  ⟨client_identifier, none, none, none, none⟩

/-- Encoding of an optional payload string: present fields are written
length-prefixed, absent fields write nothing. -/
def optStrEncode : Option RStr → List Nat
  | some s => encodeStr s
  | none => []

/-- `map(encoded_length).unwrap_or(0)`. -/
def optStrLen : Option RStr → Nat
  | some s => strEncodedLength s
  | none => 0

/-- `impl Encodable for ConnectPacketPayload`: client identifier, then
each present optional field in order. -/
def ConnectPacketPayload.encode (p : ConnectPacketPayload) : List Nat :=
  encodeStr p.client_identifier ++ optStrEncode p.will_topic ++
    optStrEncode p.will_message ++ optStrEncode p.user_name ++ optStrEncode p.password

/-- `ConnectPacketPayload::encoded_length`. -/
def ConnectPacketPayload.encodedLength (p : ConnectPacketPayload) : Nat :=
  strEncodedLength p.client_identifier + optStrLen p.will_topic +
    optStrLen p.will_message + optStrLen p.user_name + optStrLen p.password

/-- `ConnectPacket`: cached fixed header, the four variable headers in
wire order, and the payload. -/
structure ConnectPacket where
  fixed_header : FixedHeader
  variable_headers : List VariableHeader
  payload : ConnectPacketPayload
  deriving Repr, DecidableEq

/-- Sum of the encoded lengths of a variable-header list
(`fold(0, |b, a| b + a.encoded_length())`). -/
def vhListLen (vs : List VariableHeader) : Nat :=
  vs.foldl (fun b a => b + a.encodedLength) 0

/-- `ConnectPacket::calculate_remaining_length`. -/
def ConnectPacket.calculateRemainingLength (p : ConnectPacket) : Nat :=
  vhListLen p.variable_headers + p.payload.encodedLength

/-- The protocol name written by the constructor. -/
def mqttName : RStr := [77, 81, 84, 84]

/-- `ConnectPacket::with_level`: build the packet, then store the
computed remaining length. -/
def ConnectPacket.withLevel (client_identifier : RStr) (level : ProtocolLevel) :
    ConnectPacket :=
  let pk : ConnectPacket :=
    { fixed_header := FixedHeader.new (PacketType.withDefault .connect) 0
      variable_headers :=
        [.protocolName mqttName, .protocolLevel level,
         .connectFlags ConnectFlags.empty, .keepAlive 0]
      payload := ConnectPacketPayload.mkNew client_identifier }
  { pk with
    fixed_header := FixedHeader.new pk.fixed_header.packet_type
      pk.calculateRemainingLength }

/-- `ConnectPacket::new`: protocol level 4 (v3.1.1). -/
def ConnectPacket.mkNew (client_identifier : RStr) : ConnectPacket :=
  ConnectPacket.withLevel client_identifier .version311

/-- The `if let &mut VariableHeader::ConnectFlags(..) = &mut
self.variable_headers[2]` shared by the connect setters.  On the
well-shaped packets the setters are ever applied to, slot 2 holds the
connect flags; on any other shape the source panics (modelled here as
leaving the list unchanged, a case the reachability invariant rules
out). -/
def setConnectFlagsAt2 (vs : List VariableHeader)
    (g : ConnectFlags → ConnectFlags) : List VariableHeader :=
  match vs with
  | a :: b :: .connectFlags f :: rest => a :: b :: .connectFlags (g f) :: rest
  | other => other

/-- Store the recomputed remaining length
(`self.fixed_header.remaining_length = self.calculate_remaining_length()`). -/
def ConnectPacket.fixRemaining (p : ConnectPacket) : ConnectPacket :=
  { p with
    fixed_header := FixedHeader.new p.fixed_header.packet_type
      p.calculateRemainingLength }

/-- `ConnectPacket::set_user_name`. -/
def ConnectPacket.set_user_name (p : ConnectPacket) (name : Option RStr) : ConnectPacket :=
  ConnectPacket.fixRemaining
    { p with
      variable_headers :=
        setConnectFlagsAt2 p.variable_headers fun f => { f with user_name := name.isSome }
      payload := { p.payload with user_name := name } }

/-- `ConnectPacket::set_will`. -/
def ConnectPacket.set_will (p : ConnectPacket) (topic_message : Option (RStr × RStr)) :
    ConnectPacket :=
  ConnectPacket.fixRemaining
    { p with
      variable_headers :=
        setConnectFlagsAt2 p.variable_headers fun f =>
          { f with will_flag := topic_message.isSome }
      payload :=
        { p.payload with
          will_topic := topic_message.map Prod.fst
          will_message := topic_message.map Prod.snd } }

/-- `ConnectPacket::set_password`. -/
def ConnectPacket.set_password (p : ConnectPacket) (password : Option RStr) : ConnectPacket :=
  ConnectPacket.fixRemaining
    { p with
      variable_headers :=
        setConnectFlagsAt2 p.variable_headers fun f => { f with password := password.isSome }
      payload := { p.payload with password := password } }

/-- `ConnectPacket::set_client_identifier`. -/
def ConnectPacket.set_client_identifier (p : ConnectPacket) (id : RStr) : ConnectPacket :=
  ConnectPacket.fixRemaining { p with payload := { p.payload with client_identifier := id } }

/-- `ConnectPacket::set_will_retain` (no length change, no recompute). -/
def ConnectPacket.set_will_retain (p : ConnectPacket) (will_retain : Bool) : ConnectPacket :=
  { p with
    variable_headers :=
      setConnectFlagsAt2 p.variable_headers fun f => { f with will_retain := will_retain } }

/-- `ConnectPacket::set_will_qos` (callers assert `will_qos <= 2`). -/
def ConnectPacket.set_will_qos (p : ConnectPacket) (will_qos : Nat) : ConnectPacket :=
  { p with
    variable_headers :=
      setConnectFlagsAt2 p.variable_headers fun f => { f with will_qos := will_qos } }

/-- `ConnectPacket::set_clean_session`. -/
def ConnectPacket.set_clean_session (p : ConnectPacket) (clean_session : Bool) : ConnectPacket :=
  { p with
    variable_headers :=
      setConnectFlagsAt2 p.variable_headers fun f => { f with clean_session := clean_session } }

/-- `impl Encodable` for the packet (the `impl_variable_packet!` macro):
fixed header, variable headers in order, payload. -/
def ConnectPacket.encode (p : ConnectPacket) : List Nat :=
  p.fixed_header.encode ++ (p.variable_headers.map VariableHeader.encode).flatten ++
    p.payload.encode

/-- `encoded_length` from the same macro. -/
def ConnectPacket.encodedLength (p : ConnectPacket) : Nat :=
  p.fixed_header.encodedLength + vhListLen p.variable_headers + p.payload.encodedLength

/-- One optional payload field, read iff its connect-flag bit was set. -/
def optDecode (cond : Bool) : Parser (Option RStr) :=
  if cond then decodeStr.bind fun s => Parser.pure (some s) else Parser.pure none

/-- `impl Decodable for ConnectPacketPayload`, driven by the decoded
connect flags. -/
def decodeConnectPayload (flags : ConnectFlags) : Parser ConnectPacketPayload :=
  decodeStr.bind fun ident =>
    (optDecode flags.will_flag).bind fun topic =>
      (optDecode flags.will_flag).bind fun msg =>
        (optDecode flags.user_name).bind fun uname =>
          (optDecode flags.password).bind fun pwd =>
            Parser.pure ⟨ident, topic, msg, uname, pwd⟩

/-- `ConnectPacket::decode_packet`: the four variable headers in order,
then the flag-driven payload. -/
def ConnectPacket.decodePacket (fh : FixedHeader) : Parser ConnectPacket :=
  decodeStr.bind fun pn =>
    decodeProtocolLevel.bind fun lv =>
      decodeConnectFlags.bind fun fl =>
        decodeU16.bind fun ka =>
          (decodeConnectPayload fl).bind fun pl =>
            Parser.pure
              ⟨fh,
               [.protocolName pn, .protocolLevel lv, .connectFlags fl, .keepAlive ka],
               pl⟩

/-- A string short enough for its 16-bit length prefix and valid UTF-8. -/
def strValidB (s : RStr) : Bool := decide (s.length ≤ 65535) && utf8Valid s

def optStrValidB : Option RStr → Bool
  | some s => strValidB s
  | none => true

/-- Values of `ConnectPacket` as produced by its constructor and
setters: the four variable headers in shape, in-range scalar fields,
payload options present exactly as the flags say, and the stored
remaining length the computed one. -/
def ConnectPacket.validB (p : ConnectPacket) : Bool :=
  match p.variable_headers with
  | [.protocolName pn, .protocolLevel _, .connectFlags fl, .keepAlive ka] =>
    strValidB pn &&
      (decide (ka < 65536) &&
      ((fl.reserved == false) &&
      (decide (fl.will_qos < 4) &&
      (strValidB p.payload.client_identifier &&
      (optStrValidB p.payload.will_topic &&
      (optStrValidB p.payload.will_message &&
      (optStrValidB p.payload.user_name &&
      (optStrValidB p.payload.password &&
      ((p.payload.will_topic.isSome == fl.will_flag) &&
      ((p.payload.will_message.isSome == fl.will_flag) &&
      ((p.payload.user_name.isSome == fl.user_name) &&
      ((p.payload.password.isSome == fl.password) &&
      ((p.fixed_header ==
          FixedHeader.new (PacketType.withDefault .connect) p.calculateRemainingLength) &&
        decide (p.calculateRemainingLength < 268435456))))))))))))))
  | _ => false

theorem optDecode_encode {o : Option RStr} {cond : Bool} (hmatch : o.isSome = cond)
    (hv : optStrValidB o = true) (rest : List Nat) :
    runParser (optDecode cond) (optStrEncode o ++ rest) = .ok (o, rest) := by
  cases o with
  | none =>
    subst hmatch
    rfl
  | some s =>
    subst hmatch
    simp only [optStrValidB, strValidB, Bool.and_eq_true, decide_eq_true_eq] at hv
    rw [optStrEncode, optDecode]
    simp only [Option.isSome_some, if_true]
    rw [runParser_bind_ok (decodeStr_encodeStr hv.1 hv.2 rest)]
    rfl

theorem decodeConnectPayload_encode {fl : ConnectFlags} {pl : ConnectPacketPayload}
    (hci : strValidB pl.client_identifier = true)
    (hwt : optStrValidB pl.will_topic = true)
    (hwm : optStrValidB pl.will_message = true)
    (hun : optStrValidB pl.user_name = true)
    (hpw : optStrValidB pl.password = true)
    (mwt : pl.will_topic.isSome = fl.will_flag)
    (mwm : pl.will_message.isSome = fl.will_flag)
    (mun : pl.user_name.isSome = fl.user_name)
    (mpw : pl.password.isSome = fl.password)
    (rest : List Nat) :
    runParser (decodeConnectPayload fl) (pl.encode ++ rest) = .ok (pl, rest) := by
  obtain ⟨ci, wt, wm, un, pw⟩ := pl
  simp only at hci hwt hwm hun hpw mwt mwm mun mpw
  simp only [strValidB, Bool.and_eq_true, decide_eq_true_eq] at hci
  rw [decodeConnectPayload, ConnectPacketPayload.encode]
  simp only [List.append_assoc]
  rw [runParser_bind_ok (decodeStr_encodeStr hci.1 hci.2 _),
    runParser_bind_ok (optDecode_encode mwt hwt _),
    runParser_bind_ok (optDecode_encode mwm hwm _),
    runParser_bind_ok (optDecode_encode mun hun _),
    runParser_bind_ok (optDecode_encode mpw hpw _)]
  rfl

/-- CONNECT body round-trip: decoding the concatenated variable headers
and payload of a well-formed `ConnectPacket` yields the packet back. -/
theorem connectDecodePacket_encode {p : ConnectPacket} (hv : p.validB = true)
    (rest : List Nat) :
    runParser (ConnectPacket.decodePacket p.fixed_header)
      ((p.variable_headers.map VariableHeader.encode).flatten ++ p.payload.encode ++ rest) =
      .ok (p, rest) := by
  obtain ⟨fh, vhs, pl⟩ := p
  unfold ConnectPacket.validB at hv
  split at hv
  case h_2 => exact absurd hv (by simp)
  case h_1 pn lv fl ka heq =>
    simp only [ConnectPacket.mk.injEq] at heq
    obtain ⟨rfl⟩ := heq
    simp only [Bool.and_eq_true, decide_eq_true_eq, beq_iff_eq] at hv
    obtain ⟨hpn, hka, hres, hq, hci, hwt, hwm, hun, hpw, mwt, mwm, mun, mpw, hfh, hrl⟩ := hv
    simp only [strValidB, Bool.and_eq_true, decide_eq_true_eq] at hpn
    rw [ConnectPacket.decodePacket]
    simp only [List.map, List.flatten, VariableHeader.encode, List.append_assoc,
      List.append_nil, List.cons_append, List.nil_append]
    rw [runParser_bind_ok (decodeStr_encodeStr hpn.1 hpn.2 _)]
    rw [runParser_bind_ok (decodeProtocolLevel_roundtrip lv _)]
    rw [runParser_bind_ok (decodeConnectFlags_roundtrip hres hq _)]
    rw [runParser_bind_ok (decodeU16_encodeU16 hka _)]
    rw [runParser_bind_ok (decodeConnectPayload_encode hci hwt hwm hun hpw
      mwt mwm mun mpw rest)]
    rfl

/-! ## CONNACK (`src/packet/connack.rs`) -/

/-- `ConnackPacket`: fixed header, the two variable headers
(connack flags then connect return code), empty payload. -/
structure ConnackPacket where
  fixed_header : FixedHeader
  variable_headers : List VariableHeader
  payload : Unit
  deriving Repr, DecidableEq

/-- `ConnackPacket::new`: remaining length is always 2. -/
def ConnackPacket.mkNew (session_present : Bool) (ret_code : Nat) : ConnackPacket :=
  { fixed_header := FixedHeader.new (PacketType.withDefault .connack) 2
    variable_headers := [.connackFlags ⟨session_present⟩, .connectReturnCode ret_code]
    payload := () }

/-- `ConnackPacket::session_present`: matches `variable_headers[0]`
against `ConnackFlags`; `none` is the `panic!` arm. -/
def ConnackPacket.session_present (p : ConnackPacket) : Option Bool :=
  match p.variable_headers[0]? with
  | some (VariableHeader.connackFlags flags) => some flags.session_present
  | _ => none

/-- `ConnackPacket::return_code`: matches `variable_headers[0]` against
`ConnectReturnCode`; `none` is the `panic!` arm. -/
def ConnackPacket.return_code (p : ConnackPacket) : Option Nat :=
  match p.variable_headers[0]? with
  | some (VariableHeader.connectReturnCode code) => some code
  | _ => none

/-- `ConnackPacket::set_session_present`: writes through the
`ConnackFlags` match on `variable_headers[0]`; `none` is the `panic!`
arm. -/
def ConnackPacket.set_session_present (p : ConnackPacket) (session_present : Bool) :
    Option ConnackPacket :=
  match p.variable_headers with
  | .connackFlags _ :: rest =>
    some { p with variable_headers := .connackFlags ⟨session_present⟩ :: rest }
  | _ => none

/-- `ConnackPacket::set_return_code`: writes through the
`ConnectReturnCode` match on `variable_headers[0]`; `none` is the
`panic!` arm. -/
def ConnackPacket.set_return_code (p : ConnackPacket) (code : Nat) :
    Option ConnackPacket :=
  match p.variable_headers with
  | .connectReturnCode _ :: rest =>
    some { p with variable_headers := .connectReturnCode code :: rest }
  | _ => none

def ConnackPacket.encode (p : ConnackPacket) : List Nat :=
  p.fixed_header.encode ++ (p.variable_headers.map VariableHeader.encode).flatten

def ConnackPacket.encodedLength (p : ConnackPacket) : Nat :=
  p.fixed_header.encodedLength + vhListLen p.variable_headers + 0

/-- `ConnackPacket::decode_packet`: connack flags, then return code. -/
def ConnackPacket.decodePacket (fh : FixedHeader) : Parser ConnackPacket :=
  decodeConnackFlags.bind fun flags =>
    Parser.readByte fun code =>
      Parser.pure ⟨fh, [.connackFlags flags, .connectReturnCode code], ()⟩

def ConnackPacket.validB (p : ConnackPacket) : Bool :=
  match p.variable_headers with
  | [.connackFlags _, .connectReturnCode c] =>
    decide (c < 256) &&
      (p.fixed_header == FixedHeader.new (PacketType.withDefault .connack) 2)
  | _ => false

theorem connackDecodePacket_encode {p : ConnackPacket} (hv : p.validB = true)
    (rest : List Nat) :
    runParser (ConnackPacket.decodePacket p.fixed_header)
      ((p.variable_headers.map VariableHeader.encode).flatten ++ rest) = .ok (p, rest) := by
  obtain ⟨fh, vhs, pl⟩ := p
  unfold ConnackPacket.validB at hv
  split at hv
  case h_2 => exact absurd hv (by simp)
  case h_1 fl c heq =>
    simp only [ConnackPacket.mk.injEq] at heq
    obtain ⟨rfl⟩ := heq
    rw [ConnackPacket.decodePacket]
    simp only [List.map, List.flatten, VariableHeader.encode, List.append_assoc,
      List.append_nil, List.cons_append, List.nil_append]
    rw [runParser_bind_ok (decodeConnackFlags_roundtrip fl _)]
    rfl

/-! ## PUBLISH (`src/packet/publish.rs`)

The payload is the raw byte tail (no length prefix): `encode` writes the
bytes as they are, `encoded_length` is their count, and the decoder
`read_exact`s the computed payload length. -/

/-- `PublishPacket`. -/
structure PublishPacket where
  fixed_header : FixedHeader
  topic_name : RStr
  packet_identifier : Option Nat
  payload : List Nat
  deriving Repr, DecidableEq

/-- `packet_identifier.encoded_length()` (`Option<PacketIdentifier>`:
0 when absent, 2 when present). -/
def optPkidLen : Option Nat → Nat
  | some _ => 2
  | none => 0

def optPkidEncode : Option Nat → List Nat
  | some pkid => encodeU16 pkid
  | none => []

/-- `fix_header_remaining_len`: topic name + optional packet identifier
+ raw payload. -/
def PublishPacket.fixRemaining (p : PublishPacket) : PublishPacket :=
  { p with
    fixed_header := FixedHeader.new p.fixed_header.packet_type
      (strEncodedLength p.topic_name + optPkidLen p.packet_identifier + p.payload.length) }

/-- Overwrite the flag nibble of the cached fixed header. -/
def PublishPacket.withFlags (p : PublishPacket) (flags : Nat) : PublishPacket :=
  { p with
    fixed_header :=
      ⟨⟨p.fixed_header.packet_type.control_type, flags⟩, p.fixed_header.remaining_length⟩ }

/-- `PublishPacket::new`: default PUBLISH header, `flags |= qos << 1`,
then recompute the remaining length. -/
def PublishPacket.mkNew (topic_name : RStr) (qos : QoSWithPacketIdentifier)
    (payload : List Nat) : PublishPacket :=
  let qp : Nat × Option Nat :=
    match qos with
    | .level0 => (0, none)
    | .level1 pkid => (1, some pkid)
    | .level2 pkid => (2, some pkid)
  let pk : PublishPacket :=
    { fixed_header := FixedHeader.new (PacketType.withDefault .publish) 0
      topic_name := topic_name
      packet_identifier := qp.2
      payload := payload }
  (pk.withFlags (pk.fixed_header.packet_type.flags ||| (qp.1 <<< 1))).fixRemaining

/-- `PublishPacket::set_dup`: `flags |= (dup as u8) << 3` (an or — it
cannot clear the bit). -/
def PublishPacket.set_dup (p : PublishPacket) (dup : Bool) : PublishPacket :=
  p.withFlags (p.fixed_header.packet_type.flags ||| (dup.toNat <<< 3))

/-- `PublishPacket::dup`: reads `flags & 0x80` (bit 7). -/
def PublishPacket.dup (p : PublishPacket) : Bool :=
  decide (p.fixed_header.packet_type.flags &&& 128 ≠ 0)

/-- `PublishPacket::set_qos`: ors the qos bits and swaps the packet
identifier; it does *not* recompute the remaining length. -/
def PublishPacket.set_qos (p : PublishPacket) (qos : QoSWithPacketIdentifier) :
    PublishPacket :=
  let qp : Nat × Option Nat :=
    match qos with
    | .level0 => (0, none)
    | .level1 pkid => (1, some pkid)
    | .level2 pkid => (2, some pkid)
  { p.withFlags (p.fixed_header.packet_type.flags ||| (qp.1 <<< 1)) with
    packet_identifier := qp.2 }

/-- `PublishPacket::set_retain`: `flags |= ret as u8`. -/
def PublishPacket.set_retain (p : PublishPacket) (ret : Bool) : PublishPacket :=
  p.withFlags (p.fixed_header.packet_type.flags ||| ret.toNat)

/-- `PublishPacket::retain`: `flags & 0x01`. -/
def PublishPacket.retain (p : PublishPacket) : Bool :=
  decide (p.fixed_header.packet_type.flags &&& 1 ≠ 0)

/-- `PublishPacket::set_topic_name` (recomputes the remaining length). -/
def PublishPacket.set_topic_name (p : PublishPacket) (topic_name : RStr) : PublishPacket :=
  PublishPacket.fixRemaining { p with topic_name := topic_name }

/-- `PublishPacket::set_payload` (recomputes the remaining length). -/
def PublishPacket.set_payload (p : PublishPacket) (payload : List Nat) : PublishPacket :=
  PublishPacket.fixRemaining { p with payload := payload }

def PublishPacket.encode (p : PublishPacket) : List Nat :=
  p.fixed_header.encode ++ encodeStr p.topic_name ++ optPkidEncode p.packet_identifier ++
    p.payload

def PublishPacket.encodedLength (p : PublishPacket) : Nat :=
  p.fixed_header.encodedLength +
    (strEncodedLength p.topic_name + optPkidLen p.packet_identifier) + p.payload.length

/-- `PublishPacket::decode_packet`: topic name, a packet identifier iff
the QoS flag bits are set, then `remaining_length - vhead_len` raw
payload bytes.  The u32 subtraction is overflow-checked
(`subUnderflow` models its failure). -/
def PublishPacket.decodePacket (fh : FixedHeader) : Parser PublishPacket :=
  decodeTopicName.bind fun tn =>
    (if fh.packet_type.flags &&& 6 ≠ 0 then
        decodeU16.bind fun pkid => Parser.pure (some pkid)
      else Parser.pure none).bind fun pkid =>
      let vhead_len := strEncodedLength tn + optPkidLen pkid
      (if vhead_len ≤ fh.remaining_length then
          Parser.pure (fh.remaining_length - vhead_len)
        else Parser.fail .subUnderflow).bind fun payload_len =>
        Parser.readExact payload_len fun payload => Parser.pure ⟨fh, tn, pkid, payload⟩

def PublishPacket.validB (p : PublishPacket) : Bool :=
  (p.fixed_header.packet_type.control_type == .publish) &&
    (decide (p.fixed_header.packet_type.flags < 16) &&
    (strValidB p.topic_name &&
    ((isInvalidTopicNameBytes p.topic_name == false) &&
    ((p.packet_identifier.isSome == (p.fixed_header.packet_type.flags &&& 6 != 0)) &&
    ((match p.packet_identifier with
      | some pkid => decide (pkid < 65536)
      | none => true) &&
    (p.fixed_header.remaining_length ==
      strEncodedLength p.topic_name + optPkidLen p.packet_identifier + p.payload.length) &&
      decide (p.fixed_header.remaining_length < 268435456))))))

theorem optPkid_decode_encode {pkid : Option Nat} {flags : Nat}
    (hmatch : pkid.isSome = (flags &&& 6 != 0))
    (hrange : match pkid with | some v => v < 65536 | none => True)
    (rest : List Nat) :
    runParser
      (if flags &&& 6 ≠ 0 then decodeU16.bind fun v => Parser.pure (some v)
        else Parser.pure none)
      (optPkidEncode pkid ++ rest) = .ok (pkid, rest) := by
  cases pkid with
  | none =>
    have h0 : flags &&& 6 = 0 := by simpa using hmatch.symm
    rw [optPkidEncode, if_neg (by omega), List.nil_append]
    rfl
  | some v =>
    have h0 : flags &&& 6 ≠ 0 := by simpa using hmatch.symm
    rw [optPkidEncode, if_pos h0,
      runParser_bind_ok (decodeU16_encodeU16 hrange rest)]
    rfl

/-- PUBLISH body round-trip. -/
theorem publishDecodePacket_encode {p : PublishPacket} (hv : p.validB = true)
    (rest : List Nat) :
    runParser (PublishPacket.decodePacket p.fixed_header)
      (encodeStr p.topic_name ++ optPkidEncode p.packet_identifier ++ p.payload ++ rest) =
      .ok (p, rest) := by
  obtain ⟨fh, tn, pkid, payload⟩ := p
  simp only [PublishPacket.validB, Bool.and_eq_true, decide_eq_true_eq, beq_iff_eq] at hv
  obtain ⟨hct, hfl, htn, hvn, hpk, ⟨⟨hpkr, hrl⟩, hbound⟩⟩ := hv
  simp only [strValidB, Bool.and_eq_true, decide_eq_true_eq] at htn
  rw [PublishPacket.decodePacket]
  simp only [List.append_assoc]
  rw [runParser_bind_ok (decodeTopicName_encode htn.1 htn.2 hvn _)]
  rw [runParser_bind_ok (optPkid_decode_encode hpk (by
    cases pkid with
    | some v => simpa using hpkr
    | none => trivial) _)]
  rw [if_pos (by omega)]
  rw [runParser_bind]
  simp only [runParser_pure]
  have hlen : fh.remaining_length - (strEncodedLength tn + optPkidLen pkid) =
      payload.length := by
    omega
  rw [hlen]
  simp only [runParser]
  rw [if_pos (by simp), List.take_left, List.drop_left]

/-! ## The packet-identifier-only acknowledgements
(`src/packet/puback.rs`, `pubrec.rs`, `pubrel.rs`, `pubcomp.rs`,
`unsuback.rs`): a 16-bit packet identifier as the only variable header,
empty payload, remaining length 2. -/

structure PubackPacket where
  fixed_header : FixedHeader
  packet_identifier : Nat
  payload : Unit
  deriving Repr, DecidableEq

def PubackPacket.mkNew (pkid : Nat) : PubackPacket :=
  ⟨FixedHeader.new (PacketType.withDefault .puback) 2, pkid, ()⟩

def PubackPacket.set_packet_identifier (p : PubackPacket) (pkid : Nat) : PubackPacket :=
  { p with packet_identifier := pkid }

def PubackPacket.encode (p : PubackPacket) : List Nat :=
  p.fixed_header.encode ++ encodeU16 p.packet_identifier

def PubackPacket.encodedLength (p : PubackPacket) : Nat :=
  p.fixed_header.encodedLength + 2 + 0

def PubackPacket.decodePacket (fh : FixedHeader) : Parser PubackPacket :=
  decodeU16.bind fun pkid => Parser.pure ⟨fh, pkid, ()⟩

def PubackPacket.validB (p : PubackPacket) : Bool :=
  decide (p.packet_identifier < 65536) &&
    (p.fixed_header == FixedHeader.new (PacketType.withDefault .puback) 2)

theorem pubackDecodePacket_encode {p : PubackPacket} (hv : p.validB = true)
    (rest : List Nat) :
    runParser (PubackPacket.decodePacket p.fixed_header)
      (encodeU16 p.packet_identifier ++ rest) = .ok (p, rest) := by
  obtain ⟨fh, pkid, u⟩ := p
  simp only [PubackPacket.validB, Bool.and_eq_true, decide_eq_true_eq, beq_iff_eq] at hv
  rw [PubackPacket.decodePacket, runParser_bind_ok (decodeU16_encodeU16 hv.1 rest)]
  rfl

structure PubrecPacket where
  fixed_header : FixedHeader
  packet_identifier : Nat
  payload : Unit
  deriving Repr, DecidableEq

def PubrecPacket.mkNew (pkid : Nat) : PubrecPacket :=
  ⟨FixedHeader.new (PacketType.withDefault .pubrec) 2, pkid, ()⟩

def PubrecPacket.set_packet_identifier (p : PubrecPacket) (pkid : Nat) : PubrecPacket :=
  { p with packet_identifier := pkid }

def PubrecPacket.encode (p : PubrecPacket) : List Nat :=
  p.fixed_header.encode ++ encodeU16 p.packet_identifier

def PubrecPacket.encodedLength (p : PubrecPacket) : Nat :=
  p.fixed_header.encodedLength + 2 + 0

def PubrecPacket.decodePacket (fh : FixedHeader) : Parser PubrecPacket :=
  decodeU16.bind fun pkid => Parser.pure ⟨fh, pkid, ()⟩

def PubrecPacket.validB (p : PubrecPacket) : Bool :=
  decide (p.packet_identifier < 65536) &&
    (p.fixed_header == FixedHeader.new (PacketType.withDefault .pubrec) 2)

theorem pubrecDecodePacket_encode {p : PubrecPacket} (hv : p.validB = true)
    (rest : List Nat) :
    runParser (PubrecPacket.decodePacket p.fixed_header)
      (encodeU16 p.packet_identifier ++ rest) = .ok (p, rest) := by
  obtain ⟨fh, pkid, u⟩ := p
  simp only [PubrecPacket.validB, Bool.and_eq_true, decide_eq_true_eq, beq_iff_eq] at hv
  rw [PubrecPacket.decodePacket, runParser_bind_ok (decodeU16_encodeU16 hv.1 rest)]
  rfl

structure PubrelPacket where
  fixed_header : FixedHeader
  packet_identifier : Nat
  payload : Unit
  deriving Repr, DecidableEq

def PubrelPacket.mkNew (pkid : Nat) : PubrelPacket :=
  ⟨FixedHeader.new (PacketType.withDefault .pubrel) 2, pkid, ()⟩

def PubrelPacket.set_packet_identifier (p : PubrelPacket) (pkid : Nat) : PubrelPacket :=
  { p with packet_identifier := pkid }

def PubrelPacket.encode (p : PubrelPacket) : List Nat :=
  p.fixed_header.encode ++ encodeU16 p.packet_identifier

def PubrelPacket.encodedLength (p : PubrelPacket) : Nat :=
  p.fixed_header.encodedLength + 2 + 0

def PubrelPacket.decodePacket (fh : FixedHeader) : Parser PubrelPacket :=
  decodeU16.bind fun pkid => Parser.pure ⟨fh, pkid, ()⟩

def PubrelPacket.validB (p : PubrelPacket) : Bool :=
  decide (p.packet_identifier < 65536) &&
    (p.fixed_header == FixedHeader.new (PacketType.withDefault .pubrel) 2)

theorem pubrelDecodePacket_encode {p : PubrelPacket} (hv : p.validB = true)
    (rest : List Nat) :
    runParser (PubrelPacket.decodePacket p.fixed_header)
      (encodeU16 p.packet_identifier ++ rest) = .ok (p, rest) := by
  obtain ⟨fh, pkid, u⟩ := p
  simp only [PubrelPacket.validB, Bool.and_eq_true, decide_eq_true_eq, beq_iff_eq] at hv
  rw [PubrelPacket.decodePacket, runParser_bind_ok (decodeU16_encodeU16 hv.1 rest)]
  rfl

structure PubcompPacket where
  fixed_header : FixedHeader
  packet_identifier : Nat
  payload : Unit
  deriving Repr, DecidableEq

def PubcompPacket.mkNew (pkid : Nat) : PubcompPacket :=
  ⟨FixedHeader.new (PacketType.withDefault .pubcomp) 2, pkid, ()⟩

def PubcompPacket.set_packet_identifier (p : PubcompPacket) (pkid : Nat) : PubcompPacket :=
  { p with packet_identifier := pkid }

def PubcompPacket.encode (p : PubcompPacket) : List Nat :=
  p.fixed_header.encode ++ encodeU16 p.packet_identifier

def PubcompPacket.encodedLength (p : PubcompPacket) : Nat :=
  p.fixed_header.encodedLength + 2 + 0

def PubcompPacket.decodePacket (fh : FixedHeader) : Parser PubcompPacket :=
  decodeU16.bind fun pkid => Parser.pure ⟨fh, pkid, ()⟩

def PubcompPacket.validB (p : PubcompPacket) : Bool :=
  decide (p.packet_identifier < 65536) &&
    (p.fixed_header == FixedHeader.new (PacketType.withDefault .pubcomp) 2)

theorem pubcompDecodePacket_encode {p : PubcompPacket} (hv : p.validB = true)
    (rest : List Nat) :
    runParser (PubcompPacket.decodePacket p.fixed_header)
      (encodeU16 p.packet_identifier ++ rest) = .ok (p, rest) := by
  obtain ⟨fh, pkid, u⟩ := p
  simp only [PubcompPacket.validB, Bool.and_eq_true, decide_eq_true_eq, beq_iff_eq] at hv
  rw [PubcompPacket.decodePacket, runParser_bind_ok (decodeU16_encodeU16 hv.1 rest)]
  rfl

structure UnsubackPacket where
  fixed_header : FixedHeader
  packet_identifier : Nat
  payload : Unit
  deriving Repr, DecidableEq

def UnsubackPacket.mkNew (pkid : Nat) : UnsubackPacket :=
  ⟨FixedHeader.new (PacketType.withDefault .unsuback) 2, pkid, ()⟩

def UnsubackPacket.set_packet_identifier (p : UnsubackPacket) (pkid : Nat) : UnsubackPacket :=
  { p with packet_identifier := pkid }

def UnsubackPacket.encode (p : UnsubackPacket) : List Nat :=
  p.fixed_header.encode ++ encodeU16 p.packet_identifier

def UnsubackPacket.encodedLength (p : UnsubackPacket) : Nat :=
  p.fixed_header.encodedLength + 2 + 0

def UnsubackPacket.decodePacket (fh : FixedHeader) : Parser UnsubackPacket :=
  decodeU16.bind fun pkid => Parser.pure ⟨fh, pkid, ()⟩

def UnsubackPacket.validB (p : UnsubackPacket) : Bool :=
  decide (p.packet_identifier < 65536) &&
    (p.fixed_header == FixedHeader.new (PacketType.withDefault .unsuback) 2)

theorem unsubackDecodePacket_encode {p : UnsubackPacket} (hv : p.validB = true)
    (rest : List Nat) :
    runParser (UnsubackPacket.decodePacket p.fixed_header)
      (encodeU16 p.packet_identifier ++ rest) = .ok (p, rest) := by
  obtain ⟨fh, pkid, u⟩ := p
  simp only [UnsubackPacket.validB, Bool.and_eq_true, decide_eq_true_eq, beq_iff_eq] at hv
  rw [UnsubackPacket.decodePacket, runParser_bind_ok (decodeU16_encodeU16 hv.1 rest)]
  rfl

/-! ## PINGREQ / PINGRESP / DISCONNECT
(`src/packet/pingreq.rs`, `pingresp.rs`, `disconnect.rs`):
no variable header, no payload, remaining length 0. -/

structure PingreqPacket where
  fixed_header : FixedHeader
  payload : Unit
  deriving Repr, DecidableEq

def PingreqPacket.mkNew : PingreqPacket :=
  ⟨FixedHeader.new (PacketType.withDefault .pingreq) 0, ()⟩

def PingreqPacket.encode (p : PingreqPacket) : List Nat := p.fixed_header.encode

def PingreqPacket.encodedLength (p : PingreqPacket) : Nat :=
  p.fixed_header.encodedLength + 0 + 0

def PingreqPacket.decodePacket (fh : FixedHeader) : Parser PingreqPacket :=
  Parser.pure ⟨fh, ()⟩

def PingreqPacket.validB (p : PingreqPacket) : Bool :=
  p.fixed_header == FixedHeader.new (PacketType.withDefault .pingreq) 0

structure PingrespPacket where
  fixed_header : FixedHeader
  payload : Unit
  deriving Repr, DecidableEq

def PingrespPacket.mkNew : PingrespPacket :=
  ⟨FixedHeader.new (PacketType.withDefault .pingresp) 0, ()⟩

def PingrespPacket.encode (p : PingrespPacket) : List Nat := p.fixed_header.encode

def PingrespPacket.encodedLength (p : PingrespPacket) : Nat :=
  p.fixed_header.encodedLength + 0 + 0

def PingrespPacket.decodePacket (fh : FixedHeader) : Parser PingrespPacket :=
  Parser.pure ⟨fh, ()⟩

def PingrespPacket.validB (p : PingrespPacket) : Bool :=
  p.fixed_header == FixedHeader.new (PacketType.withDefault .pingresp) 0

structure DisconnectPacket where
  fixed_header : FixedHeader
  payload : Unit
  deriving Repr, DecidableEq

def DisconnectPacket.mkNew : DisconnectPacket :=
  ⟨FixedHeader.new (PacketType.withDefault .disconnect) 0, ()⟩

def DisconnectPacket.encode (p : DisconnectPacket) : List Nat := p.fixed_header.encode

def DisconnectPacket.encodedLength (p : DisconnectPacket) : Nat :=
  p.fixed_header.encodedLength + 0 + 0

def DisconnectPacket.decodePacket (fh : FixedHeader) : Parser DisconnectPacket :=
  Parser.pure ⟨fh, ()⟩

def DisconnectPacket.validB (p : DisconnectPacket) : Bool :=
  p.fixed_header == FixedHeader.new (PacketType.withDefault .disconnect) 0

/-! ## SUBACK (`src/packet/suback.rs`) -/

/-- `SubscribeReturnCode`: granted maximum QoS or failure (0x80). -/
inductive SubscribeReturnCode : Type where
  | maximumQoSLevel0
  | maximumQoSLevel1
  | maximumQoSLevel2
  | failure
  deriving Repr, DecidableEq

def SubscribeReturnCode.toU8 : SubscribeReturnCode → Nat
  | .maximumQoSLevel0 => 0
  | .maximumQoSLevel1 => 1
  | .maximumQoSLevel2 => 2
  | .failure => 128

/-- The byte match in `SubackPacketPayload::decode_with`. -/
def subRetOfByte : Nat → Option SubscribeReturnCode
  | 0 => some .maximumQoSLevel0
  | 1 => some .maximumQoSLevel1
  | 2 => some .maximumQoSLevel2
  | 128 => some .failure
  | _ => none

structure SubackPacket where
  fixed_header : FixedHeader
  packet_identifier : Nat
  payload : List SubscribeReturnCode
  deriving Repr, DecidableEq

/-- `SubackPacket::new`: remaining length = 2 (pkid) + one byte per
return code. -/
def SubackPacket.mkNew (pkid : Nat) (subscribes : List SubscribeReturnCode) : SubackPacket :=
  ⟨FixedHeader.new (PacketType.withDefault .suback) (2 + subscribes.length),
    pkid, subscribes⟩

def SubackPacket.set_packet_identifier (p : SubackPacket) (pkid : Nat) : SubackPacket :=
  { p with packet_identifier := pkid }

def SubackPacket.encode (p : SubackPacket) : List Nat :=
  p.fixed_header.encode ++ encodeU16 p.packet_identifier ++
    p.payload.map SubscribeReturnCode.toU8

def SubackPacket.encodedLength (p : SubackPacket) : Nat :=
  p.fixed_header.encodedLength + 2 + p.payload.length

/-- The `for _ in 0..payload_len` loop of
`SubackPacketPayload::decode_with`. -/
def decodeSubackLoop : Nat → Parser (List SubscribeReturnCode)
  | 0 => Parser.pure []
  | n + 1 =>
    Parser.readByte fun b =>
      match subRetOfByte b with
      | some code => (decodeSubackLoop n).bind fun subs => Parser.pure (code :: subs)
      | none => Parser.fail (.invalidSubscribeReturnCode b)

/-- `SubackPacket::decode_packet`: packet identifier, then
`remaining_length - 2` return-code bytes (checked u32 subtraction). -/
def SubackPacket.decodePacket (fh : FixedHeader) : Parser SubackPacket :=
  decodeU16.bind fun pkid =>
    (if 2 ≤ fh.remaining_length then Parser.pure (fh.remaining_length - 2)
      else Parser.fail .subUnderflow).bind fun payload_len =>
      (decodeSubackLoop payload_len).bind fun codes => Parser.pure ⟨fh, pkid, codes⟩

def SubackPacket.validB (p : SubackPacket) : Bool :=
  decide (p.packet_identifier < 65536) &&
    ((p.fixed_header ==
      FixedHeader.new (PacketType.withDefault .suback) (2 + p.payload.length)) &&
    decide (2 + p.payload.length < 268435456))

theorem decodeSubackLoop_encode (codes : List SubscribeReturnCode) (rest : List Nat) :
    runParser (decodeSubackLoop codes.length)
      (codes.map SubscribeReturnCode.toU8 ++ rest) = .ok (codes, rest) := by
  induction codes with
  | nil => rfl
  | cons c t ih =>
    simp only [List.length_cons, List.map_cons, List.cons_append]
    rw [decodeSubackLoop]
    simp only [runParser_readByte_cons]
    cases c <;>
      simp only [SubscribeReturnCode.toU8, subRetOfByte] <;>
      rw [runParser_bind_ok ih] <;> rfl

theorem subackDecodePacket_encode {p : SubackPacket} (hv : p.validB = true)
    (rest : List Nat) :
    runParser (SubackPacket.decodePacket p.fixed_header)
      (encodeU16 p.packet_identifier ++ p.payload.map SubscribeReturnCode.toU8 ++ rest) =
      .ok (p, rest) := by
  obtain ⟨fh, pkid, codes⟩ := p
  simp only [SubackPacket.validB, Bool.and_eq_true, decide_eq_true_eq, beq_iff_eq] at hv
  obtain ⟨hpk, hfh, hbound⟩ := hv
  rw [SubackPacket.decodePacket]
  simp only [List.append_assoc]
  rw [runParser_bind_ok (decodeU16_encodeU16 hpk _)]
  have hrl : fh.remaining_length = 2 + codes.length := by rw [hfh]; rfl
  rw [if_pos (by omega), runParser_bind]
  simp only [runParser_pure]
  have h2 : fh.remaining_length - 2 = codes.length := by omega
  rw [h2, runParser_bind_ok (decodeSubackLoop_encode codes rest)]
  rfl

/-! ## SUBSCRIBE / UNSUBSCRIBE
(`src/packet/subscribe.rs`, `src/packet/unsubscribe.rs`) -/

/-- Accumulator shift for the payload-length folds. -/
theorem foldl_add_shift {α : Type} (f : Nat → α → Nat)
    (hf : ∀ b a, f b a = b + f 0 a) (t : List α) :
    ∀ b, t.foldl f b = b + t.foldl f 0 := by
  induction t with
  | nil => intro b; simp
  | cons x t ih =>
    intro b
    simp only [List.foldl_cons]
    rw [ih (f b x), ih (f 0 x), hf b x]
    omega

structure SubscribePacket where
  fixed_header : FixedHeader
  packet_identifier : Nat
  payload : List (RStr × QualityOfService)
  deriving Repr, DecidableEq

/-- `SubscribePacketPayload::encoded_length`:
`fold(0, |b, a| b + a.0.encoded_length() + 1)`. -/
def subscribePayloadLen (subs : List (RStr × QualityOfService)) : Nat :=
  subs.foldl (fun b a => b + strEncodedLength a.1 + 1) 0

def subscribePayloadEncode (subs : List (RStr × QualityOfService)) : List Nat :=
  (subs.map fun e => encodeStr e.1 ++ [e.2.toU8]).flatten

def SubscribePacket.mkNew (pkid : Nat) (subscribes : List (RStr × QualityOfService)) :
    SubscribePacket :=
  ⟨FixedHeader.new (PacketType.withDefault .subscribe)
      (2 + subscribePayloadLen subscribes), pkid, subscribes⟩

def SubscribePacket.set_packet_identifier (p : SubscribePacket) (pkid : Nat) :
    SubscribePacket :=
  { p with packet_identifier := pkid }

def SubscribePacket.encode (p : SubscribePacket) : List Nat :=
  p.fixed_header.encode ++ encodeU16 p.packet_identifier ++ subscribePayloadEncode p.payload

def SubscribePacket.encodedLength (p : SubscribePacket) : Nat :=
  p.fixed_header.encodedLength + 2 + subscribePayloadLen p.payload

/-- The `while payload_len > 0` loop of
`SubscribePacketPayload::decode_with`: topic filter, QoS byte (0/1/2,
otherwise `InvalidQualityOfService`), then
`payload_len -= filter.encoded_length() + 1` (checked u32 subtraction). -/
def decodeSubscribeLoop (payload_len : Nat) : Parser (List (RStr × QualityOfService)) :=
  if _h : 0 < payload_len then
    decodeTopicFilter.bind fun filter =>
      Parser.readByte fun b =>
        match qosOfByte b with
        | some qos =>
          if strEncodedLength filter + 1 ≤ payload_len then
            (decodeSubscribeLoop (payload_len - (strEncodedLength filter + 1))).bind
              fun subs => Parser.pure ((filter, qos) :: subs)
          else Parser.fail .subUnderflow
        | none => Parser.fail .invalidQualityOfService
  else Parser.pure []
  termination_by payload_len
  decreasing_by omega

/-- `SubscribePacket::decode_packet`. -/
def SubscribePacket.decodePacket (fh : FixedHeader) : Parser SubscribePacket :=
  decodeU16.bind fun pkid =>
    (if 2 ≤ fh.remaining_length then Parser.pure (fh.remaining_length - 2)
      else Parser.fail .subUnderflow).bind fun payload_len =>
      (decodeSubscribeLoop payload_len).bind fun subs => Parser.pure ⟨fh, pkid, subs⟩

/-- A topic filter as validated by `TopicFilter::new`, ready to encode. -/
def filterValidB (s : RStr) : Bool := strValidB s && !(isInvalidTopicFilterBytes s)

def SubscribePacket.validB (p : SubscribePacket) : Bool :=
  decide (p.packet_identifier < 65536) &&
    (p.payload.all (fun e => filterValidB e.1) &&
    ((p.fixed_header ==
      FixedHeader.new (PacketType.withDefault .subscribe)
        (2 + subscribePayloadLen p.payload)) &&
    decide (2 + subscribePayloadLen p.payload < 268435456)))

theorem decodeSubscribeLoop_encode (subs : List (RStr × QualityOfService))
    (hall : subs.all (fun e => filterValidB e.1) = true) (rest : List Nat) :
    runParser (decodeSubscribeLoop (subscribePayloadLen subs))
      (subscribePayloadEncode subs ++ rest) = .ok (subs, rest) := by
  induction subs with
  | nil =>
    rw [decodeSubscribeLoop]
    rfl
  | cons e t ih =>
    obtain ⟨f, q⟩ := e
    simp only [List.all_cons, Bool.and_eq_true] at hall
    obtain ⟨hf, ht⟩ := hall
    simp only [filterValidB, strValidB, Bool.and_eq_true, Bool.not_eq_true',
      decide_eq_true_eq] at hf
    have hlen : subscribePayloadLen ((f, q) :: t) =
        (strEncodedLength f + 1) + subscribePayloadLen t := by
      unfold subscribePayloadLen
      simp only [List.foldl_cons]
      rw [foldl_add_shift _ (by intro b a; omega)]
      omega
    have henc : subscribePayloadEncode ((f, q) :: t) =
        encodeStr f ++ (q.toU8 :: subscribePayloadEncode t) := by
      simp [subscribePayloadEncode]
    rw [hlen, henc, decodeSubscribeLoop]
    have hpos : 0 < strEncodedLength f + 1 + subscribePayloadLen t := by
      unfold strEncodedLength
      omega
    rw [dif_pos hpos]
    simp only [List.append_assoc]
    rw [runParser_bind_ok (decodeTopicFilter_encode hf.1.1 hf.1.2 hf.2 _)]
    simp only [List.cons_append, runParser_readByte_cons]
    have hq : qosOfByte q.toU8 = some q := by cases q <;> rfl
    simp only [hq]
    rw [if_pos (by omega)]
    have hsub : strEncodedLength f + 1 + subscribePayloadLen t -
        (strEncodedLength f + 1) = subscribePayloadLen t := by omega
    rw [hsub, runParser_bind_ok (ih ht)]
    rfl

theorem subscribeDecodePacket_encode {p : SubscribePacket} (hv : p.validB = true)
    (rest : List Nat) :
    runParser (SubscribePacket.decodePacket p.fixed_header)
      (encodeU16 p.packet_identifier ++ subscribePayloadEncode p.payload ++ rest) =
      .ok (p, rest) := by
  obtain ⟨fh, pkid, subs⟩ := p
  simp only [SubscribePacket.validB, Bool.and_eq_true, decide_eq_true_eq, beq_iff_eq] at hv
  obtain ⟨hpk, hall, hfh, hbound⟩ := hv
  rw [SubscribePacket.decodePacket]
  simp only [List.append_assoc]
  rw [runParser_bind_ok (decodeU16_encodeU16 hpk _)]
  have hrl : fh.remaining_length = 2 + subscribePayloadLen subs := by rw [hfh]; rfl
  rw [if_pos (by omega), runParser_bind]
  simp only [runParser_pure]
  have h2 : fh.remaining_length - 2 = subscribePayloadLen subs := by omega
  rw [h2, runParser_bind_ok (decodeSubscribeLoop_encode subs hall rest)]
  rfl

structure UnsubscribePacket where
  fixed_header : FixedHeader
  packet_identifier : Nat
  payload : List RStr
  deriving Repr, DecidableEq

/-- `UnsubscribePacketPayload::encoded_length`. -/
def unsubscribePayloadLen (subs : List RStr) : Nat :=
  subs.foldl (fun b a => b + strEncodedLength a) 0

def unsubscribePayloadEncode (subs : List RStr) : List Nat :=
  (subs.map encodeStr).flatten

def UnsubscribePacket.mkNew (pkid : Nat) (subscribes : List RStr) : UnsubscribePacket :=
  ⟨FixedHeader.new (PacketType.withDefault .unsubscribe)
      (2 + unsubscribePayloadLen subscribes), pkid, subscribes⟩

def UnsubscribePacket.set_packet_identifier (p : UnsubscribePacket) (pkid : Nat) :
    UnsubscribePacket :=
  { p with packet_identifier := pkid }

def UnsubscribePacket.encode (p : UnsubscribePacket) : List Nat :=
  p.fixed_header.encode ++ encodeU16 p.packet_identifier ++
    unsubscribePayloadEncode p.payload

def UnsubscribePacket.encodedLength (p : UnsubscribePacket) : Nat :=
  p.fixed_header.encodedLength + 2 + unsubscribePayloadLen p.payload

/-- The `while payload_len > 0` loop of
`UnsubscribePacketPayload::decode_with`. -/
def decodeUnsubscribeLoop (payload_len : Nat) : Parser (List RStr) :=
  if _h : 0 < payload_len then
    decodeTopicFilter.bind fun filter =>
      if strEncodedLength filter ≤ payload_len then
        (decodeUnsubscribeLoop (payload_len - strEncodedLength filter)).bind
          fun subs => Parser.pure (filter :: subs)
      else Parser.fail .subUnderflow
  else Parser.pure []
  termination_by payload_len
  decreasing_by
    simp only [strEncodedLength]
    omega

/-- `UnsubscribePacket::decode_packet`. -/
def UnsubscribePacket.decodePacket (fh : FixedHeader) : Parser UnsubscribePacket :=
  decodeU16.bind fun pkid =>
    (if 2 ≤ fh.remaining_length then Parser.pure (fh.remaining_length - 2)
      else Parser.fail .subUnderflow).bind fun payload_len =>
      (decodeUnsubscribeLoop payload_len).bind fun subs => Parser.pure ⟨fh, pkid, subs⟩

def UnsubscribePacket.validB (p : UnsubscribePacket) : Bool :=
  decide (p.packet_identifier < 65536) &&
    (p.payload.all filterValidB &&
    ((p.fixed_header ==
      FixedHeader.new (PacketType.withDefault .unsubscribe)
        (2 + unsubscribePayloadLen p.payload)) &&
    decide (2 + unsubscribePayloadLen p.payload < 268435456)))

theorem decodeUnsubscribeLoop_encode (subs : List RStr)
    (hall : subs.all filterValidB = true) (rest : List Nat) :
    runParser (decodeUnsubscribeLoop (unsubscribePayloadLen subs))
      (unsubscribePayloadEncode subs ++ rest) = .ok (subs, rest) := by
  induction subs with
  | nil =>
    rw [decodeUnsubscribeLoop]
    rfl
  | cons f t ih =>
    simp only [List.all_cons, Bool.and_eq_true] at hall
    obtain ⟨hf, ht⟩ := hall
    simp only [filterValidB, strValidB, Bool.and_eq_true, Bool.not_eq_true',
      decide_eq_true_eq] at hf
    have hlen : unsubscribePayloadLen (f :: t) =
        strEncodedLength f + unsubscribePayloadLen t := by
      unfold unsubscribePayloadLen
      simp only [List.foldl_cons]
      rw [foldl_add_shift _ (by intro b a; omega)]
      omega
    have henc : unsubscribePayloadEncode (f :: t) =
        encodeStr f ++ unsubscribePayloadEncode t := by
      simp [unsubscribePayloadEncode]
    rw [hlen, henc, decodeUnsubscribeLoop]
    have hpos : 0 < strEncodedLength f + unsubscribePayloadLen t := by
      unfold strEncodedLength
      omega
    rw [dif_pos hpos]
    simp only [List.append_assoc]
    rw [runParser_bind_ok (decodeTopicFilter_encode hf.1.1 hf.1.2 hf.2 _)]
    rw [if_pos (by omega)]
    have hsub : strEncodedLength f + unsubscribePayloadLen t - strEncodedLength f =
        unsubscribePayloadLen t := by omega
    rw [hsub, runParser_bind_ok (ih ht)]
    rfl

theorem unsubscribeDecodePacket_encode {p : UnsubscribePacket} (hv : p.validB = true)
    (rest : List Nat) :
    runParser (UnsubscribePacket.decodePacket p.fixed_header)
      (encodeU16 p.packet_identifier ++ unsubscribePayloadEncode p.payload ++ rest) =
      .ok (p, rest) := by
  obtain ⟨fh, pkid, subs⟩ := p
  simp only [UnsubscribePacket.validB, Bool.and_eq_true, decide_eq_true_eq,
    beq_iff_eq] at hv
  obtain ⟨hpk, hall, hfh, hbound⟩ := hv
  rw [UnsubscribePacket.decodePacket]
  simp only [List.append_assoc]
  rw [runParser_bind_ok (decodeU16_encodeU16 hpk _)]
  have hrl : fh.remaining_length = 2 + unsubscribePayloadLen subs := by rw [hfh]; rfl
  rw [if_pos (by omega), runParser_bind]
  simp only [runParser_pure]
  have h2 : fh.remaining_length - 2 = unsubscribePayloadLen subs := by omega
  rw [h2, runParser_bind_ok (decodeUnsubscribeLoop_encode subs hall rest)]
  rfl

/-! ## VariablePacket (`impl_variable_packet!`, `src/packet/mod.rs`) -/

/-- The tagged union over the fourteen packet variants. -/
inductive VariablePacket : Type where
  | connect (p : ConnectPacket) : VariablePacket
  | connack (p : ConnackPacket) : VariablePacket
  | publish (p : PublishPacket) : VariablePacket
  | puback (p : PubackPacket) : VariablePacket
  | pubrec (p : PubrecPacket) : VariablePacket
  | pubrel (p : PubrelPacket) : VariablePacket
  | pubcomp (p : PubcompPacket) : VariablePacket
  | pingreq (p : PingreqPacket) : VariablePacket
  | pingresp (p : PingrespPacket) : VariablePacket
  | subscribe (p : SubscribePacket) : VariablePacket
  | suback (p : SubackPacket) : VariablePacket
  | unsubscribe (p : UnsubscribePacket) : VariablePacket
  | unsuback (p : UnsubackPacket) : VariablePacket
  | disconnect (p : DisconnectPacket) : VariablePacket
  deriving Repr, DecidableEq

/-- `impl Encodable for VariablePacket`: forward to the variant. -/
def VariablePacket.encode : VariablePacket → List Nat
  | .connect p => p.encode
  | .connack p => p.encode
  | .publish p => p.encode
  | .puback p => p.encode
  | .pubrec p => p.encode
  | .pubrel p => p.encode
  | .pubcomp p => p.encode
  | .pingreq p => p.encode
  | .pingresp p => p.encode
  | .subscribe p => p.encode
  | .suback p => p.encode
  | .unsubscribe p => p.encode
  | .unsuback p => p.encode
  | .disconnect p => p.encode

/-- `encoded_length` of the union: forward to the variant. -/
def VariablePacket.encodedLength : VariablePacket → Nat
  | .connect p => p.encodedLength
  | .connack p => p.encodedLength
  | .publish p => p.encodedLength
  | .puback p => p.encodedLength
  | .pubrec p => p.encodedLength
  | .pubrel p => p.encodedLength
  | .pubcomp p => p.encodedLength
  | .pingreq p => p.encodedLength
  | .pingresp p => p.encodedLength
  | .subscribe p => p.encodedLength
  | .suback p => p.encodedLength
  | .unsubscribe p => p.encodedLength
  | .unsuback p => p.encodedLength
  | .disconnect p => p.encodedLength

def VariablePacket.validB : VariablePacket → Bool
  | .connect p => p.validB
  | .connack p => p.validB
  | .publish p => p.validB
  | .puback p => p.validB
  | .pubrec p => p.validB
  | .pubrel p => p.validB
  | .pubcomp p => p.validB
  | .pingreq p => p.validB
  | .pingresp p => p.validB
  | .subscribe p => p.validB
  | .suback p => p.validB
  | .unsubscribe p => p.validB
  | .unsuback p => p.validB
  | .disconnect p => p.validB

/-- The dispatch on `fixed_header.packet_type.control_type` in
`impl Decodable for VariablePacket`. -/
def decodePacketOfType (ct : ControlType) (fh : FixedHeader) : Parser VariablePacket :=
  match ct with
  | .connect => (ConnectPacket.decodePacket fh).bind fun p => Parser.pure (.connect p)
  | .connack => (ConnackPacket.decodePacket fh).bind fun p => Parser.pure (.connack p)
  | .publish => (PublishPacket.decodePacket fh).bind fun p => Parser.pure (.publish p)
  | .puback => (PubackPacket.decodePacket fh).bind fun p => Parser.pure (.puback p)
  | .pubrec => (PubrecPacket.decodePacket fh).bind fun p => Parser.pure (.pubrec p)
  | .pubrel => (PubrelPacket.decodePacket fh).bind fun p => Parser.pure (.pubrel p)
  | .pubcomp => (PubcompPacket.decodePacket fh).bind fun p => Parser.pure (.pubcomp p)
  | .pingreq => (PingreqPacket.decodePacket fh).bind fun p => Parser.pure (.pingreq p)
  | .pingresp => (PingrespPacket.decodePacket fh).bind fun p => Parser.pure (.pingresp p)
  | .subscribe => (SubscribePacket.decodePacket fh).bind fun p => Parser.pure (.subscribe p)
  | .suback => (SubackPacket.decodePacket fh).bind fun p => Parser.pure (.suback p)
  | .unsubscribe =>
    (UnsubscribePacket.decodePacket fh).bind fun p => Parser.pure (.unsubscribe p)
  | .unsuback => (UnsubackPacket.decodePacket fh).bind fun p => Parser.pure (.unsuback p)
  | .disconnect =>
    (DisconnectPacket.decodePacket fh).bind fun p => Parser.pure (.disconnect p)

/-- The body phase of `impl Decodable for VariablePacket::decode_with`:
bound the reader to `remaining_length` bytes (`reader.take`) and run the
variant decoder selected by the control type; bytes beyond the bound
stay unread on the outer reader. -/
def variablePacketDispatch (pt : PacketType) (remaining_len : Nat) (rest : List Nat) :
    Except DecErr (VariablePacket × List Nat) :=
  match runParser (decodePacketOfType pt.control_type (FixedHeader.new pt remaining_len))
      (rest.take remaining_len) with
  | .error e => .error e
  | .ok (pk, leftover) => .ok (pk, leftover ++ rest.drop remaining_len)

/-- The classification phase: `PacketType::from_u8` on the type byte.
On `Unrecognized`/`ReservedType` the source drains `remaining_length`
bytes from the reader (`reader.take(length).read_to_end(&mut buf)`) and
returns the error with the drained buffer attached. -/
def variablePacketClassify (type_val remaining_len : Nat) (rest : List Nat) :
    Except DecErr (VariablePacket × List Nat) :=
  match PacketType.fromU8 type_val with
  | .error (.reservedType code) =>
    .error (.reservedType code remaining_len (rest.take remaining_len))
  | .error (.undefinedType code) =>
    .error (.unrecognizedType code remaining_len (rest.take remaining_len))
  | .error .invalidFlag => .error .invalidFlag
  | .ok pt => variablePacketDispatch pt remaining_len rest

/-- `impl Decodable for VariablePacket::decode_with` (the `None` header
case): read the raw fixed header, classify, dispatch. -/
def variablePacketDecode (bs : List Nat) : Except DecErr (VariablePacket × List Nat) :=
  (runParser fixedHeaderRaw bs).bind fun hdr =>
    variablePacketClassify hdr.1.1 hdr.1.2 hdr.2

/-- `impl Decodable for T: Packet` (`src/packet/mod.rs`): decode a fixed
header off the unbounded reader, then `decode_packet`. -/
def ConnectPacket.decode : Parser ConnectPacket :=
  fixedHeaderDecode.bind ConnectPacket.decodePacket

def ConnackPacket.decode : Parser ConnackPacket :=
  fixedHeaderDecode.bind ConnackPacket.decodePacket

def PublishPacket.decode : Parser PublishPacket :=
  fixedHeaderDecode.bind PublishPacket.decodePacket

def PubackPacket.decode : Parser PubackPacket :=
  fixedHeaderDecode.bind PubackPacket.decodePacket

def PubrecPacket.decode : Parser PubrecPacket :=
  fixedHeaderDecode.bind PubrecPacket.decodePacket

def PubrelPacket.decode : Parser PubrelPacket :=
  fixedHeaderDecode.bind PubrelPacket.decodePacket

def PubcompPacket.decode : Parser PubcompPacket :=
  fixedHeaderDecode.bind PubcompPacket.decodePacket

def PingreqPacket.decode : Parser PingreqPacket :=
  fixedHeaderDecode.bind PingreqPacket.decodePacket

def PingrespPacket.decode : Parser PingrespPacket :=
  fixedHeaderDecode.bind PingrespPacket.decodePacket

def SubscribePacket.decode : Parser SubscribePacket :=
  fixedHeaderDecode.bind SubscribePacket.decodePacket

def SubackPacket.decode : Parser SubackPacket :=
  fixedHeaderDecode.bind SubackPacket.decodePacket

def UnsubscribePacket.decode : Parser UnsubscribePacket :=
  fixedHeaderDecode.bind UnsubscribePacket.decodePacket

def UnsubackPacket.decode : Parser UnsubackPacket :=
  fixedHeaderDecode.bind UnsubackPacket.decodePacket

def DisconnectPacket.decode : Parser DisconnectPacket :=
  fixedHeaderDecode.bind DisconnectPacket.decodePacket

/-! ## Concrete-type round-trips (fixed header + body, unbounded reader) -/

theorem connect_decode_encode {p : ConnectPacket} (hv : p.validB = true)
    (rest : List Nat) :
    runParser ConnectPacket.decode (p.encode ++ rest) = .ok (p, rest) := by
  have hv' := hv
  unfold ConnectPacket.validB at hv'
  split at hv'
  case h_2 => exact absurd hv' (by simp)
  case h_1 pn lv fl ka heq =>
    simp only [Bool.and_eq_true, decide_eq_true_eq, beq_iff_eq] at hv'
    obtain ⟨-, -, -, -, -, -, -, -, -, -, -, -, -, hfh, hbound⟩ := hv'
    rw [ConnectPacket.decode, ConnectPacket.encode]
    simp only [List.append_assoc]
    rw [runParser_bind_ok (fixedHeaderDecode_encode
      (by rw [hfh]; exact hbound)
      (by rw [hfh]; exact (by norm_num : (0:Nat) < 16))
      (by rw [hfh]; exact Or.inr rfl) _)]
    simpa only [List.append_assoc] using connectDecodePacket_encode hv rest

theorem connack_decode_encode {p : ConnackPacket} (hv : p.validB = true)
    (rest : List Nat) :
    runParser ConnackPacket.decode (p.encode ++ rest) = .ok (p, rest) := by
  have hv' := hv
  unfold ConnackPacket.validB at hv'
  split at hv'
  case h_2 => exact absurd hv' (by simp)
  case h_1 fl c heq =>
    simp only [Bool.and_eq_true, decide_eq_true_eq, beq_iff_eq] at hv'
    obtain ⟨-, hfh⟩ := hv'
    rw [ConnackPacket.decode, ConnackPacket.encode]
    simp only [List.append_assoc]
    rw [runParser_bind_ok (fixedHeaderDecode_encode
      (by rw [hfh]; exact (by norm_num : (2:Nat) < 268435456))
      (by rw [hfh]; exact (by norm_num : (0:Nat) < 16))
      (by rw [hfh]; exact Or.inr rfl) _)]
    exact connackDecodePacket_encode hv rest

theorem publish_decode_encode {p : PublishPacket} (hv : p.validB = true)
    (rest : List Nat) :
    runParser PublishPacket.decode (p.encode ++ rest) = .ok (p, rest) := by
  have hv' := hv
  simp only [PublishPacket.validB, Bool.and_eq_true, decide_eq_true_eq, beq_iff_eq] at hv'
  obtain ⟨hct, hfl, -, -, -, ⟨⟨-, -⟩, hbound⟩⟩ := hv'
  rw [PublishPacket.decode, PublishPacket.encode]
  simp only [List.append_assoc]
  rw [runParser_bind_ok (fixedHeaderDecode_encode hbound hfl (Or.inl hct) _)]
  simpa only [List.append_assoc] using publishDecodePacket_encode hv rest

theorem puback_decode_encode {p : PubackPacket} (hv : p.validB = true)
    (rest : List Nat) :
    runParser PubackPacket.decode (p.encode ++ rest) = .ok (p, rest) := by
  have hv' := hv
  simp only [PubackPacket.validB, Bool.and_eq_true, decide_eq_true_eq, beq_iff_eq] at hv'
  obtain ⟨-, hfh⟩ := hv'
  rw [PubackPacket.decode, PubackPacket.encode]
  simp only [List.append_assoc]
  rw [runParser_bind_ok (fixedHeaderDecode_encode
    (by rw [hfh]; exact (by norm_num : (2:Nat) < 268435456))
    (by rw [hfh]; exact (by norm_num : (0:Nat) < 16))
    (by rw [hfh]; exact Or.inr rfl) _)]
  exact pubackDecodePacket_encode hv rest

theorem pubrec_decode_encode {p : PubrecPacket} (hv : p.validB = true)
    (rest : List Nat) :
    runParser PubrecPacket.decode (p.encode ++ rest) = .ok (p, rest) := by
  have hv' := hv
  simp only [PubrecPacket.validB, Bool.and_eq_true, decide_eq_true_eq, beq_iff_eq] at hv'
  obtain ⟨-, hfh⟩ := hv'
  rw [PubrecPacket.decode, PubrecPacket.encode]
  simp only [List.append_assoc]
  rw [runParser_bind_ok (fixedHeaderDecode_encode
    (by rw [hfh]; exact (by norm_num : (2:Nat) < 268435456))
    (by rw [hfh]; exact (by norm_num : (0:Nat) < 16))
    (by rw [hfh]; exact Or.inr rfl) _)]
  exact pubrecDecodePacket_encode hv rest

theorem pubrel_decode_encode {p : PubrelPacket} (hv : p.validB = true)
    (rest : List Nat) :
    runParser PubrelPacket.decode (p.encode ++ rest) = .ok (p, rest) := by
  have hv' := hv
  simp only [PubrelPacket.validB, Bool.and_eq_true, decide_eq_true_eq, beq_iff_eq] at hv'
  obtain ⟨-, hfh⟩ := hv'
  rw [PubrelPacket.decode, PubrelPacket.encode]
  simp only [List.append_assoc]
  rw [runParser_bind_ok (fixedHeaderDecode_encode
    (by rw [hfh]; exact (by norm_num : (2:Nat) < 268435456))
    (by rw [hfh]; exact (by norm_num : (2:Nat) < 16))
    (by rw [hfh]; exact Or.inr rfl) _)]
  exact pubrelDecodePacket_encode hv rest

theorem pubcomp_decode_encode {p : PubcompPacket} (hv : p.validB = true)
    (rest : List Nat) :
    runParser PubcompPacket.decode (p.encode ++ rest) = .ok (p, rest) := by
  have hv' := hv
  simp only [PubcompPacket.validB, Bool.and_eq_true, decide_eq_true_eq, beq_iff_eq] at hv'
  obtain ⟨-, hfh⟩ := hv'
  rw [PubcompPacket.decode, PubcompPacket.encode]
  simp only [List.append_assoc]
  rw [runParser_bind_ok (fixedHeaderDecode_encode
    (by rw [hfh]; exact (by norm_num : (2:Nat) < 268435456))
    (by rw [hfh]; exact (by norm_num : (0:Nat) < 16))
    (by rw [hfh]; exact Or.inr rfl) _)]
  exact pubcompDecodePacket_encode hv rest

theorem unsuback_decode_encode {p : UnsubackPacket} (hv : p.validB = true)
    (rest : List Nat) :
    runParser UnsubackPacket.decode (p.encode ++ rest) = .ok (p, rest) := by
  have hv' := hv
  simp only [UnsubackPacket.validB, Bool.and_eq_true, decide_eq_true_eq, beq_iff_eq] at hv'
  obtain ⟨-, hfh⟩ := hv'
  rw [UnsubackPacket.decode, UnsubackPacket.encode]
  simp only [List.append_assoc]
  rw [runParser_bind_ok (fixedHeaderDecode_encode
    (by rw [hfh]; exact (by norm_num : (2:Nat) < 268435456))
    (by rw [hfh]; exact (by norm_num : (0:Nat) < 16))
    (by rw [hfh]; exact Or.inr rfl) _)]
  exact unsubackDecodePacket_encode hv rest

theorem pingreq_decode_encode {p : PingreqPacket} (hv : p.validB = true)
    (rest : List Nat) :
    runParser PingreqPacket.decode (p.encode ++ rest) = .ok (p, rest) := by
  simp only [PingreqPacket.validB, beq_iff_eq] at hv
  rw [PingreqPacket.decode, PingreqPacket.encode]
  rw [runParser_bind_ok (fixedHeaderDecode_encode
    (by rw [hv]; exact (by norm_num : (0:Nat) < 268435456))
    (by rw [hv]; exact (by norm_num : (0:Nat) < 16))
    (by rw [hv]; exact Or.inr rfl) _)]
  rfl

theorem pingresp_decode_encode {p : PingrespPacket} (hv : p.validB = true)
    (rest : List Nat) :
    runParser PingrespPacket.decode (p.encode ++ rest) = .ok (p, rest) := by
  simp only [PingrespPacket.validB, beq_iff_eq] at hv
  rw [PingrespPacket.decode, PingrespPacket.encode]
  rw [runParser_bind_ok (fixedHeaderDecode_encode
    (by rw [hv]; exact (by norm_num : (0:Nat) < 268435456))
    (by rw [hv]; exact (by norm_num : (0:Nat) < 16))
    (by rw [hv]; exact Or.inr rfl) _)]
  rfl

theorem disconnect_decode_encode {p : DisconnectPacket} (hv : p.validB = true)
    (rest : List Nat) :
    runParser DisconnectPacket.decode (p.encode ++ rest) = .ok (p, rest) := by
  simp only [DisconnectPacket.validB, beq_iff_eq] at hv
  rw [DisconnectPacket.decode, DisconnectPacket.encode]
  rw [runParser_bind_ok (fixedHeaderDecode_encode
    (by rw [hv]; exact (by norm_num : (0:Nat) < 268435456))
    (by rw [hv]; exact (by norm_num : (0:Nat) < 16))
    (by rw [hv]; exact Or.inr rfl) _)]
  rfl

theorem subscribe_decode_encode {p : SubscribePacket} (hv : p.validB = true)
    (rest : List Nat) :
    runParser SubscribePacket.decode (p.encode ++ rest) = .ok (p, rest) := by
  have hv' := hv
  simp only [SubscribePacket.validB, Bool.and_eq_true, decide_eq_true_eq, beq_iff_eq] at hv'
  obtain ⟨-, -, hfh, hbound⟩ := hv'
  rw [SubscribePacket.decode, SubscribePacket.encode]
  simp only [List.append_assoc]
  rw [runParser_bind_ok (fixedHeaderDecode_encode
    (by rw [hfh]; exact hbound)
    (by rw [hfh]; exact (by norm_num : (2:Nat) < 16))
    (by rw [hfh]; exact Or.inr rfl) _)]
  simpa only [List.append_assoc] using subscribeDecodePacket_encode hv rest

theorem suback_decode_encode {p : SubackPacket} (hv : p.validB = true)
    (rest : List Nat) :
    runParser SubackPacket.decode (p.encode ++ rest) = .ok (p, rest) := by
  have hv' := hv
  simp only [SubackPacket.validB, Bool.and_eq_true, decide_eq_true_eq, beq_iff_eq] at hv'
  obtain ⟨-, hfh, hbound⟩ := hv'
  rw [SubackPacket.decode, SubackPacket.encode]
  simp only [List.append_assoc]
  rw [runParser_bind_ok (fixedHeaderDecode_encode
    (by rw [hfh]; exact hbound)
    (by rw [hfh]; exact (by norm_num : (0:Nat) < 16))
    (by rw [hfh]; exact Or.inr rfl) _)]
  simpa only [List.append_assoc] using subackDecodePacket_encode hv rest

theorem unsubscribe_decode_encode {p : UnsubscribePacket} (hv : p.validB = true)
    (rest : List Nat) :
    runParser UnsubscribePacket.decode (p.encode ++ rest) = .ok (p, rest) := by
  have hv' := hv
  simp only [UnsubscribePacket.validB, Bool.and_eq_true, decide_eq_true_eq,
    beq_iff_eq] at hv'
  obtain ⟨-, -, hfh, hbound⟩ := hv'
  rw [UnsubscribePacket.decode, UnsubscribePacket.encode]
  simp only [List.append_assoc]
  rw [runParser_bind_ok (fixedHeaderDecode_encode
    (by rw [hfh]; exact hbound)
    (by rw [hfh]; exact (by norm_num : (2:Nat) < 16))
    (by rw [hfh]; exact Or.inr rfl) _)]
  simpa only [List.append_assoc] using unsubscribeDecodePacket_encode hv rest

/-! ## Body lengths -/

theorem encodeStr_length (s : RStr) : (encodeStr s).length = strEncodedLength s := by
  simp [encodeStr, encodeU16, strEncodedLength]
  omega

theorem optStrEncode_length (o : Option RStr) : (optStrEncode o).length = optStrLen o := by
  cases o <;> simp [optStrEncode, optStrLen, encodeStr_length]

theorem optPkidEncode_length (o : Option Nat) : (optPkidEncode o).length = optPkidLen o := by
  cases o <;> rfl

theorem connectPayload_encode_length (pl : ConnectPacketPayload) :
    pl.encode.length = pl.encodedLength := by
  simp [ConnectPacketPayload.encode, ConnectPacketPayload.encodedLength,
    optStrEncode_length, encodeStr_length]
  omega

theorem subscribePayloadEncode_length (subs : List (RStr × QualityOfService)) :
    (subscribePayloadEncode subs).length = subscribePayloadLen subs := by
  induction subs with
  | nil => rfl
  | cons e t ih =>
    have hlen : subscribePayloadLen (e :: t) =
        (strEncodedLength e.1 + 1) + subscribePayloadLen t := by
      unfold subscribePayloadLen
      simp only [List.foldl_cons]
      rw [foldl_add_shift _ (by intro b a; omega)]
      omega
    rw [hlen]
    simp [subscribePayloadEncode] at ih ⊢
    rw [ih]
    simp [encodeStr_length, strEncodedLength]
    omega

theorem unsubscribePayloadEncode_length (subs : List RStr) :
    (unsubscribePayloadEncode subs).length = unsubscribePayloadLen subs := by
  induction subs with
  | nil => rfl
  | cons f t ih =>
    have hlen : unsubscribePayloadLen (f :: t) =
        strEncodedLength f + unsubscribePayloadLen t := by
      unfold unsubscribePayloadLen
      simp only [List.foldl_cons]
      rw [foldl_add_shift _ (by intro b a; omega)]
      omega
    rw [hlen]
    simp [unsubscribePayloadEncode] at ih ⊢
    rw [ih]
    simp [encodeStr_length]

/-- Generic success path of the take-bounded union decoder: a legal
header followed by a body of exactly `remaining_length` bytes that the
selected variant decoder consumes entirely. -/
theorem variablePacketDecode_ok {fh : FixedHeader} {body rest : List Nat}
    {vp : VariablePacket}
    (hrl : fh.remaining_length < 268435456) (hf : fh.packet_type.flags < 16)
    (hok : fh.packet_type.control_type = .publish ∨
      fh.packet_type.flags = PacketType.defaultFlags fh.packet_type.control_type)
    (hlen : body.length = fh.remaining_length)
    (hbody : runParser (decodePacketOfType fh.packet_type.control_type fh) body =
      .ok (vp, [])) :
    variablePacketDecode (fh.encode ++ (body ++ rest)) = .ok (vp, rest) := by
  have hraw := fixedHeaderRaw_encode hrl (body ++ rest)
  have step1 : variablePacketDecode (fh.encode ++ (body ++ rest)) =
      variablePacketClassify fh.packet_type.toU8 fh.remaining_length (body ++ rest) := by
    unfold variablePacketDecode
    rw [hraw]
    rfl
  have step2 : variablePacketClassify fh.packet_type.toU8 fh.remaining_length
      (body ++ rest) = variablePacketDispatch fh.packet_type fh.remaining_length
      (body ++ rest) := by
    unfold variablePacketClassify
    rw [fromU8_toU8 hf hok]
  have htake : (body ++ rest).take fh.remaining_length = body := by
    rw [← hlen]
    exact List.take_left body rest
  have hdrop : (body ++ rest).drop fh.remaining_length = rest := by
    rw [← hlen]
    exact List.drop_left body rest
  have step3 : variablePacketDispatch fh.packet_type fh.remaining_length
      (body ++ rest) = .ok (vp, rest) := by
    unfold variablePacketDispatch
    rw [htake, hdrop]
    have hnew : FixedHeader.new fh.packet_type fh.remaining_length = fh := rfl
    rw [hnew, hbody]
    rfl
  rw [step1, step2, step3]

theorem vhHeaderEncode_length (h : VariableHeader) : h.encode.length = h.encodedLength := by
  cases h <;>
    simp [VariableHeader.encode, VariableHeader.encodedLength, encodeStr_length, encodeU16]

theorem vhListEncode_length (vs : List VariableHeader) :
    ((vs.map VariableHeader.encode).flatten).length = vhListLen vs := by
  induction vs with
  | nil => rfl
  | cons h t ih =>
    have hlen : vhListLen (h :: t) = h.encodedLength + vhListLen t := by
      unfold vhListLen
      simp only [List.foldl_cons]
      rw [foldl_add_shift _ (by intro b a; omega)]
      omega
    simp only [List.map_cons, List.flatten_cons, List.length_append, ih,
      vhHeaderEncode_length, hlen]

/-- Round-trip through the `VariablePacket` tagged union. -/
theorem variable_decode_encode {vp : VariablePacket} (hv : vp.validB = true)
    (rest : List Nat) :
    variablePacketDecode (vp.encode ++ rest) = .ok (vp, rest) := by
  cases vp with
  | connect p =>
    simp only [VariablePacket.validB] at hv
    have hv' := hv
    unfold ConnectPacket.validB at hv'
    split at hv'
    case h_2 => exact absurd hv' (by simp)
    case h_1 pn lv fl ka heq =>
      simp only [Bool.and_eq_true, decide_eq_true_eq, beq_iff_eq] at hv'
      obtain ⟨-, -, -, -, -, -, -, -, -, -, -, -, -, hfh, hbound⟩ := hv'
      have hct : p.fixed_header.packet_type.control_type = .connect := by rw [hfh]; rfl
      simp only [VariablePacket.encode, ConnectPacket.encode, List.append_assoc]
      have hmain := @variablePacketDecode_ok p.fixed_header
        ((p.variable_headers.map VariableHeader.encode).flatten ++ p.payload.encode) rest
        (.connect p)
        (by rw [hfh]; exact hbound)
        (by rw [hfh]; exact (by norm_num : (0:Nat) < 16))
        (by rw [hfh]; exact Or.inr rfl)
        (by
          simp only [List.length_append, vhListEncode_length, connectPayload_encode_length]
          rw [hfh]
          rfl)
        (by
          rw [hct]
          show runParser ((ConnectPacket.decodePacket p.fixed_header).bind _) _ = _
          rw [runParser_bind_ok
            (by simpa only [List.append_assoc, List.append_nil] using
              connectDecodePacket_encode hv ([] : List Nat))]
          rfl)
      simpa only [List.append_assoc] using hmain
  | connack p =>
    simp only [VariablePacket.validB] at hv
    have hv' := hv
    unfold ConnackPacket.validB at hv'
    split at hv'
    case h_2 => exact absurd hv' (by simp)
    case h_1 fl c heq =>
      simp only [Bool.and_eq_true, decide_eq_true_eq, beq_iff_eq] at hv'
      obtain ⟨-, hfh⟩ := hv'
      have hct : p.fixed_header.packet_type.control_type = .connack := by rw [hfh]; rfl
      simp only [VariablePacket.encode, ConnackPacket.encode, List.append_assoc]
      exact variablePacketDecode_ok
        (by rw [hfh]; exact (by norm_num : (2:Nat) < 268435456))
        (by rw [hfh]; exact (by norm_num : (0:Nat) < 16))
        (by rw [hfh]; exact Or.inr rfl)
        (by
          simp only [vhListEncode_length]
          rw [hfh, heq]
          rfl)
        (by
          rw [hct]
          show runParser ((ConnackPacket.decodePacket p.fixed_header).bind _) _ = _
          rw [runParser_bind_ok
            (by simpa only [List.append_nil] using connackDecodePacket_encode hv ([] : List Nat))]
          rfl)
  | publish p =>
    simp only [VariablePacket.validB] at hv
    have hv' := hv
    simp only [PublishPacket.validB, Bool.and_eq_true, decide_eq_true_eq, beq_iff_eq] at hv'
    obtain ⟨hct, hfl, -, -, -, ⟨⟨-, hrl⟩, hbound⟩⟩ := hv'
    simp only [VariablePacket.encode, PublishPacket.encode, List.append_assoc]
    have hmain := @variablePacketDecode_ok p.fixed_header
      (encodeStr p.topic_name ++ (optPkidEncode p.packet_identifier ++ p.payload)) rest
      (.publish p)
      hbound hfl (Or.inl hct)
      (by
        simp only [List.length_append, encodeStr_length, optPkidEncode_length]
        omega)
      (by
        rw [hct]
        show runParser ((PublishPacket.decodePacket p.fixed_header).bind _) _ = _
        rw [runParser_bind_ok
          (by simpa only [List.append_assoc, List.append_nil] using
            publishDecodePacket_encode hv ([] : List Nat))]
        rfl)
    simpa only [List.append_assoc] using hmain
  | puback p =>
    simp only [VariablePacket.validB] at hv
    have hv' := hv
    simp only [PubackPacket.validB, Bool.and_eq_true, decide_eq_true_eq, beq_iff_eq] at hv'
    obtain ⟨-, hfh⟩ := hv'
    have hct : p.fixed_header.packet_type.control_type = .puback := by rw [hfh]; rfl
    simp only [VariablePacket.encode, PubackPacket.encode, List.append_assoc]
    exact variablePacketDecode_ok
      (by rw [hfh]; exact (by norm_num : (2:Nat) < 268435456))
      (by rw [hfh]; exact (by norm_num : (0:Nat) < 16))
      (by rw [hfh]; exact Or.inr rfl)
      (by rw [hfh]; rfl)
      (by
        rw [hct]
        show runParser ((PubackPacket.decodePacket p.fixed_header).bind _) _ = _
        rw [runParser_bind_ok
          (by simpa only [List.append_nil] using pubackDecodePacket_encode hv ([] : List Nat))]
        rfl)
  | pubrec p =>
    simp only [VariablePacket.validB] at hv
    have hv' := hv
    simp only [PubrecPacket.validB, Bool.and_eq_true, decide_eq_true_eq, beq_iff_eq] at hv'
    obtain ⟨-, hfh⟩ := hv'
    have hct : p.fixed_header.packet_type.control_type = .pubrec := by rw [hfh]; rfl
    simp only [VariablePacket.encode, PubrecPacket.encode, List.append_assoc]
    exact variablePacketDecode_ok
      (by rw [hfh]; exact (by norm_num : (2:Nat) < 268435456))
      (by rw [hfh]; exact (by norm_num : (0:Nat) < 16))
      (by rw [hfh]; exact Or.inr rfl)
      (by rw [hfh]; rfl)
      (by
        rw [hct]
        show runParser ((PubrecPacket.decodePacket p.fixed_header).bind _) _ = _
        rw [runParser_bind_ok
          (by simpa only [List.append_nil] using pubrecDecodePacket_encode hv ([] : List Nat))]
        rfl)
  | pubrel p =>
    simp only [VariablePacket.validB] at hv
    have hv' := hv
    simp only [PubrelPacket.validB, Bool.and_eq_true, decide_eq_true_eq, beq_iff_eq] at hv'
    obtain ⟨-, hfh⟩ := hv'
    have hct : p.fixed_header.packet_type.control_type = .pubrel := by rw [hfh]; rfl
    simp only [VariablePacket.encode, PubrelPacket.encode, List.append_assoc]
    exact variablePacketDecode_ok
      (by rw [hfh]; exact (by norm_num : (2:Nat) < 268435456))
      (by rw [hfh]; exact (by norm_num : (2:Nat) < 16))
      (by rw [hfh]; exact Or.inr rfl)
      (by rw [hfh]; rfl)
      (by
        rw [hct]
        show runParser ((PubrelPacket.decodePacket p.fixed_header).bind _) _ = _
        rw [runParser_bind_ok
          (by simpa only [List.append_nil] using pubrelDecodePacket_encode hv ([] : List Nat))]
        rfl)
  | pubcomp p =>
    simp only [VariablePacket.validB] at hv
    have hv' := hv
    simp only [PubcompPacket.validB, Bool.and_eq_true, decide_eq_true_eq, beq_iff_eq] at hv'
    obtain ⟨-, hfh⟩ := hv'
    have hct : p.fixed_header.packet_type.control_type = .pubcomp := by rw [hfh]; rfl
    simp only [VariablePacket.encode, PubcompPacket.encode, List.append_assoc]
    exact variablePacketDecode_ok
      (by rw [hfh]; exact (by norm_num : (2:Nat) < 268435456))
      (by rw [hfh]; exact (by norm_num : (0:Nat) < 16))
      (by rw [hfh]; exact Or.inr rfl)
      (by rw [hfh]; rfl)
      (by
        rw [hct]
        show runParser ((PubcompPacket.decodePacket p.fixed_header).bind _) _ = _
        rw [runParser_bind_ok
          (by simpa only [List.append_nil] using pubcompDecodePacket_encode hv ([] : List Nat))]
        rfl)
  | pingreq p =>
    simp only [VariablePacket.validB] at hv
    simp only [PingreqPacket.validB, beq_iff_eq] at hv
    have hct : p.fixed_header.packet_type.control_type = .pingreq := by rw [hv]; rfl
    have hmain := @variablePacketDecode_ok p.fixed_header
      ([]) rest
      (.pingreq p)
      (by rw [hv]; exact (by norm_num : (0:Nat) < 268435456))
      (by rw [hv]; exact (by norm_num : (0:Nat) < 16))
      (by rw [hv]; exact Or.inr rfl)
      (by rw [hv]; rfl)
      (by rw [hct]; rfl)
    simpa only [VariablePacket.encode, PingreqPacket.encode, List.nil_append]
      using hmain
  | pingresp p =>
    simp only [VariablePacket.validB] at hv
    simp only [PingrespPacket.validB, beq_iff_eq] at hv
    have hct : p.fixed_header.packet_type.control_type = .pingresp := by rw [hv]; rfl
    have hmain := @variablePacketDecode_ok p.fixed_header
      ([]) rest
      (.pingresp p)
      (by rw [hv]; exact (by norm_num : (0:Nat) < 268435456))
      (by rw [hv]; exact (by norm_num : (0:Nat) < 16))
      (by rw [hv]; exact Or.inr rfl)
      (by rw [hv]; rfl)
      (by rw [hct]; rfl)
    simpa only [VariablePacket.encode, PingrespPacket.encode, List.nil_append]
      using hmain
  | disconnect p =>
    simp only [VariablePacket.validB] at hv
    simp only [DisconnectPacket.validB, beq_iff_eq] at hv
    have hct : p.fixed_header.packet_type.control_type = .disconnect := by rw [hv]; rfl
    have hmain := @variablePacketDecode_ok p.fixed_header
      ([]) rest
      (.disconnect p)
      (by rw [hv]; exact (by norm_num : (0:Nat) < 268435456))
      (by rw [hv]; exact (by norm_num : (0:Nat) < 16))
      (by rw [hv]; exact Or.inr rfl)
      (by rw [hv]; rfl)
      (by rw [hct]; rfl)
    simpa only [VariablePacket.encode, DisconnectPacket.encode, List.nil_append]
      using hmain
  | subscribe p =>
    simp only [VariablePacket.validB] at hv
    have hv' := hv
    simp only [SubscribePacket.validB, Bool.and_eq_true, decide_eq_true_eq, beq_iff_eq] at hv'
    obtain ⟨-, -, hfh, hbound⟩ := hv'
    have hct : p.fixed_header.packet_type.control_type = .subscribe := by rw [hfh]; rfl
    simp only [VariablePacket.encode, SubscribePacket.encode, List.append_assoc]
    have hmain := @variablePacketDecode_ok p.fixed_header
      (encodeU16 p.packet_identifier ++ subscribePayloadEncode p.payload) rest
      (.subscribe p)
      (by rw [hfh]; exact hbound)
      (by rw [hfh]; exact (by norm_num : (2:Nat) < 16))
      (by rw [hfh]; exact Or.inr rfl)
      (by
        simp only [List.length_append, subscribePayloadEncode_length, encodeU16]
        rw [hfh]
        rfl)
      (by
        rw [hct]
        show runParser ((SubscribePacket.decodePacket p.fixed_header).bind _) _ = _
        rw [runParser_bind_ok
          (by simpa only [List.append_assoc, List.append_nil] using
            subscribeDecodePacket_encode hv ([] : List Nat))]
        rfl)
    simpa only [List.append_assoc] using hmain
  | suback p =>
    simp only [VariablePacket.validB] at hv
    have hv' := hv
    simp only [SubackPacket.validB, Bool.and_eq_true, decide_eq_true_eq, beq_iff_eq] at hv'
    obtain ⟨-, hfh, hbound⟩ := hv'
    have hct : p.fixed_header.packet_type.control_type = .suback := by rw [hfh]; rfl
    simp only [VariablePacket.encode, SubackPacket.encode, List.append_assoc]
    have hmain := @variablePacketDecode_ok p.fixed_header
      (encodeU16 p.packet_identifier ++ p.payload.map SubscribeReturnCode.toU8) rest
      (.suback p)
      (by rw [hfh]; exact hbound)
      (by rw [hfh]; exact (by norm_num : (0:Nat) < 16))
      (by rw [hfh]; exact Or.inr rfl)
      (by
        simp only [List.length_append, List.length_map, encodeU16]
        rw [hfh]
        rfl)
      (by
        rw [hct]
        show runParser ((SubackPacket.decodePacket p.fixed_header).bind _) _ = _
        rw [runParser_bind_ok
          (by simpa only [List.append_assoc, List.append_nil] using
            subackDecodePacket_encode hv ([] : List Nat))]
        rfl)
    simpa only [List.append_assoc] using hmain
  | unsubscribe p =>
    simp only [VariablePacket.validB] at hv
    have hv' := hv
    simp only [UnsubscribePacket.validB, Bool.and_eq_true, decide_eq_true_eq,
      beq_iff_eq] at hv'
    obtain ⟨-, -, hfh, hbound⟩ := hv'
    have hct : p.fixed_header.packet_type.control_type = .unsubscribe := by rw [hfh]; rfl
    simp only [VariablePacket.encode, UnsubscribePacket.encode, List.append_assoc]
    have hmain := @variablePacketDecode_ok p.fixed_header
      (encodeU16 p.packet_identifier ++ unsubscribePayloadEncode p.payload) rest
      (.unsubscribe p)
      (by rw [hfh]; exact hbound)
      (by rw [hfh]; exact (by norm_num : (2:Nat) < 16))
      (by rw [hfh]; exact Or.inr rfl)
      (by
        simp only [List.length_append, unsubscribePayloadEncode_length, encodeU16]
        rw [hfh]
        rfl)
      (by
        rw [hct]
        show runParser ((UnsubscribePacket.decodePacket p.fixed_header).bind _) _ = _
        rw [runParser_bind_ok
          (by simpa only [List.append_assoc, List.append_nil] using
            unsubscribeDecodePacket_encode hv ([] : List Nat))]
        rfl)
    simpa only [List.append_assoc] using hmain
  | unsuback p =>
    simp only [VariablePacket.validB] at hv
    have hv' := hv
    simp only [UnsubackPacket.validB, Bool.and_eq_true, decide_eq_true_eq, beq_iff_eq] at hv'
    obtain ⟨-, hfh⟩ := hv'
    have hct : p.fixed_header.packet_type.control_type = .unsuback := by rw [hfh]; rfl
    simp only [VariablePacket.encode, UnsubackPacket.encode, List.append_assoc]
    exact variablePacketDecode_ok
      (by rw [hfh]; exact (by norm_num : (2:Nat) < 268435456))
      (by rw [hfh]; exact (by norm_num : (0:Nat) < 16))
      (by rw [hfh]; exact Or.inr rfl)
      (by rw [hfh]; rfl)
      (by
        rw [hct]
        show runParser ((UnsubackPacket.decodePacket p.fixed_header).bind _) _ = _
        rw [runParser_bind_ok
          (by simpa only [List.append_nil] using unsubackDecodePacket_encode hv ([] : List Nat))]
        rfl)

def concreteRoundtripAt : VariablePacket → List Nat → Prop
  | .connect p, rest => runParser ConnectPacket.decode (p.encode ++ rest) = .ok (p, rest)
  | .connack p, rest => runParser ConnackPacket.decode (p.encode ++ rest) = .ok (p, rest)
  | .publish p, rest => runParser PublishPacket.decode (p.encode ++ rest) = .ok (p, rest)
  | .puback p, rest => runParser PubackPacket.decode (p.encode ++ rest) = .ok (p, rest)
  | .pubrec p, rest => runParser PubrecPacket.decode (p.encode ++ rest) = .ok (p, rest)
  | .pubrel p, rest => runParser PubrelPacket.decode (p.encode ++ rest) = .ok (p, rest)
  | .pubcomp p, rest => runParser PubcompPacket.decode (p.encode ++ rest) = .ok (p, rest)
  | .pingreq p, rest => runParser PingreqPacket.decode (p.encode ++ rest) = .ok (p, rest)
  | .pingresp p, rest => runParser PingrespPacket.decode (p.encode ++ rest) = .ok (p, rest)
  | .disconnect p, rest => runParser DisconnectPacket.decode (p.encode ++ rest) = .ok (p, rest)
  | .subscribe p, rest => runParser SubscribePacket.decode (p.encode ++ rest) = .ok (p, rest)
  | .suback p, rest => runParser SubackPacket.decode (p.encode ++ rest) = .ok (p, rest)
  | .unsubscribe p, rest =>
      runParser UnsubscribePacket.decode (p.encode ++ rest) = .ok (p, rest)
  | .unsuback p, rest => runParser UnsubackPacket.decode (p.encode ++ rest) = .ok (p, rest)

/-- C1: for every packet variant among the fourteen control-packet types and every
valid packet value (one whose structural validity predicate `validB` holds, capturing
values built from the constructors and setters with validated domain values), decoding
the bytes produced by encoding the value yields the value back — both through the
concrete per-type decoder (`X.decode`, modelling `<X>Packet::decode`) and through the
`VariablePacket` tagged union decoder (`variablePacketDecode`, modelling
`VariablePacket::decode`), with any trailing bytes left unconsumed. -/
theorem C1_roundtrip (vp : VariablePacket) (hv : vp.validB = true) (rest : List Nat) :
    variablePacketDecode (vp.encode ++ rest) = .ok (vp, rest) ∧
    concreteRoundtripAt vp rest := by
  refine ⟨variable_decode_encode hv rest, ?_⟩
  cases vp <;> simp only [VariablePacket.validB] at hv <;>
    simp only [concreteRoundtripAt]
  case connect p => exact connect_decode_encode hv rest
  case connack p => exact connack_decode_encode hv rest
  case publish p => exact publish_decode_encode hv rest
  case puback p => exact puback_decode_encode hv rest
  case pubrec p => exact pubrec_decode_encode hv rest
  case pubrel p => exact pubrel_decode_encode hv rest
  case pubcomp p => exact pubcomp_decode_encode hv rest
  case pingreq p => exact pingreq_decode_encode hv rest
  case pingresp p => exact pingresp_decode_encode hv rest
  case disconnect p => exact disconnect_decode_encode hv rest
  case subscribe p => exact subscribe_decode_encode hv rest
  case suback p => exact suback_decode_encode hv rest
  case unsubscribe p => exact unsubscribe_decode_encode hv rest
  case unsuback p => exact unsuback_decode_encode hv rest

theorem C1_roundtrip_witness :
    (VariablePacket.connack (ConnackPacket.mkNew true 0)).validB = true ∧
    (variablePacketDecode ((VariablePacket.connack (ConnackPacket.mkNew true 0)).encode
        ++ [7]) =
      .ok (VariablePacket.connack (ConnackPacket.mkNew true 0), [7]) ∧
    concreteRoundtripAt (VariablePacket.connack (ConnackPacket.mkNew true 0)) [7]) :=
  ⟨by rfl, C1_roundtrip (VariablePacket.connack (ConnackPacket.mkNew true 0)) (by rfl) [7]⟩

/-- C2: the remaining-length variable-length integer codec: for every
`n < 2^28` decoding the encoding of `n` returns `n` (leaving trailing bytes),
the encoding is 1/2/3/4 bytes long over the ranges `[0,128)`, `[128,16384)`,
`[16384,2097152)`, `[2097152,2^28)`, and decoding any input whose first four
bytes all have the continuation bit set — so that a fifth remaining-length
byte would be required — fails with `MalformedRemainingLength`. -/
theorem C2_varint (n : Nat) (h : n < 268435456)
    (b0 b1 b2 b3 b4 : Nat) (h0 : b0 &&& 128 ≠ 0) (h1 : b1 &&& 128 ≠ 0)
    (h2 : b2 &&& 128 ≠ 0) (h3 : b3 &&& 128 ≠ 0) (rest : List Nat) :
    runParser (remLenLoop 0 0) (encodeRemLen n ++ rest) = .ok (n, rest) ∧
    (encodeRemLen n).length =
      (if n < 128 then 1 else if n < 16384 then 2
       else if n < 2097152 then 3 else 4) ∧
    runParser (remLenLoop 0 0) (b0 :: b1 :: b2 :: b3 :: b4 :: rest) =
      .error .malformedRemainingLength :=
  ⟨remLen_roundtrip h rest, encodeRemLen_length h,
    remLenLoop_malformed b0 b1 b2 b3 b4 rest h0 h1 h2 h3⟩

theorem C2_varint_witness :
    ((2097151 : Nat) < 268435456 ∧ ((128 : Nat) &&& 128 ≠ 0)) ∧
    (runParser (remLenLoop 0 0) (encodeRemLen 2097151 ++ []) = .ok (2097151, []) ∧
     (encodeRemLen 2097151).length =
       (if 2097151 < 128 then 1 else if 2097151 < 16384 then 2
        else if 2097151 < 2097152 then 3 else 4) ∧
     runParser (remLenLoop 0 0) (128 :: 128 :: 128 :: 128 :: 2 :: []) =
       .error .malformedRemainingLength) :=
  ⟨⟨by norm_num, by decide⟩,
    C2_varint 2097151 (by norm_num) 128 128 128 128 2
      (by decide) (by decide) (by decide) (by decide) []⟩


theorem splitOnByte_ne_nil (sep : Nat) (t : List Nat) : splitOnByte sep t ≠ [] := by
  cases t with
  | nil => simp [splitOnByte]
  | cons b r =>
    simp only [splitOnByte]
    split
    · simp
    · split <;> simp

/-- The lockstep `loop` of `TopicFilterMatcher::is_match`, over the two
level iterators after the first level of each side has been consumed. -/
def matchLoop : List RStr → List RStr → Bool
  | ft :: fts, tn :: tns =>
      if ft == [35] then true
      else if ft == [43] then matchLoop fts tns
      else if ft == tn then matchLoop fts tns
      else false
  | ft :: _, [] => ft == [35]
  | [], _ :: _ => false
  | [], [] => true

/-- `TopicFilterMatcher::is_match` on UTF-8 byte strings: split both sides
at `/` (47), handle the first levels (the `$`-rule of MQTT-4.7.2-1, then
`#` / `+` / literal on the filter side), then run the lockstep loop. -/
def isMatchBytes (filter t : RStr) : Bool :=
  match splitOnByte 47 filter, splitOnByte 47 t with
  | first_ft :: fts, first_tn :: tns =>
      if first_tn.head? == some 36 then
        if first_tn == first_ft then matchLoop fts tns else false
      else
        if first_ft == [35] then true
        else if first_ft == [43] then matchLoop fts tns
        else if first_tn == first_ft then matchLoop fts tns else false
  | _, _ => false

/-- Specification-side lockstep walk over the remaining filter and name
levels: a final `#` level matches the (possibly empty) remainder, `+`
matches exactly one level, a literal level must equal the name's level,
and both sequences must end together. -/
def specWalk : List RStr → List RStr → Bool
  | [], [] => true
  | [], _ :: _ => false
  | f :: fs, ts =>
      if f == [35] && fs == [] then true
      else
        match ts with
        | [] => false
        | t :: ts' => (f == [43] || f == t) && specWalk fs ts'

/-- Specification-side matcher per MQTT-4.7: if the name's first level
starts with `$` the filter's first level must equal it literally (wildcards
never match the leading `$` level), otherwise all levels are walked in
lockstep. -/
def specMatch (f t : RStr) : Bool :=
  match splitOnByte 47 f, splitOnByte 47 t with
  | f0 :: fs, t0 :: ts =>
      if t0.head? == some 36 then (f0 == t0) && specWalk fs ts
      else specWalk (f0 :: fs) (t0 :: ts)
  | _, _ => false

theorem levelA_ne_hash {f : RStr} (h : levelA f = true) : f ≠ [35] := by
  intro hf
  subst hf
  simp [levelA, levelPlain] at h

theorem levelPlain_ne_plus {f : RStr} (h : levelPlain f = true) : f ≠ [43] := by
  intro hf
  subst hf
  simp [levelPlain] at h

theorem matchLoop_eq_specWalk :
    ∀ fs ts : List RStr, (fs = [] ∨ filterLevelsOk fs = true) →
      matchLoop fs ts = specWalk fs ts := by
  intro fs
  induction fs with
  | nil => intro ts _; cases ts <;> rfl
  | cons f fs' ih =>
    intro ts hval
    have hok : filterLevelsOk (f :: fs') = true := by
      rcases hval with h | h
      · exact absurd h (by simp)
      · exact h
    by_cases h35 : f = [35] ∧ fs' = []
    · obtain ⟨rfl, rfl⟩ := h35
      cases ts <;> rfl
    · have key : levelA f = true ∧ (fs' = [] ∨ filterLevelsOk fs' = true) := by
        cases fs' with
        | nil =>
          simp only [filterLevelsOk, Bool.or_eq_true, beq_iff_eq] at hok
          rcases hok with h | h
          · exact ⟨h, Or.inl rfl⟩
          · exact absurd ⟨h, rfl⟩ h35
        | cons g gs =>
          simp only [filterLevelsOk, Bool.and_eq_true] at hok
          exact ⟨hok.1, Or.inr hok.2⟩
      obtain ⟨hA, hres⟩ := key
      have hf35 : f ≠ [35] := levelA_ne_hash hA
      have hcond : (f == [35] && fs' == []) = false := by
        simp [hf35]
      cases ts with
      | nil =>
        simp only [matchLoop, specWalk, hcond, Bool.false_eq_true, if_false]
        simp [hf35]
      | cons t ts' =>
        simp only [matchLoop, specWalk, hcond, Bool.false_eq_true, if_false]
        rw [if_neg (by simp [hf35])]
        by_cases h43 : f = [43]
        · subst h43
          simp [ih ts' hres]
        · rw [if_neg (by simp [h43])]
          by_cases hft : f = t
          · subst hft
            simp [ih ts' hres]
          · simp [h43, hft]

theorem mem_of_mem_splitOnByte {sep : Nat} :
    ∀ {t l : List Nat}, l ∈ splitOnByte sep t → ∀ {b : Nat}, b ∈ l → b ∈ t := by
  intro t
  induction t with
  | nil =>
    intro l hl b hb
    simp [splitOnByte] at hl
    subst hl
    simp at hb
  | cons c r ih =>
    intro l hl b hb
    by_cases hc : c = sep
    · rw [splitOnByte, if_pos hc] at hl
      cases List.mem_cons.mp hl with
      | inl h =>
        rw [h] at hb
        simp at hb
      | inr h => exact List.mem_cons_of_mem _ (ih h hb)
    · rw [splitOnByte, if_neg hc] at hl
      cases hsr : splitOnByte sep r with
      | nil => exact absurd hsr (splitOnByte_ne_nil sep r)
      | cons l' ls =>
        rw [hsr] at hl
        cases List.mem_cons.mp hl with
        | inl h =>
          rw [h] at hb
          cases List.mem_cons.mp hb with
          | inl hbc =>
            rw [hbc]
            exact List.mem_cons_self _ _
          | inr hbl =>
            exact List.mem_cons_of_mem _ (ih (hsr ▸ List.mem_cons_self l' ls) hbl)
        | inr h => exact List.mem_cons_of_mem _ (ih (hsr ▸ List.mem_cons_of_mem l' h) hb)

theorem splitOnByte_head_dollar {t t0 : RStr} {ts : List RStr}
    (h : splitOnByte 47 t = t0 :: ts) :
    (t0.head? == some 36) = (t.head? == some 36) := by
  cases t with
  | nil =>
    simp only [splitOnByte, List.cons.injEq] at h
    obtain ⟨rfl, -⟩ := h
    rfl
  | cons b r =>
    by_cases hb : b = 47
    · subst hb
      simp only [splitOnByte, if_pos rfl, List.cons.injEq] at h
      obtain ⟨rfl, -⟩ := h
      rfl
    · simp only [splitOnByte, if_neg hb] at h
      cases hsr : splitOnByte 47 r with
      | nil => exact absurd hsr (splitOnByte_ne_nil 47 r)
      | cons l ls =>
        rw [hsr] at h
        simp only [List.cons.injEq] at h
        obtain ⟨rfl, -⟩ := h
        rfl

theorem filterLevelsOk_of_valid {f : RStr} (hf : isInvalidTopicFilterBytes f = false) :
    filterLevelsOk (splitOnByte 47 f) = true := by
  simp only [isInvalidTopicFilterBytes, Bool.or_eq_false_iff] at hf
  have h2 := hf.2
  simpa using h2

theorem isMatchBytes_eq_specMatch (f t : RStr)
    (hf : isInvalidTopicFilterBytes f = false) :
    isMatchBytes f t = specMatch f t := by
  have hlev := filterLevelsOk_of_valid hf
  obtain ⟨f0, fs, hsplit⟩ : ∃ f0 fs, splitOnByte 47 f = f0 :: fs := by
    cases h : splitOnByte 47 f with
    | nil => exact absurd h (splitOnByte_ne_nil 47 f)
    | cons a b => exact ⟨a, b, rfl⟩
  obtain ⟨t0, ts, htsplit⟩ : ∃ t0 ts, splitOnByte 47 t = t0 :: ts := by
    cases h : splitOnByte 47 t with
    | nil => exact absurd h (splitOnByte_ne_nil 47 t)
    | cons a b => exact ⟨a, b, rfl⟩
  rw [hsplit] at hlev
  have hres : fs = [] ∨ filterLevelsOk fs = true := by
    cases fs with
    | nil => exact Or.inl rfl
    | cons g gs =>
      simp only [filterLevelsOk, Bool.and_eq_true] at hlev
      exact Or.inr hlev.2
  simp only [isMatchBytes, specMatch, hsplit, htsplit]
  by_cases hd : (t0.head? == some 36) = true
  · rw [if_pos hd, if_pos hd]
    rw [matchLoop_eq_specWalk fs ts hres]
    by_cases he : t0 = f0
    · subst he
      simp
    · have h1 : (t0 == f0) = false := by simp [he]
      have h2 : (f0 == t0) = false := by simp [Ne.symm he]
      simp [h1, h2]
  · rw [if_neg hd, if_neg hd]
    by_cases h35 : f0 = [35]
    · subst h35
      have hfs : fs = [] := by
        cases fs with
        | nil => rfl
        | cons g gs => simp [filterLevelsOk, levelA, levelPlain] at hlev
      subst hfs
      rw [if_pos (by simp)]
      simp [specWalk]
    · have hrhs : specWalk (f0 :: fs) (t0 :: ts) =
          ((f0 == [43] || f0 == t0) && specWalk fs ts) := by
        simp only [specWalk]
        rw [if_neg (by simp [h35])]
      rw [if_neg (by simp [h35])]
      by_cases h43 : f0 = [43]
      · subst h43
        rw [if_pos (by simp)]
        rw [matchLoop_eq_specWalk fs ts hres, hrhs]
        simp
      · rw [if_neg (by simp [h43])]
        rw [hrhs, matchLoop_eq_specWalk fs ts hres]
        by_cases he : t0 = f0
        · subst he
          simp [h43]
        · have h1 : (t0 == f0) = false := by simp [he]
          have h2 : (f0 == t0) = false := by simp [Ne.symm he]
          simp [h1, h2, h43]

theorem hashFilter_matches (t : RStr) (ht : isInvalidTopicNameBytes t = false) :
    isMatchBytes [35] t = !(t.head? == some 36) := by
  obtain ⟨t0, ts, htsplit⟩ : ∃ t0 ts, splitOnByte 47 t = t0 :: ts := by
    cases h : splitOnByte 47 t with
    | nil => exact absurd h (splitOnByte_ne_nil 47 t)
    | cons a b => exact ⟨a, b, rfl⟩
  have hhead := splitOnByte_head_dollar htsplit
  have hsplitf : splitOnByte 47 [35] = [[35]] := rfl
  simp only [isMatchBytes, hsplitf, htsplit]
  by_cases hd : (t0.head? == some 36) = true
  · rw [if_pos hd]
    have ht35 : t0 ≠ [35] := by
      intro hcontra
      have hmem : (35 : Nat) ∈ t := by
        refine mem_of_mem_splitOnByte (htsplit ▸ List.mem_cons_self t0 ts) ?_
        rw [hcontra]
        exact List.mem_cons_self _ _
      simp only [isInvalidTopicNameBytes, Bool.or_eq_false_iff] at ht
      have := ht.2
      rw [List.any_eq_false] at this
      exact absurd (by simp : decide ((35:Nat) = 35 ∨ (35:Nat) = 43) = true) (this 35 hmem)
    rw [if_neg (by simp [ht35])]
    rw [← hhead, hd]
    rfl
  · have hd' : (t0.head? == some 36) = false := by simpa using hd
    rw [if_neg hd, if_pos (by simp)]
    rw [← hhead, hd']
    rfl

/-- C3: for every valid topic filter and valid topic name, the matcher
`TopicFilterMatcher::is_match` (embedded as `isMatchBytes`) agrees with the
MQTT-4.7 semantics (`specMatch`): a leading `$` level must be matched
literally by the filter's first level, otherwise levels are walked in
lockstep with `#` matching the possibly-empty remainder, `+` matching
exactly one level, literal levels compared for equality, and both sequences
ending together unless the filter ends in `#`. In particular the filter `#`
matches exactly the names whose first level does not start with `$`, and
the filter `+/+` matches `a/b` but neither `a` nor `a/b/c`. -/
theorem C3_matcher (f t : RStr)
    (hf : isInvalidTopicFilterBytes f = false)
    (ht : isInvalidTopicNameBytes t = false) :
    isMatchBytes f t = specMatch f t ∧
    isMatchBytes [35] t = !(t.head? == some 36) ∧
    (isMatchBytes [43, 47, 43] [97, 47, 98] = true ∧
     isMatchBytes [43, 47, 43] [97] = false ∧
     isMatchBytes [43, 47, 43] [97, 47, 98, 47, 99] = false) :=
  ⟨isMatchBytes_eq_specMatch f t hf, hashFilter_matches t ht,
    by decide, by decide, by decide⟩

theorem C3_matcher_witness :
    (isInvalidTopicFilterBytes [43] = false ∧ isInvalidTopicNameBytes [97] = false) ∧
    (isMatchBytes [43] [97] = specMatch [43] [97] ∧
     isMatchBytes [35] [97] = !(([97] : RStr).head? == some 36) ∧
     (isMatchBytes [43, 47, 43] [97, 47, 98] = true ∧
      isMatchBytes [43, 47, 43] [97] = false ∧
      isMatchBytes [43, 47, 43] [97, 47, 98, 47, 99] = false)) :=
  ⟨⟨by rfl, by rfl⟩, C3_matcher [43] [97] (by rfl) (by rfl)⟩

/-- Regular-expression abstract syntax, enough for
`VALIDATE_TOPIC_FILTER_REGEX`: empty word, a single byte drawn from a
class, concatenation, alternation, Kleene star. The `^...$` anchors are
modelled by reading membership as whole-string matching. -/
inductive Rx where
  | eps : Rx
  | cls (p : Nat → Bool) : Rx
  | cat (r s : Rx) : Rx
  | alt (r s : Rx) : Rx
  | star (r : Rx) : Rx

/-- The language of a regular expression (whole-string matching). -/
inductive RxLang : Rx → List Nat → Prop where
  | eps : RxLang .eps []
  | cls {p : Nat → Bool} {a : Nat} (h : p a = true) : RxLang (.cls p) [a]
  | catI {r s : Rx} {w1 w2 : List Nat} :
      RxLang r w1 → RxLang s w2 → RxLang (.cat r s) (w1 ++ w2)
  | altL {r s : Rx} {w : List Nat} : RxLang r w → RxLang (.alt r s) w
  | altR {r s : Rx} {w : List Nat} : RxLang s w → RxLang (.alt r s) w
  | starNil {r : Rx} : RxLang (.star r) []
  | starCons {r : Rx} {w1 w2 : List Nat} :
      RxLang r w1 → RxLang (.star r) w2 → RxLang (.star r) (w1 ++ w2)

/-- The byte class `[^+#]`. -/
def plainByte (b : Nat) : Bool := !(b == 43 || b == 35)

/-- `[^+#]*`. -/
def rxNotWild : Rx := .star (.cls plainByte)

/-- `\+`. -/
def rxPlus : Rx := .cls (fun b => b == 43)

/-- `([^+#]*|\+)`, one filter level other than `#`. -/
def rxA : Rx := .alt rxNotWild rxPlus

/-- `/`. -/
def rxSlash : Rx := .cls (fun b => b == 47)

/-- `#`. -/
def rxHash : Rx := .cls (fun b => b == 35)

/-- `VALIDATE_TOPIC_FILTER_REGEX = ^(([^+#]*|\+)(/([^+#]*|\+))*(/#)?|#)$`. -/
def validateTopicFilterRx : Rx :=
  .alt (.cat rxA (.cat (.star (.cat rxSlash rxA)) (.alt (.cat rxSlash rxHash) .eps))) rxHash

theorem splitOnByte_sepFree {sep : Nat} :
    ∀ {x : List Nat}, (∀ b ∈ x, b ≠ sep) → splitOnByte sep x = [x] := by
  intro x
  induction x with
  | nil => intro _; rfl
  | cons c r ih =>
    intro h
    have hc : c ≠ sep := h c (List.mem_cons_self _ _)
    rw [splitOnByte, if_neg hc, ih (fun b hb => h b (List.mem_cons_of_mem _ hb))]

theorem splitOnByte_append_sep {sep : Nat} :
    ∀ (x y : List Nat),
      splitOnByte sep (x ++ sep :: y) = splitOnByte sep x ++ splitOnByte sep y := by
  intro x y
  induction x with
  | nil =>
    have h1 : splitOnByte sep ([] ++ sep :: y) = [] :: splitOnByte sep y := by
      rw [List.nil_append, splitOnByte, if_pos rfl]
    rw [h1]
    rfl
  | cons c r ih =>
    by_cases hc : c = sep
    · subst hc
      rw [List.cons_append, splitOnByte, if_pos rfl, ih, splitOnByte, if_pos rfl]
      rfl
    · rw [List.cons_append, splitOnByte, if_neg hc, ih]
      rw [splitOnByte, if_neg hc]
      cases hsr : splitOnByte sep r with
      | nil => exact absurd hsr (splitOnByte_ne_nil sep r)
      | cons l ls => rfl

/-- Rebuild a string from its `/`-level decomposition. -/
def joinSep (sep : Nat) : List (List Nat) → List Nat
  | [] => []
  | [l] => l
  | l :: ls => l ++ sep :: joinSep sep ls

theorem joinSep_splitOnByte (sep : Nat) :
    ∀ t : List Nat, joinSep sep (splitOnByte sep t) = t := by
  intro t
  induction t with
  | nil => rfl
  | cons c r ih =>
    by_cases hc : c = sep
    · subst hc
      rw [splitOnByte, if_pos rfl]
      cases hsr : splitOnByte c r with
      | nil => exact absurd hsr (splitOnByte_ne_nil c r)
      | cons l ls =>
        rw [hsr] at ih
        show [] ++ c :: joinSep c (l :: ls) = c :: r
        rw [List.nil_append, ih]
    · rw [splitOnByte, if_neg hc]
      cases hsr : splitOnByte sep r with
      | nil => exact absurd hsr (splitOnByte_ne_nil sep r)
      | cons l ls =>
        rw [hsr] at ih
        cases ls with
        | nil =>
          show (c :: l) = c :: r
          rw [show l = r from ih]
        | cons l2 ls2 =>
          show (c :: l) ++ sep :: joinSep sep (l2 :: ls2) = c :: r
          rw [List.cons_append]
          rw [show l ++ sep :: joinSep sep (l2 :: ls2) = r from ih]

/-- The middle `(/([^+#]*|\+))*` part of the filter, as levels each
prefixed by a `/`. -/
def joinSlash (ls : List (List Nat)) : List Nat :=
  (ls.map (fun l => 47 :: l)).flatten

theorem joinSlash_nil : joinSlash [] = [] := rfl

theorem joinSlash_cons (l : List Nat) (ls : List (List Nat)) :
    joinSlash (l :: ls) = 47 :: (l ++ joinSlash ls) := by
  simp [joinSlash]

theorem joinSlash_append (a b : List (List Nat)) :
    joinSlash (a ++ b) = joinSlash a ++ joinSlash b := by
  simp [joinSlash]

theorem joinSep_eq_joinSlash (l0 : List Nat) :
    ∀ ls : List (List Nat), joinSep 47 (l0 :: ls) = l0 ++ joinSlash ls := by
  intro ls
  induction ls generalizing l0 with
  | nil => simp [joinSep, joinSlash]
  | cons l ls' ih =>
    show l0 ++ 47 :: joinSep 47 (l :: ls') = l0 ++ joinSlash (l :: ls')
    rw [ih l, joinSlash_cons]

theorem splitOnByte_append_joinSlash :
    ∀ (ls : List (List Nat)) (x : List Nat),
      splitOnByte 47 (x ++ joinSlash ls) =
        splitOnByte 47 x ++ (ls.map (splitOnByte 47)).flatten := by
  intro ls
  induction ls with
  | nil => intro x; simp [joinSlash]
  | cons l ls' ih =>
    intro x
    rw [joinSlash_cons, splitOnByte_append_sep x (l ++ joinSlash ls'), ih l]
    simp

theorem filterLevelsOk_iff :
    ∀ ls : List (List Nat), filterLevelsOk ls = true ↔
      (ls ≠ [] ∧ ((∀ l ∈ ls, levelA l = true) ∨
        (∃ mids, ls = mids ++ [[35]] ∧ ∀ l ∈ mids, levelA l = true))) := by
  intro ls
  induction ls with
  | nil => simp [filterLevelsOk]
  | cons l ls' ih =>
    cases ls' with
    | nil =>
      constructor
      · intro h
        simp only [filterLevelsOk, Bool.or_eq_true, beq_iff_eq] at h
        refine ⟨by simp, ?_⟩
        rcases h with h | h
        · left
          intro x hx
          have hx' : x = l := by simpa using hx
          rw [hx']
          exact h
        · right
          exact ⟨[], by simp [h], by simp⟩
      · rintro ⟨-, h | h⟩
        · simp only [filterLevelsOk, Bool.or_eq_true, beq_iff_eq]
          exact Or.inl (h l (by simp))
        · obtain ⟨mids, hm, -⟩ := h
          cases mids with
          | nil =>
            simp only [List.nil_append, List.cons.injEq] at hm
            simp [filterLevelsOk, hm.1]
          | cons a b =>
            have := congrArg List.length hm
            simp at this
    | cons g gs =>
      constructor
      · intro h
        simp only [filterLevelsOk, Bool.and_eq_true] at h
        obtain ⟨hA, hrest⟩ := h
        obtain ⟨-, hcase⟩ := ih.mp hrest
        refine ⟨by simp, ?_⟩
        rcases hcase with hall | ⟨mids, hm, hmids⟩
        · left
          intro x hx
          rcases List.mem_cons.mp hx with rfl | hx'
          · exact hA
          · exact hall x hx'
        · right
          refine ⟨l :: mids, by rw [List.cons_append, hm], ?_⟩
          intro x hx
          rcases List.mem_cons.mp hx with rfl | hx'
          · exact hA
          · exact hmids x hx'
      · rintro ⟨-, h | h⟩
        · simp only [filterLevelsOk, Bool.and_eq_true]
          refine ⟨h l (by simp), ?_⟩
          exact ih.mpr ⟨by simp, Or.inl (fun x hx => h x (List.mem_cons_of_mem _ hx))⟩
        · obtain ⟨mids, hm, hmids⟩ := h
          cases mids with
          | nil =>
            have := congrArg List.length hm
            simp at this
          | cons m0 mrest =>
            simp only [List.cons_append, List.cons.injEq] at hm
            obtain ⟨hl0, hls⟩ := hm
            simp only [filterLevelsOk, Bool.and_eq_true]
            refine ⟨hl0 ▸ hmids m0 (by simp), ?_⟩
            refine ih.mpr ⟨by simp, Or.inr ⟨mrest, hls, ?_⟩⟩
            exact fun x hx => hmids x (List.mem_cons_of_mem _ hx)

theorem plainByte_of_levelPlain {l : List Nat} (h : levelPlain l = true) :
    ∀ b ∈ l, plainByte b = true := by
  intro b hb
  simp only [levelPlain, Bool.not_eq_true', List.any_eq_false] at h
  have := h b hb
  simp at this
  simp [plainByte]
  omega

theorem levelPlain_of_plainByte {l : List Nat} (h : ∀ b ∈ l, plainByte b = true) :
    levelPlain l = true := by
  simp only [levelPlain, Bool.not_eq_true', List.any_eq_false]
  intro b hb
  have := h b hb
  simp [plainByte] at this
  simp
  omega

theorem rxNotWild_of_plain {w : List Nat} (h : ∀ b ∈ w, plainByte b = true) :
    RxLang rxNotWild w := by
  induction w with
  | nil => exact RxLang.starNil
  | cons a w' ih =>
    have h1 : RxLang (.cls plainByte) [a] := RxLang.cls (h a (List.mem_cons_self _ _))
    have h2 := ih (fun b hb => h b (List.mem_cons_of_mem _ hb))
    exact RxLang.starCons h1 h2

theorem rxA_of_levelA {l : List Nat} (h : levelA l = true) : RxLang rxA l := by
  simp only [levelA, Bool.or_eq_true, beq_iff_eq] at h
  rcases h with h | h
  · exact RxLang.altL (rxNotWild_of_plain (plainByte_of_levelPlain h))
  · subst h
    exact RxLang.altR (RxLang.cls rfl)

theorem rxMid_of_levels (ls : List (List Nat)) (h : ∀ l ∈ ls, levelA l = true) :
    RxLang (.star (.cat rxSlash rxA)) (joinSlash ls) := by
  induction ls with
  | nil => exact RxLang.starNil
  | cons l ls' ih =>
    rw [joinSlash_cons]
    have h1 : RxLang (.cat rxSlash rxA) ([47] ++ l) :=
      RxLang.catI (RxLang.cls rfl) (rxA_of_levelA (h l (List.mem_cons_self _ _)))
    have h2 := ih (fun x hx => h x (List.mem_cons_of_mem _ hx))
    have h3 := RxLang.starCons h1 h2
    simpa using h3

theorem rxLang_of_filterLevelsOk {s : RStr}
    (h : filterLevelsOk (splitOnByte 47 s) = true) :
    RxLang validateTopicFilterRx s := by
  obtain ⟨-, hcase⟩ := (filterLevelsOk_iff _).mp h
  cases hsp : splitOnByte 47 s with
  | nil => exact absurd hsp (splitOnByte_ne_nil _ _)
  | cons l0 ls =>
    rw [hsp] at hcase
    have hs : s = l0 ++ joinSlash ls := by
      conv_lhs => rw [← joinSep_splitOnByte 47 s]
      rw [hsp, joinSep_eq_joinSlash]
    rcases hcase with hall | ⟨mids, hm, hmids⟩
    · have hA0 : RxLang rxA l0 := rxA_of_levelA (hall l0 (by simp))
      have hMid : RxLang (.star (.cat rxSlash rxA)) (joinSlash ls) :=
        rxMid_of_levels ls (fun x hx => hall x (List.mem_cons_of_mem _ hx))
      have hEps : RxLang (Rx.alt (.cat rxSlash rxHash) .eps) [] := RxLang.altR RxLang.eps
      have hfull := RxLang.altL (s := rxHash) (RxLang.catI hA0 (RxLang.catI hMid hEps))
      rw [hs]
      simpa using hfull
    · cases mids with
      | nil =>
        simp only [List.nil_append, List.cons.injEq] at hm
        obtain ⟨rfl, rfl⟩ := hm
        rw [hs]
        exact RxLang.altR (RxLang.cls rfl)
      | cons m0 mrest =>
        simp only [List.cons_append, List.cons.injEq] at hm
        obtain ⟨rfl, hls⟩ := hm
        have hA0 : RxLang rxA l0 := rxA_of_levelA (hmids l0 (by simp))
        have hMid : RxLang (.star (.cat rxSlash rxA)) (joinSlash mrest) :=
          rxMid_of_levels mrest (fun x hx => hmids x (List.mem_cons_of_mem _ hx))
        have hTail : RxLang (Rx.alt (.cat rxSlash rxHash) .eps) ([47] ++ [35]) :=
          RxLang.altL (RxLang.catI (RxLang.cls rfl) (RxLang.cls rfl))
        have hfull := RxLang.altL (s := rxHash) (RxLang.catI hA0 (RxLang.catI hMid hTail))
        rw [hs, hls, joinSlash_append]
        simpa [joinSlash] using hfull

theorem rxCls_inv {p : Nat → Bool} {w : List Nat} (h : RxLang (.cls p) w) :
    ∃ a, w = [a] ∧ p a = true := by
  cases h with
  | cls hpa => exact ⟨_, rfl, hpa⟩

theorem rxStar_mem_aux :
    ∀ {r : Rx} {w : List Nat}, RxLang r w → ∀ p : Nat → Bool,
      r = Rx.star (.cls p) → ∀ b ∈ w, p b = true := by
  intro r w h
  induction h with
  | eps => intro p hp; exact Rx.noConfusion hp
  | cls _ => intro p hp; exact Rx.noConfusion hp
  | catI _ _ _ _ => intro p hp; exact Rx.noConfusion hp
  | altL _ _ => intro p hp; exact Rx.noConfusion hp
  | altR _ _ => intro p hp; exact Rx.noConfusion hp
  | starNil => intro p hp b hb; simp at hb
  | starCons h1 h2 ih1 ih2 =>
    intro p hp b hb
    injection hp with hr
    subst hr
    obtain ⟨a, rfl, hpa⟩ := rxCls_inv h1
    rcases List.mem_append.mp hb with hb1 | hb2
    · have : b = a := by simpa using hb1
      rw [this]
      exact hpa
    · exact ih2 p rfl b hb2

theorem rxNotWild_mem {w : List Nat} (h : RxLang rxNotWild w) :
    ∀ b ∈ w, plainByte b = true :=
  rxStar_mem_aux h plainByte rfl

theorem rxA_inv {w : List Nat} (h : RxLang rxA w) : levelA w = true := by
  have h' : RxLang (.alt rxNotWild rxPlus) w := h
  cases h' with
  | altL hh =>
    simp [levelA, levelPlain_of_plainByte (rxNotWild_mem hh)]
  | altR hh =>
    obtain ⟨a, rfl, hpa⟩ := rxCls_inv hh
    have ha : a = 43 := by simpa using hpa
    subst ha
    rfl

theorem rxStarMid_aux :
    ∀ {r : Rx} {w : List Nat}, RxLang r w →
      r = Rx.star (.cat rxSlash rxA) →
      ∃ ls, w = joinSlash ls ∧ ∀ l ∈ ls, levelA l = true := by
  intro r w h
  induction h with
  | eps => intro hp; exact Rx.noConfusion hp
  | cls _ => intro hp; exact Rx.noConfusion hp
  | catI _ _ _ _ => intro hp; exact Rx.noConfusion hp
  | altL _ _ => intro hp; exact Rx.noConfusion hp
  | altR _ _ => intro hp; exact Rx.noConfusion hp
  | starNil => intro hp; exact ⟨[], rfl, by simp⟩
  | starCons h1 h2 ih1 ih2 =>
    intro hp
    injection hp with hr
    subst hr
    obtain ⟨ls', rfl, hls'⟩ := ih2 rfl
    cases h1 with
    | catI ha hb =>
      rename_i wb
      obtain ⟨a, rfl, hpa⟩ := rxCls_inv ha
      have ha47 : a = 47 := by simpa using hpa
      subst ha47
      refine ⟨wb :: ls', ?_, ?_⟩
      · rw [joinSlash_cons]
        simp
      · intro l hl
        rcases List.mem_cons.mp hl with rfl | hl'
        · exact rxA_inv hb
        · exact hls' l hl'

theorem levelsA_of_levelA {w : List Nat} (h : levelA w = true) :
    ∀ l ∈ splitOnByte 47 w, levelA l = true := by
  simp only [levelA, Bool.or_eq_true, beq_iff_eq] at h
  rcases h with hplain | hplus
  · intro l hl
    have hall : ∀ b ∈ l, plainByte b = true :=
      fun b hb => plainByte_of_levelPlain hplain b (mem_of_mem_splitOnByte hl hb)
    simp [levelA, levelPlain_of_plainByte hall]
  · subst hplus
    intro l hl
    have hl' : l = [43] := by simpa [splitOnByte] using hl
    rw [hl']
    rfl

theorem filterLevelsOk_of_rxLang {s : RStr}
    (h : RxLang validateTopicFilterRx s) :
    filterLevelsOk (splitOnByte 47 s) = true := by
  have h' : RxLang (.alt (.cat rxA (.cat (.star (.cat rxSlash rxA))
      (.alt (.cat rxSlash rxHash) .eps))) rxHash) s := h
  cases h' with
  | altR hh =>
    obtain ⟨a, rfl, hpa⟩ := rxCls_inv hh
    have ha : a = 35 := by simpa using hpa
    subst ha
    rfl
  | altL hh =>
    cases hh with
    | catI h0 hrest =>
      rename_i w0 wrest
      have hA0 := rxA_inv h0
      cases hrest with
      | catI hmid htail =>
        obtain ⟨ls, rfl, hls⟩ := rxStarMid_aux hmid rfl
        have hfrontA : ∀ l ∈ splitOnByte 47 w0 ++ (ls.map (splitOnByte 47)).flatten,
            levelA l = true := by
          intro l hl
          rcases List.mem_append.mp hl with hl0 | hlr
          · exact levelsA_of_levelA hA0 l hl0
          · obtain ⟨piece, hpiece, hlp⟩ := List.mem_flatten.mp hlr
            obtain ⟨lev, hlev, rfl⟩ := List.mem_map.mp hpiece
            exact levelsA_of_levelA (hls lev hlev) l hlp
        cases htail with
        | altR heps =>
          cases heps
          rw [List.append_nil]
          rw [splitOnByte_append_joinSlash]
          refine (filterLevelsOk_iff _).mpr ⟨?_, Or.inl hfrontA⟩
          intro hcontra
          rw [List.append_eq_nil] at hcontra
          exact splitOnByte_ne_nil 47 w0 hcontra.1
        | altL hsl =>
          cases hsl with
          | catI hs hh2 =>
            obtain ⟨a, rfl, hpa⟩ := rxCls_inv hs
            have ha47 : a = 47 := by simpa using hpa
            subst ha47
            obtain ⟨b, rfl, hpb⟩ := rxCls_inv hh2
            have hb35 : b = 35 := by simpa using hpb
            subst hb35
            rw [show ∀ x y : List Nat, x ++ (y ++ ([47] ++ [35])) =
                (x ++ y) ++ 47 :: [35] from by intro x y; simp]
            rw [splitOnByte_append_sep, splitOnByte_append_joinSlash]
            refine (filterLevelsOk_iff _).mpr ⟨?_, Or.inr ⟨_, rfl, hfrontA⟩⟩
            intro hcontra
            rw [List.append_eq_nil] at hcontra
            exact splitOnByte_ne_nil 47 [35] hcontra.2

/-- Specification-side level condition: a level containing a wildcard byte
must be exactly `#` or exactly `+`. -/
def levelWildOk (l : RStr) : Bool := levelPlain l || l == [35] || l == [43]

/-- Specification-side: a level not containing `#` at all. -/
def noHashLevel (l : RStr) : Bool := !(l.contains 35)

/-- Specification-side grammar of the claim: every `#`/`+` occupies a full
`/`-separated level by itself, and `#` occurs only as the last level. -/
def wildcardGrammar (s : RStr) : Bool :=
  (splitOnByte 47 s).all levelWildOk && (splitOnByte 47 s).dropLast.all noHashLevel

theorem contains_eq_false_of_levelPlain {l : RStr} (h : levelPlain l = true) :
    l.contains 35 = false := by
  simp only [levelPlain, Bool.not_eq_true', List.any_eq_false] at h
  simp only [List.contains_eq_any_beq, List.any_eq_false]
  intro x hx
  have := h x hx
  simp at this
  simp
  omega

theorem levelA_eq_wild (l : RStr) :
    levelA l = (levelWildOk l && noHashLevel l) := by
  by_cases h35 : l = [35]
  · subst h35
    rfl
  · by_cases h43 : l = [43]
    · subst h43
      rfl
    · have hb35 : (l == [35]) = false := by simp [h35]
      have hb43 : (l == [43]) = false := by simp [h43]
      simp only [levelA, levelWildOk, noHashLevel, hb35, hb43, Bool.or_false]
      cases hp : levelPlain l
      · rfl
      · rw [contains_eq_false_of_levelPlain hp]
        rfl

theorem filterLevelsOk_eq_grammar :
    ∀ ls : List (List Nat), ls ≠ [] →
      filterLevelsOk ls = (ls.all levelWildOk && ls.dropLast.all noHashLevel) := by
  intro ls
  induction ls with
  | nil => intro h; exact absurd rfl h
  | cons l ls' ih =>
    intro _
    cases ls' with
    | nil =>
      by_cases h35 : l = [35]
      · subst h35
        rfl
      · have hb35 : (l == [35]) = false := by simp [h35]
        simp [filterLevelsOk, levelA, levelWildOk, hb35]
    | cons g gs =>
      have hd : (l :: g :: gs).dropLast = l :: (g :: gs).dropLast := rfl
      simp only [filterLevelsOk, ih (by simp), levelA_eq_wild, hd, List.all_cons]
      simp [Bool.and_assoc, Bool.and_comm, Bool.and_left_comm]

/-- C4: `TopicFilter::new(s)` succeeds (the validator `is_invalid_topic_filter`
returns false) iff `s` is non-empty, at most 65535 bytes, and every `#`/`+`
occupies a full `/`-separated level by itself with `#` only as the last level;
moreover the level-based reading `filterLevelsOk` used by the embedded
validator accepts exactly the language of the source regex
`^(([^+#]*|\+)(/([^+#]*|\+))*(/#)?|#)$` (`validateTopicFilterRx`). -/
theorem C4_filter_validity (s : RStr) :
    (isInvalidTopicFilterBytes s = false ↔
      (s ≠ [] ∧ s.length ≤ 65535 ∧ wildcardGrammar s = true)) ∧
    (filterLevelsOk (splitOnByte 47 s) = true ↔ RxLang validateTopicFilterRx s) := by
  constructor
  · have hgram : wildcardGrammar s = filterLevelsOk (splitOnByte 47 s) := by
      rw [wildcardGrammar, filterLevelsOk_eq_grammar _ (splitOnByte_ne_nil 47 s)]
    constructor
    · intro h
      simp only [isInvalidTopicFilterBytes, Bool.or_eq_false_iff] at h
      obtain ⟨⟨h1, h2⟩, h3⟩ := h
      refine ⟨?_, ?_, ?_⟩
      · intro hcontra
        subst hcontra
        simp at h1
      · simpa using h2
      · rw [hgram]
        simpa using h3
    · rintro ⟨h1, h2, h3⟩
      simp only [isInvalidTopicFilterBytes, Bool.or_eq_false_iff]
      refine ⟨⟨?_, ?_⟩, ?_⟩
      · simpa [List.isEmpty_iff] using h1
      · simpa using h2
      · rw [hgram] at h3
        simpa using h3
  · exact ⟨rxLang_of_filterLevelsOk, filterLevelsOk_of_rxLang⟩

/-- Every valid `VariablePacket` value's encoding splits as a fixed header
followed by a body of exactly `remaining_length` bytes that its per-type
body decoder consumes completely. -/
theorem packetDecomp (vp : VariablePacket) (hv : vp.validB = true) :
    ∃ fh body,
      vp.encode = fh.encode ++ body ∧
      fh.remaining_length < 268435456 ∧
      fh.packet_type.flags < 16 ∧
      (fh.packet_type.control_type = .publish ∨
        fh.packet_type.flags = PacketType.defaultFlags fh.packet_type.control_type) ∧
      body.length = fh.remaining_length ∧
      runParser (decodePacketOfType fh.packet_type.control_type fh) body =
        .ok (vp, []) := by
  cases vp with
  | connect p =>
    simp only [VariablePacket.validB] at hv
    have hv' := hv
    unfold ConnectPacket.validB at hv'
    split at hv'
    case h_2 => exact absurd hv' (by simp)
    case h_1 pn lv fl ka heq =>
      simp only [Bool.and_eq_true, decide_eq_true_eq, beq_iff_eq] at hv'
      obtain ⟨-, -, -, -, -, -, -, -, -, -, -, -, -, hfh, hbound⟩ := hv'
      have hct : p.fixed_header.packet_type.control_type = .connect := by rw [hfh]; rfl
      refine ⟨p.fixed_header,
        (p.variable_headers.map VariableHeader.encode).flatten ++ p.payload.encode,
        by simp [VariablePacket.encode, ConnectPacket.encode, List.append_assoc],
        by rw [hfh]; exact hbound,
        by rw [hfh]; exact (by norm_num : (0:Nat) < 16),
        by rw [hfh]; exact Or.inr rfl,
        ?_, ?_⟩
      · simp only [List.length_append, vhListEncode_length, connectPayload_encode_length]
        rw [hfh]
        rfl
      · rw [hct]
        show runParser ((ConnectPacket.decodePacket p.fixed_header).bind _) _ = _
        rw [runParser_bind_ok
          (by simpa only [List.append_assoc, List.append_nil] using
            connectDecodePacket_encode hv ([] : List Nat))]
        rfl
  | connack p =>
    simp only [VariablePacket.validB] at hv
    have hv' := hv
    unfold ConnackPacket.validB at hv'
    split at hv'
    case h_2 => exact absurd hv' (by simp)
    case h_1 fl c heq =>
      simp only [Bool.and_eq_true, decide_eq_true_eq, beq_iff_eq] at hv'
      obtain ⟨-, hfh⟩ := hv'
      have hct : p.fixed_header.packet_type.control_type = .connack := by rw [hfh]; rfl
      refine ⟨p.fixed_header, (p.variable_headers.map VariableHeader.encode).flatten,
        rfl,
        by rw [hfh]; exact (by norm_num : (2:Nat) < 268435456),
        by rw [hfh]; exact (by norm_num : (0:Nat) < 16),
        by rw [hfh]; exact Or.inr rfl,
        ?_, ?_⟩
      · simp only [vhListEncode_length]
        rw [hfh, heq]
        rfl
      · rw [hct]
        show runParser ((ConnackPacket.decodePacket p.fixed_header).bind _) _ = _
        rw [runParser_bind_ok
          (by simpa only [List.append_nil] using connackDecodePacket_encode hv ([] : List Nat))]
        rfl
  | publish p =>
    simp only [VariablePacket.validB] at hv
    have hv' := hv
    simp only [PublishPacket.validB, Bool.and_eq_true, decide_eq_true_eq, beq_iff_eq] at hv'
    obtain ⟨hct, hfl, -, -, -, ⟨⟨-, hrl⟩, hbound⟩⟩ := hv'
    refine ⟨p.fixed_header,
      encodeStr p.topic_name ++ (optPkidEncode p.packet_identifier ++ p.payload),
      by simp [VariablePacket.encode, PublishPacket.encode, List.append_assoc],
      hbound, hfl, Or.inl hct, ?_, ?_⟩
    · simp only [List.length_append, encodeStr_length, optPkidEncode_length]
      omega
    · rw [hct]
      show runParser ((PublishPacket.decodePacket p.fixed_header).bind _) _ = _
      rw [runParser_bind_ok
        (by simpa only [List.append_assoc, List.append_nil] using
          publishDecodePacket_encode hv ([] : List Nat))]
      rfl
  | puback p =>
    simp only [VariablePacket.validB] at hv
    have hv' := hv
    simp only [PubackPacket.validB, Bool.and_eq_true, decide_eq_true_eq, beq_iff_eq] at hv'
    obtain ⟨-, hfh⟩ := hv'
    have hct : p.fixed_header.packet_type.control_type = .puback := by rw [hfh]; rfl
    refine ⟨p.fixed_header, encodeU16 p.packet_identifier, rfl,
      by rw [hfh]; exact (by norm_num : (2:Nat) < 268435456),
      by rw [hfh]; exact (by norm_num : (0:Nat) < 16),
      by rw [hfh]; exact Or.inr rfl,
      by rw [hfh]; rfl, ?_⟩
    rw [hct]
    show runParser ((PubackPacket.decodePacket p.fixed_header).bind _) _ = _
    rw [runParser_bind_ok
      (by simpa only [List.append_nil] using pubackDecodePacket_encode hv ([] : List Nat))]
    rfl
  | pubrec p =>
    simp only [VariablePacket.validB] at hv
    have hv' := hv
    simp only [PubrecPacket.validB, Bool.and_eq_true, decide_eq_true_eq, beq_iff_eq] at hv'
    obtain ⟨-, hfh⟩ := hv'
    have hct : p.fixed_header.packet_type.control_type = .pubrec := by rw [hfh]; rfl
    refine ⟨p.fixed_header, encodeU16 p.packet_identifier, rfl,
      by rw [hfh]; exact (by norm_num : (2:Nat) < 268435456),
      by rw [hfh]; exact (by norm_num : (0:Nat) < 16),
      by rw [hfh]; exact Or.inr rfl,
      by rw [hfh]; rfl, ?_⟩
    rw [hct]
    show runParser ((PubrecPacket.decodePacket p.fixed_header).bind _) _ = _
    rw [runParser_bind_ok
      (by simpa only [List.append_nil] using pubrecDecodePacket_encode hv ([] : List Nat))]
    rfl
  | pubrel p =>
    simp only [VariablePacket.validB] at hv
    have hv' := hv
    simp only [PubrelPacket.validB, Bool.and_eq_true, decide_eq_true_eq, beq_iff_eq] at hv'
    obtain ⟨-, hfh⟩ := hv'
    have hct : p.fixed_header.packet_type.control_type = .pubrel := by rw [hfh]; rfl
    refine ⟨p.fixed_header, encodeU16 p.packet_identifier, rfl,
      by rw [hfh]; exact (by norm_num : (2:Nat) < 268435456),
      by rw [hfh]; exact (by norm_num : (2:Nat) < 16),
      by rw [hfh]; exact Or.inr rfl,
      by rw [hfh]; rfl, ?_⟩
    rw [hct]
    show runParser ((PubrelPacket.decodePacket p.fixed_header).bind _) _ = _
    rw [runParser_bind_ok
      (by simpa only [List.append_nil] using pubrelDecodePacket_encode hv ([] : List Nat))]
    rfl
  | pubcomp p =>
    simp only [VariablePacket.validB] at hv
    have hv' := hv
    simp only [PubcompPacket.validB, Bool.and_eq_true, decide_eq_true_eq, beq_iff_eq] at hv'
    obtain ⟨-, hfh⟩ := hv'
    have hct : p.fixed_header.packet_type.control_type = .pubcomp := by rw [hfh]; rfl
    refine ⟨p.fixed_header, encodeU16 p.packet_identifier, rfl,
      by rw [hfh]; exact (by norm_num : (2:Nat) < 268435456),
      by rw [hfh]; exact (by norm_num : (0:Nat) < 16),
      by rw [hfh]; exact Or.inr rfl,
      by rw [hfh]; rfl, ?_⟩
    rw [hct]
    show runParser ((PubcompPacket.decodePacket p.fixed_header).bind _) _ = _
    rw [runParser_bind_ok
      (by simpa only [List.append_nil] using pubcompDecodePacket_encode hv ([] : List Nat))]
    rfl
  | pingreq p =>
    simp only [VariablePacket.validB] at hv
    simp only [PingreqPacket.validB, beq_iff_eq] at hv
    have hct : p.fixed_header.packet_type.control_type = .pingreq := by rw [hv]; rfl
    refine ⟨p.fixed_header, [], by simp [VariablePacket.encode, PingreqPacket.encode],
      by rw [hv]; exact (by norm_num : (0:Nat) < 268435456),
      by rw [hv]; exact (by norm_num : (0:Nat) < 16),
      by rw [hv]; exact Or.inr rfl,
      by rw [hv]; rfl,
      by rw [hct]; rfl⟩
  | pingresp p =>
    simp only [VariablePacket.validB] at hv
    simp only [PingrespPacket.validB, beq_iff_eq] at hv
    have hct : p.fixed_header.packet_type.control_type = .pingresp := by rw [hv]; rfl
    refine ⟨p.fixed_header, [], by simp [VariablePacket.encode, PingrespPacket.encode],
      by rw [hv]; exact (by norm_num : (0:Nat) < 268435456),
      by rw [hv]; exact (by norm_num : (0:Nat) < 16),
      by rw [hv]; exact Or.inr rfl,
      by rw [hv]; rfl,
      by rw [hct]; rfl⟩
  | disconnect p =>
    simp only [VariablePacket.validB] at hv
    simp only [DisconnectPacket.validB, beq_iff_eq] at hv
    have hct : p.fixed_header.packet_type.control_type = .disconnect := by rw [hv]; rfl
    refine ⟨p.fixed_header, [], by simp [VariablePacket.encode, DisconnectPacket.encode],
      by rw [hv]; exact (by norm_num : (0:Nat) < 268435456),
      by rw [hv]; exact (by norm_num : (0:Nat) < 16),
      by rw [hv]; exact Or.inr rfl,
      by rw [hv]; rfl,
      by rw [hct]; rfl⟩
  | subscribe p =>
    simp only [VariablePacket.validB] at hv
    have hv' := hv
    simp only [SubscribePacket.validB, Bool.and_eq_true, decide_eq_true_eq, beq_iff_eq] at hv'
    obtain ⟨-, -, hfh, hbound⟩ := hv'
    have hct : p.fixed_header.packet_type.control_type = .subscribe := by rw [hfh]; rfl
    refine ⟨p.fixed_header,
      encodeU16 p.packet_identifier ++ subscribePayloadEncode p.payload,
      by simp [VariablePacket.encode, SubscribePacket.encode, List.append_assoc],
      by rw [hfh]; exact hbound,
      by rw [hfh]; exact (by norm_num : (2:Nat) < 16),
      by rw [hfh]; exact Or.inr rfl,
      ?_, ?_⟩
    · simp only [List.length_append, subscribePayloadEncode_length, encodeU16]
      rw [hfh]
      rfl
    · rw [hct]
      show runParser ((SubscribePacket.decodePacket p.fixed_header).bind _) _ = _
      rw [runParser_bind_ok
        (by simpa only [List.append_assoc, List.append_nil] using
          subscribeDecodePacket_encode hv ([] : List Nat))]
      rfl
  | suback p =>
    simp only [VariablePacket.validB] at hv
    have hv' := hv
    simp only [SubackPacket.validB, Bool.and_eq_true, decide_eq_true_eq, beq_iff_eq] at hv'
    obtain ⟨-, hfh, hbound⟩ := hv'
    have hct : p.fixed_header.packet_type.control_type = .suback := by rw [hfh]; rfl
    refine ⟨p.fixed_header,
      encodeU16 p.packet_identifier ++ p.payload.map SubscribeReturnCode.toU8,
      by simp [VariablePacket.encode, SubackPacket.encode, List.append_assoc],
      by rw [hfh]; exact hbound,
      by rw [hfh]; exact (by norm_num : (0:Nat) < 16),
      by rw [hfh]; exact Or.inr rfl,
      ?_, ?_⟩
    · simp only [List.length_append, List.length_map, encodeU16]
      rw [hfh]
      rfl
    · rw [hct]
      show runParser ((SubackPacket.decodePacket p.fixed_header).bind _) _ = _
      rw [runParser_bind_ok
        (by simpa only [List.append_assoc, List.append_nil] using
          subackDecodePacket_encode hv ([] : List Nat))]
      rfl
  | unsubscribe p =>
    simp only [VariablePacket.validB] at hv
    have hv' := hv
    simp only [UnsubscribePacket.validB, Bool.and_eq_true, decide_eq_true_eq,
      beq_iff_eq] at hv'
    obtain ⟨-, -, hfh, hbound⟩ := hv'
    have hct : p.fixed_header.packet_type.control_type = .unsubscribe := by rw [hfh]; rfl
    refine ⟨p.fixed_header,
      encodeU16 p.packet_identifier ++ unsubscribePayloadEncode p.payload,
      by simp [VariablePacket.encode, UnsubscribePacket.encode, List.append_assoc],
      by rw [hfh]; exact hbound,
      by rw [hfh]; exact (by norm_num : (2:Nat) < 16),
      by rw [hfh]; exact Or.inr rfl,
      ?_, ?_⟩
    · simp only [List.length_append, unsubscribePayloadEncode_length, encodeU16]
      rw [hfh]
      rfl
    · rw [hct]
      show runParser ((UnsubscribePacket.decodePacket p.fixed_header).bind _) _ = _
      rw [runParser_bind_ok
        (by simpa only [List.append_assoc, List.append_nil] using
          unsubscribeDecodePacket_encode hv ([] : List Nat))]
      rfl
  | unsuback p =>
    simp only [VariablePacket.validB] at hv
    have hv' := hv
    simp only [UnsubackPacket.validB, Bool.and_eq_true, decide_eq_true_eq, beq_iff_eq] at hv'
    obtain ⟨-, hfh⟩ := hv'
    have hct : p.fixed_header.packet_type.control_type = .unsuback := by rw [hfh]; rfl
    refine ⟨p.fixed_header, encodeU16 p.packet_identifier, rfl,
      by rw [hfh]; exact (by norm_num : (2:Nat) < 268435456),
      by rw [hfh]; exact (by norm_num : (0:Nat) < 16),
      by rw [hfh]; exact Or.inr rfl,
      by rw [hfh]; rfl, ?_⟩
    rw [hct]
    show runParser ((UnsubackPacket.decodePacket p.fixed_header).bind _) _ = _
    rw [runParser_bind_ok
      (by simpa only [List.append_nil] using unsubackDecodePacket_encode hv ([] : List Nat))]
    rfl

theorem variablePacketDecode_truncation {fh : FixedHeader} {body : List Nat}
    {vp : VariablePacket}
    (hrl : fh.remaining_length < 268435456) (hf : fh.packet_type.flags < 16)
    (hok : fh.packet_type.control_type = .publish ∨
      fh.packet_type.flags = PacketType.defaultFlags fh.packet_type.control_type)
    (hlen : body.length = fh.remaining_length)
    (hbody : runParser (decodePacketOfType fh.packet_type.control_type fh) body =
      .ok (vp, [])) :
    ∀ k, k < (fh.encode ++ body).length →
      variablePacketDecode ((fh.encode ++ body).take k) = .error .eof := by
  intro k hk
  by_cases hcase : k < fh.encode.length
  · have htk : (fh.encode ++ body).take k = fh.encode.take k :=
      List.take_append_of_le_length (by omega)
    have hhdr : runParser fixedHeaderRaw fh.encode =
        .ok ((fh.packet_type.toU8, fh.remaining_length), []) := by
      have h0 := fixedHeaderRaw_encode hrl ([] : List Nat)
      simpa using h0
    have htr := runParser_truncation fixedHeaderRaw fh.encode _ hhdr k hcase
    unfold variablePacketDecode
    rw [htk, htr]
    rfl
  · push_neg at hcase
    have hsplit : (fh.encode ++ body).take k =
        fh.encode ++ body.take (k - fh.encode.length) := by
      rw [List.take_append_eq_append_take, List.take_of_length_le hcase]
    have hkb : k - fh.encode.length < body.length := by
      simp only [List.length_append] at hk
      omega
    have hraw := fixedHeaderRaw_encode hrl (body.take (k - fh.encode.length))
    unfold variablePacketDecode
    rw [hsplit, hraw]
    show variablePacketClassify fh.packet_type.toU8 fh.remaining_length
      (body.take (k - fh.encode.length)) = .error .eof
    have step2 : variablePacketClassify fh.packet_type.toU8 fh.remaining_length
        (body.take (k - fh.encode.length)) =
        variablePacketDispatch fh.packet_type fh.remaining_length
        (body.take (k - fh.encode.length)) := by
      unfold variablePacketClassify
      rw [fromU8_toU8 hf hok]
    rw [step2]
    unfold variablePacketDispatch
    have htk2 : (body.take (k - fh.encode.length)).take fh.remaining_length =
        body.take (k - fh.encode.length) := by
      apply List.take_of_length_le
      simp only [List.length_take]
      omega
    rw [htk2]
    have hnew : FixedHeader.new fh.packet_type fh.remaining_length = fh := rfl
    rw [hnew]
    have htr := runParser_truncation _ body vp hbody (k - fh.encode.length) hkb
    rw [htr]

theorem variable_truncation (vp : VariablePacket) (hv : vp.validB = true) :
    ∀ k, k < vp.encode.length →
      variablePacketDecode (vp.encode.take k) = .error .eof := by
  obtain ⟨fh, body, henc, hrl, hf, hok, hlen, hbody⟩ := packetDecomp vp hv
  rw [henc]
  exact variablePacketDecode_truncation hrl hf hok hlen hbody

def concreteTruncationAt : VariablePacket → Prop
  | .connect p => ∀ k, k < p.encode.length →
      runParser ConnectPacket.decode (p.encode.take k) = .error .eof
  | .connack p => ∀ k, k < p.encode.length →
      runParser ConnackPacket.decode (p.encode.take k) = .error .eof
  | .publish p => ∀ k, k < p.encode.length →
      runParser PublishPacket.decode (p.encode.take k) = .error .eof
  | .puback p => ∀ k, k < p.encode.length →
      runParser PubackPacket.decode (p.encode.take k) = .error .eof
  | .pubrec p => ∀ k, k < p.encode.length →
      runParser PubrecPacket.decode (p.encode.take k) = .error .eof
  | .pubrel p => ∀ k, k < p.encode.length →
      runParser PubrelPacket.decode (p.encode.take k) = .error .eof
  | .pubcomp p => ∀ k, k < p.encode.length →
      runParser PubcompPacket.decode (p.encode.take k) = .error .eof
  | .pingreq p => ∀ k, k < p.encode.length →
      runParser PingreqPacket.decode (p.encode.take k) = .error .eof
  | .pingresp p => ∀ k, k < p.encode.length →
      runParser PingrespPacket.decode (p.encode.take k) = .error .eof
  | .disconnect p => ∀ k, k < p.encode.length →
      runParser DisconnectPacket.decode (p.encode.take k) = .error .eof
  | .subscribe p => ∀ k, k < p.encode.length →
      runParser SubscribePacket.decode (p.encode.take k) = .error .eof
  | .suback p => ∀ k, k < p.encode.length →
      runParser SubackPacket.decode (p.encode.take k) = .error .eof
  | .unsubscribe p => ∀ k, k < p.encode.length →
      runParser UnsubscribePacket.decode (p.encode.take k) = .error .eof
  | .unsuback p => ∀ k, k < p.encode.length →
      runParser UnsubackPacket.decode (p.encode.take k) = .error .eof

/-- C5: for every valid packet value with encoding `b`, decoding any strict
prefix `b.take k` (`k < b.length`) fails with the unexpected-end-of-input
error (`DecErr.eof`, modelling `ErrorKind::UnexpectedEof`) and never
succeeds — both through the `VariablePacket` union decoder and through the
concrete per-type decoder. -/
theorem C5_truncation (vp : VariablePacket) (hv : vp.validB = true) :
    (∀ k, k < vp.encode.length →
      variablePacketDecode (vp.encode.take k) = .error .eof) ∧
    concreteTruncationAt vp := by
  refine ⟨variable_truncation vp hv, ?_⟩
  cases vp <;> simp only [VariablePacket.validB] at hv <;>
    simp only [concreteTruncationAt] <;> intro k hk
  case connect p =>
    have h := connect_decode_encode hv ([] : List Nat)
    rw [List.append_nil] at h
    exact runParser_truncation _ _ _ h k hk
  case connack p =>
    have h := connack_decode_encode hv ([] : List Nat)
    rw [List.append_nil] at h
    exact runParser_truncation _ _ _ h k hk
  case publish p =>
    have h := publish_decode_encode hv ([] : List Nat)
    rw [List.append_nil] at h
    exact runParser_truncation _ _ _ h k hk
  case puback p =>
    have h := puback_decode_encode hv ([] : List Nat)
    rw [List.append_nil] at h
    exact runParser_truncation _ _ _ h k hk
  case pubrec p =>
    have h := pubrec_decode_encode hv ([] : List Nat)
    rw [List.append_nil] at h
    exact runParser_truncation _ _ _ h k hk
  case pubrel p =>
    have h := pubrel_decode_encode hv ([] : List Nat)
    rw [List.append_nil] at h
    exact runParser_truncation _ _ _ h k hk
  case pubcomp p =>
    have h := pubcomp_decode_encode hv ([] : List Nat)
    rw [List.append_nil] at h
    exact runParser_truncation _ _ _ h k hk
  case pingreq p =>
    have h := pingreq_decode_encode hv ([] : List Nat)
    rw [List.append_nil] at h
    exact runParser_truncation _ _ _ h k hk
  case pingresp p =>
    have h := pingresp_decode_encode hv ([] : List Nat)
    rw [List.append_nil] at h
    exact runParser_truncation _ _ _ h k hk
  case disconnect p =>
    have h := disconnect_decode_encode hv ([] : List Nat)
    rw [List.append_nil] at h
    exact runParser_truncation _ _ _ h k hk
  case subscribe p =>
    have h := subscribe_decode_encode hv ([] : List Nat)
    rw [List.append_nil] at h
    exact runParser_truncation _ _ _ h k hk
  case suback p =>
    have h := suback_decode_encode hv ([] : List Nat)
    rw [List.append_nil] at h
    exact runParser_truncation _ _ _ h k hk
  case unsubscribe p =>
    have h := unsubscribe_decode_encode hv ([] : List Nat)
    rw [List.append_nil] at h
    exact runParser_truncation _ _ _ h k hk
  case unsuback p =>
    have h := unsuback_decode_encode hv ([] : List Nat)
    rw [List.append_nil] at h
    exact runParser_truncation _ _ _ h k hk

theorem C5_truncation_witness :
    (VariablePacket.puback (PubackPacket.mkNew 7)).validB = true ∧
    variablePacketDecode
      ((VariablePacket.puback (PubackPacket.mkNew 7)).encode.take 2) = .error .eof ∧
    runParser PubackPacket.decode ((PubackPacket.mkNew 7).encode.take 2) = .error .eof := by
  have hlen2 : (encodeRemLen 2).length = 1 := by
    have h0 := encodeRemLen_length (by norm_num : (2:Nat) < 268435456)
    simpa using h0
  have hl : (PubackPacket.mkNew 7).encode.length = 4 := by
    simp [PubackPacket.encode, PubackPacket.mkNew, FixedHeader.encode, FixedHeader.new,
      encodeU16, hlen2]
  have hlv : (VariablePacket.puback (PubackPacket.mkNew 7)).encode.length = 4 := by
    simpa [VariablePacket.encode] using hl
  have h := C5_truncation (VariablePacket.puback (PubackPacket.mkNew 7)) (by rfl)
  exact ⟨by rfl, h.1 2 (by omega), h.2 2 (by omega)⟩

theorem fromU8_reserved {v : Nat} (h : v >>> 4 = 0 ∨ v >>> 4 = 15) :
    PacketType.fromU8 v = .error (.reservedType (v >>> 4)) := by
  simp only [PacketType.fromU8]
  rcases h with h | h <;> rw [h]

/-- C6: when the union decoder reads a fixed header whose packet type is
reserved (high nibble 0 or 15), it drains exactly `remaining_length` further
bytes from the input into a buffer and returns a `ReservedType` error
carrying the offending type code and the drained bytes — not any other
error and not a success. -/
theorem C6_reserved (b0 L : Nat) (body : List Nat)
    (hres : b0 >>> 4 = 0 ∨ b0 >>> 4 = 15)
    (hL : L < 268435456) (hlen : L ≤ body.length) :
    variablePacketDecode (b0 :: (encodeRemLen L ++ body)) =
      .error (.reservedType (b0 >>> 4) L (body.take L)) ∧
    (body.take L).length = L := by
  constructor
  · unfold variablePacketDecode
    have hraw : runParser fixedHeaderRaw (b0 :: (encodeRemLen L ++ body)) =
        .ok ((b0, L), body) := by
      rw [fixedHeaderRaw]
      simp only [runParser_readByte_cons, runParser_bind, remLen_roundtrip hL,
        runParser_pure]
    rw [hraw]
    show variablePacketClassify b0 L body = _
    unfold variablePacketClassify
    rw [fromU8_reserved hres]
  · simp only [List.length_take]
    omega

theorem C6_reserved_witness :
    (((0:Nat) >>> 4 = 0 ∨ (0:Nat) >>> 4 = 15) ∧ (2:Nat) < 268435456 ∧
      (2:Nat) ≤ [1, 2, 3].length) ∧
    (variablePacketDecode (0 :: (encodeRemLen 2 ++ [1, 2, 3])) =
      .error (.reservedType (0 >>> 4) 2 ([1, 2, 3].take 2)) ∧
    ([1, 2, 3].take 2).length = 2) :=
  ⟨⟨Or.inl (by decide), by decide, by decide⟩,
    C6_reserved 0 2 [1, 2, 3] (Or.inl (by decide)) (by decide) (by decide)⟩

theorem vhListLen_cons (h : VariableHeader) (t : List VariableHeader) :
    vhListLen (h :: t) = h.encodedLength + vhListLen t := by
  unfold vhListLen
  simp only [List.foldl_cons]
  rw [foldl_add_shift _ (by intro b a; omega)]
  omega

theorem vhListLen_setFlags (vs : List VariableHeader) (g : ConnectFlags → ConnectFlags) :
    vhListLen (setConnectFlagsAt2 vs g) = vhListLen vs := by
  unfold setConnectFlagsAt2
  split
  · rename_i a b f rest
    simp only [vhListLen_cons]
    rfl
  · rfl

/-- The length bookkeeping of the specification: the stored remaining
length equals variable-header encoded length plus payload encoded length,
and `encoded_length` is the fixed-header encoded length plus that. -/
def lengthInvariant : VariablePacket → Prop
  | .connect p => p.fixed_header.remaining_length =
        vhListLen p.variable_headers + p.payload.encodedLength ∧
      p.encodedLength = p.fixed_header.encodedLength +
        (vhListLen p.variable_headers + p.payload.encodedLength)
  | .connack p => p.fixed_header.remaining_length = vhListLen p.variable_headers + 0 ∧
      p.encodedLength = p.fixed_header.encodedLength + (vhListLen p.variable_headers + 0)
  | .publish p => p.fixed_header.remaining_length =
        (strEncodedLength p.topic_name + optPkidLen p.packet_identifier) + p.payload.length ∧
      p.encodedLength = p.fixed_header.encodedLength +
        ((strEncodedLength p.topic_name + optPkidLen p.packet_identifier) + p.payload.length)
  | .puback p => p.fixed_header.remaining_length = 2 + 0 ∧
      p.encodedLength = p.fixed_header.encodedLength + (2 + 0)
  | .pubrec p => p.fixed_header.remaining_length = 2 + 0 ∧
      p.encodedLength = p.fixed_header.encodedLength + (2 + 0)
  | .pubrel p => p.fixed_header.remaining_length = 2 + 0 ∧
      p.encodedLength = p.fixed_header.encodedLength + (2 + 0)
  | .pubcomp p => p.fixed_header.remaining_length = 2 + 0 ∧
      p.encodedLength = p.fixed_header.encodedLength + (2 + 0)
  | .pingreq p => p.fixed_header.remaining_length = 0 + 0 ∧
      p.encodedLength = p.fixed_header.encodedLength + (0 + 0)
  | .pingresp p => p.fixed_header.remaining_length = 0 + 0 ∧
      p.encodedLength = p.fixed_header.encodedLength + (0 + 0)
  | .disconnect p => p.fixed_header.remaining_length = 0 + 0 ∧
      p.encodedLength = p.fixed_header.encodedLength + (0 + 0)
  | .subscribe p => p.fixed_header.remaining_length = 2 + subscribePayloadLen p.payload ∧
      p.encodedLength = p.fixed_header.encodedLength + (2 + subscribePayloadLen p.payload)
  | .suback p => p.fixed_header.remaining_length = 2 + p.payload.length ∧
      p.encodedLength = p.fixed_header.encodedLength + (2 + p.payload.length)
  | .unsubscribe p =>
      p.fixed_header.remaining_length = 2 + unsubscribePayloadLen p.payload ∧
      p.encodedLength = p.fixed_header.encodedLength + (2 + unsubscribePayloadLen p.payload)
  | .unsuback p => p.fixed_header.remaining_length = 2 + 0 ∧
      p.encodedLength = p.fixed_header.encodedLength + (2 + 0)

/-- Packet values produced by the public constructors or by any setter
other than `PublishPacket::set_qos` (and the panicking arms of the connack
setters, modelled by their `Option` result). -/
inductive Built : VariablePacket → Prop where
  | connect_with_level (ci : RStr) (lv : ProtocolLevel) :
      Built (.connect (ConnectPacket.withLevel ci lv))
  | connect_new (ci : RStr) : Built (.connect (ConnectPacket.mkNew ci))
  | connect_user_name {p : ConnectPacket} (u : Option RStr) :
      Built (.connect p) → Built (.connect (p.set_user_name u))
  | connect_will {p : ConnectPacket} (w : Option (RStr × RStr)) :
      Built (.connect p) → Built (.connect (p.set_will w))
  | connect_password {p : ConnectPacket} (w : Option RStr) :
      Built (.connect p) → Built (.connect (p.set_password w))
  | connect_client_identifier {p : ConnectPacket} (i : RStr) :
      Built (.connect p) → Built (.connect (p.set_client_identifier i))
  | connect_will_retain {p : ConnectPacket} (b : Bool) :
      Built (.connect p) → Built (.connect (p.set_will_retain b))
  | connect_will_qos {p : ConnectPacket} (q : Nat) :
      Built (.connect p) → Built (.connect (p.set_will_qos q))
  | connect_clean_session {p : ConnectPacket} (b : Bool) :
      Built (.connect p) → Built (.connect (p.set_clean_session b))
  | connack_new (b : Bool) (c : Nat) : Built (.connack (ConnackPacket.mkNew b c))
  | connack_session {p q : ConnackPacket} (b : Bool) :
      Built (.connack p) → p.set_session_present b = some q → Built (.connack q)
  | connack_code {p q : ConnackPacket} (c : Nat) :
      Built (.connack p) → p.set_return_code c = some q → Built (.connack q)
  | publish_new (tn : RStr) (q : QoSWithPacketIdentifier) (pl : List Nat) :
      Built (.publish (PublishPacket.mkNew tn q pl))
  | publish_dup {p : PublishPacket} (d : Bool) :
      Built (.publish p) → Built (.publish (p.set_dup d))
  | publish_retain {p : PublishPacket} (r : Bool) :
      Built (.publish p) → Built (.publish (p.set_retain r))
  | publish_topic_name {p : PublishPacket} (tn : RStr) :
      Built (.publish p) → Built (.publish (p.set_topic_name tn))
  | publish_payload {p : PublishPacket} (pl : List Nat) :
      Built (.publish p) → Built (.publish (p.set_payload pl))
  | puback_new (i : Nat) : Built (.puback (PubackPacket.mkNew i))
  | puback_pkid {p : PubackPacket} (i : Nat) :
      Built (.puback p) → Built (.puback (p.set_packet_identifier i))
  | pubrec_new (i : Nat) : Built (.pubrec (PubrecPacket.mkNew i))
  | pubrec_pkid {p : PubrecPacket} (i : Nat) :
      Built (.pubrec p) → Built (.pubrec (p.set_packet_identifier i))
  | pubrel_new (i : Nat) : Built (.pubrel (PubrelPacket.mkNew i))
  | pubrel_pkid {p : PubrelPacket} (i : Nat) :
      Built (.pubrel p) → Built (.pubrel (p.set_packet_identifier i))
  | pubcomp_new (i : Nat) : Built (.pubcomp (PubcompPacket.mkNew i))
  | pubcomp_pkid {p : PubcompPacket} (i : Nat) :
      Built (.pubcomp p) → Built (.pubcomp (p.set_packet_identifier i))
  | pingreq_new : Built (.pingreq PingreqPacket.mkNew)
  | pingresp_new : Built (.pingresp PingrespPacket.mkNew)
  | disconnect_new : Built (.disconnect DisconnectPacket.mkNew)
  | subscribe_new (i : Nat) (subs : List (RStr × QualityOfService)) :
      Built (.subscribe (SubscribePacket.mkNew i subs))
  | subscribe_pkid {p : SubscribePacket} (i : Nat) :
      Built (.subscribe p) → Built (.subscribe (p.set_packet_identifier i))
  | suback_new (i : Nat) (subs : List SubscribeReturnCode) :
      Built (.suback (SubackPacket.mkNew i subs))
  | suback_pkid {p : SubackPacket} (i : Nat) :
      Built (.suback p) → Built (.suback (p.set_packet_identifier i))
  | unsubscribe_new (i : Nat) (subs : List RStr) :
      Built (.unsubscribe (UnsubscribePacket.mkNew i subs))
  | unsubscribe_pkid {p : UnsubscribePacket} (i : Nat) :
      Built (.unsubscribe p) → Built (.unsubscribe (p.set_packet_identifier i))
  | unsuback_new (i : Nat) : Built (.unsuback (UnsubackPacket.mkNew i))
  | unsuback_pkid {p : UnsubackPacket} (i : Nat) :
      Built (.unsuback p) → Built (.unsuback (p.set_packet_identifier i))

theorem connack_set_session_lengths {p q : ConnackPacket} {b : Bool}
    (h : p.set_session_present b = some q) :
    q.fixed_header = p.fixed_header ∧
    vhListLen q.variable_headers = vhListLen p.variable_headers := by
  unfold ConnackPacket.set_session_present at h
  split at h
  · rename_i f rest heq
    simp only [Option.some.injEq] at h
    subst h
    refine ⟨rfl, ?_⟩
    rw [heq, vhListLen_cons, vhListLen_cons]
    rfl
  · exact absurd h (by simp)

theorem connack_set_code_lengths {p q : ConnackPacket} {c : Nat}
    (h : p.set_return_code c = some q) :
    q.fixed_header = p.fixed_header ∧
    vhListLen q.variable_headers = vhListLen p.variable_headers := by
  unfold ConnackPacket.set_return_code at h
  split at h
  · rename_i r rest heq
    simp only [Option.some.injEq] at h
    subst h
    refine ⟨rfl, ?_⟩
    rw [heq, vhListLen_cons, vhListLen_cons]
    rfl
  · exact absurd h (by simp)

/-- C7 (amended: all constructors and setters except
`PublishPacket::set_qos`): every packet value reachable from a public
constructor through the length-preserving or length-recomputing setters
satisfies `remaining_length = variable-header length + payload length` and
`encoded_length = fixed-header length + variable-header length + payload
length`. -/
theorem C7_length_invariant (vp : VariablePacket) (h : Built vp) :
    lengthInvariant vp := by
  induction h with
  | connect_with_level ci lv =>
    exact ⟨rfl, by simp only [ConnectPacket.encodedLength]; omega⟩
  | connect_new ci =>
    exact ⟨rfl, by simp only [ConnectPacket.encodedLength]; omega⟩
  | connect_user_name u hb ih =>
    exact ⟨rfl, by simp only [ConnectPacket.encodedLength]; omega⟩
  | connect_will w hb ih =>
    exact ⟨rfl, by simp only [ConnectPacket.encodedLength]; omega⟩
  | connect_password w hb ih =>
    exact ⟨rfl, by simp only [ConnectPacket.encodedLength]; omega⟩
  | connect_client_identifier i hb ih =>
    exact ⟨rfl, by simp only [ConnectPacket.encodedLength]; omega⟩
  | connect_will_retain b hb ih =>
    refine ⟨?_, by simp only [ConnectPacket.encodedLength]; omega⟩
    show _ = vhListLen (setConnectFlagsAt2 _ _) + _
    rw [vhListLen_setFlags]
    exact ih.1
  | connect_will_qos q hb ih =>
    refine ⟨?_, by simp only [ConnectPacket.encodedLength]; omega⟩
    show _ = vhListLen (setConnectFlagsAt2 _ _) + _
    rw [vhListLen_setFlags]
    exact ih.1
  | connect_clean_session b hb ih =>
    refine ⟨?_, by simp only [ConnectPacket.encodedLength]; omega⟩
    show _ = vhListLen (setConnectFlagsAt2 _ _) + _
    rw [vhListLen_setFlags]
    exact ih.1
  | connack_new b c =>
    exact ⟨rfl, by simp only [ConnackPacket.encodedLength]; omega⟩
  | connack_session b hb hset ih =>
    obtain ⟨hfh, hvl⟩ := connack_set_session_lengths hset
    refine ⟨?_, by simp only [ConnackPacket.encodedLength]; omega⟩
    rw [hfh, hvl]
    exact ih.1
  | connack_code c hb hset ih =>
    obtain ⟨hfh, hvl⟩ := connack_set_code_lengths hset
    refine ⟨?_, by simp only [ConnackPacket.encodedLength]; omega⟩
    rw [hfh, hvl]
    exact ih.1
  | publish_new tn q pl =>
    exact ⟨rfl, by simp only [PublishPacket.encodedLength]; omega⟩
  | publish_dup d hb ih =>
    exact ⟨ih.1, by simp only [PublishPacket.encodedLength]; omega⟩
  | publish_retain r hb ih =>
    exact ⟨ih.1, by simp only [PublishPacket.encodedLength]; omega⟩
  | publish_topic_name tn hb ih =>
    exact ⟨rfl, by simp only [PublishPacket.encodedLength]; omega⟩
  | publish_payload pl hb ih =>
    exact ⟨rfl, by simp only [PublishPacket.encodedLength]; omega⟩
  | puback_new i =>
    exact ⟨rfl, by simp only [PubackPacket.encodedLength]⟩
  | puback_pkid i hb ih =>
    exact ⟨ih.1, by simp only [PubackPacket.encodedLength]⟩
  | pubrec_new i =>
    exact ⟨rfl, by simp only [PubrecPacket.encodedLength]⟩
  | pubrec_pkid i hb ih =>
    exact ⟨ih.1, by simp only [PubrecPacket.encodedLength]⟩
  | pubrel_new i =>
    exact ⟨rfl, by simp only [PubrelPacket.encodedLength]⟩
  | pubrel_pkid i hb ih =>
    exact ⟨ih.1, by simp only [PubrelPacket.encodedLength]⟩
  | pubcomp_new i =>
    exact ⟨rfl, by simp only [PubcompPacket.encodedLength]⟩
  | pubcomp_pkid i hb ih =>
    exact ⟨ih.1, by simp only [PubcompPacket.encodedLength]⟩
  | pingreq_new =>
    exact ⟨rfl, by simp only [PingreqPacket.encodedLength]⟩
  | pingresp_new =>
    exact ⟨rfl, by simp only [PingrespPacket.encodedLength]⟩
  | disconnect_new =>
    exact ⟨rfl, by simp only [DisconnectPacket.encodedLength]⟩
  | subscribe_new i subs =>
    exact ⟨rfl, by simp only [SubscribePacket.encodedLength]; omega⟩
  | subscribe_pkid i hb ih =>
    exact ⟨ih.1, by simp only [SubscribePacket.encodedLength]; omega⟩
  | suback_new i subs =>
    exact ⟨rfl, by simp only [SubackPacket.encodedLength]; omega⟩
  | suback_pkid i hb ih =>
    exact ⟨ih.1, by simp only [SubackPacket.encodedLength]; omega⟩
  | unsubscribe_new i subs =>
    exact ⟨rfl, by simp only [UnsubscribePacket.encodedLength]; omega⟩
  | unsubscribe_pkid i hb ih =>
    exact ⟨ih.1, by simp only [UnsubscribePacket.encodedLength]; omega⟩
  | unsuback_new i =>
    exact ⟨rfl, by simp only [UnsubackPacket.encodedLength]⟩
  | unsuback_pkid i hb ih =>
    exact ⟨ih.1, by simp only [UnsubackPacket.encodedLength]⟩

theorem C7_length_invariant_witness :
    Built (.puback (PubackPacket.mkNew 5)) ∧
    lengthInvariant (.puback (PubackPacket.mkNew 5)) :=
  ⟨Built.puback_new 5,
    C7_length_invariant (.puback (PubackPacket.mkNew 5)) (Built.puback_new 5)⟩

/-- C7, counterexample to the original claim: `PublishPacket::set_qos`
swaps in a packet identifier (changing the variable-header length from 3
to 5 here) without recomputing the stored remaining length, so after
`set_qos` on a freshly constructed QoS-0 packet the invariant
`remaining_length = variable-header length + payload length` fails
(3 ≠ 5). -/
theorem C7_set_qos_counterexample :
    ((PublishPacket.mkNew [97] .level0 []).set_qos (.level1 1)).fixed_header.remaining_length
      = 3 ∧
    (strEncodedLength ((PublishPacket.mkNew [97] .level0 []).set_qos
        (.level1 1)).topic_name +
      optPkidLen ((PublishPacket.mkNew [97] .level0 []).set_qos
        (.level1 1)).packet_identifier) +
      ((PublishPacket.mkNew [97] .level0 []).set_qos (.level1 1)).payload.length = 5 ∧
    ¬ lengthInvariant (.publish ((PublishPacket.mkNew [97] .level0 []).set_qos
        (.level1 1))) := by
  refine ⟨rfl, rfl, ?_⟩
  intro hcontra
  have h1 := hcontra.1
  have e1 : ((PublishPacket.mkNew [97] .level0 []).set_qos
      (.level1 1)).fixed_header.remaining_length = 3 := rfl
  have e2 : ((PublishPacket.mkNew [97] .level0 []).set_qos (.level1 1)).topic_name =
      [97] := rfl
  have e3 : ((PublishPacket.mkNew [97] .level0 []).set_qos (.level1 1)).packet_identifier =
      some 1 := rfl
  have e4 : ((PublishPacket.mkNew [97] .level0 []).set_qos (.level1 1)).payload =
      ([] : List Nat) := rfl
  rw [e1, e2, e3, e4] at h1
  simp [strEncodedLength, optPkidLen] at h1

/-- C8 (refutation): both connack accessors read `variable_headers[0]`,
but the constructor stores the connack flags in slot 0 and the return code
in slot 1. Hence `return_code()` never finds a `ConnectReturnCode` in slot
0 and hits the `panic!` arm (modelled as `none`), `set_return_code` hits
its `panic!` arm as well, while `session_present()` (which also reads slot
0) works. -/
theorem C8_connack_return_code_bug (b : Bool) (c : Nat) :
    (ConnackPacket.mkNew b c).return_code = none ∧
    (ConnackPacket.mkNew b c).set_return_code 2 = none ∧
    (ConnackPacket.mkNew b c).variable_headers[1]? =
      some (VariableHeader.connectReturnCode c) ∧
    (ConnackPacket.mkNew b c).session_present = some b :=
  ⟨rfl, rfl, rfl, rfl⟩

/-- C9 (refutation): `set_dup` writes DUP into bit 3 of the flag nibble
(`flags |= dup << 3`), but `dup()` reads bit 7 (`flags & 0x80`), so after
`set_dup(true)` the getter still returns `false` even though bit 3 is set
(flags = 8); and because the setter only ORs, `set_dup(false)` cannot
clear the bit. -/
theorem C9_publish_dup_bug :
    ((PublishPacket.mkNew [97] .level0 []).set_dup true).dup = false ∧
    ((PublishPacket.mkNew [97] .level0 []).set_dup
      true).fixed_header.packet_type.flags = 8 ∧
    ((PublishPacket.mkNew [97] .level0 []).set_dup true).set_dup false =
      (PublishPacket.mkNew [97] .level0 []).set_dup true :=
  ⟨by decide, by decide, by decide⟩

/-- C10 (refutation): `PublishPacket::decode_packet` and
`SubackPacket::decode_packet` compute the payload length as the u32
subtraction `remaining_length - vhead_len` without checking
`vhead_len ≤ remaining_length`; on a wire-valid fixed header whose
remaining length is smaller than the variable-header length the
subtraction underflows (modelled by the explicit `subUnderflow` guard in
the embedding). Witness inputs: a PUBLISH header with remaining length 0
followed by the topic name `a` (variable header 3 bytes), and a SUBACK
header with remaining length 1 (packet identifier alone needs 2). -/
theorem C10_decode_underflow :
    runParser PublishPacket.decode [48, 0, 0, 1, 97] = .error .subUnderflow ∧
    runParser SubackPacket.decode [144, 1, 0, 10] = .error .subUnderflow := by
  have h0 : encodeRemLen 0 = [0] := by
    rw [encodeRemLen]
    rfl
  have h1 : encodeRemLen 1 = [1] := by
    rw [encodeRemLen]
    rfl
  constructor
  · have hfh := @fixedHeaderDecode_encode ⟨⟨.publish, 0⟩, 0⟩
      (by norm_num) (by norm_num) (Or.inl rfl) [0, 1, 97]
    have henc : (FixedHeader.encode ⟨⟨.publish, 0⟩, 0⟩) = [48, 0] := by
      rw [FixedHeader.encode, h0]
      rfl
    rw [henc] at hfh
    simp only [List.cons_append, List.nil_append] at hfh
    rw [PublishPacket.decode, runParser_bind_ok hfh]
    rfl
  · have hfh := @fixedHeaderDecode_encode ⟨⟨.suback, 0⟩, 1⟩
      (by norm_num) (by norm_num) (Or.inr rfl) [0, 10]
    have henc : (FixedHeader.encode ⟨⟨.suback, 0⟩, 1⟩) = [144, 1] := by
      rw [FixedHeader.encode, h1]
      rfl
    rw [henc] at hfh
    simp only [List.cons_append, List.nil_append] at hfh
    rw [SubackPacket.decode, runParser_bind_ok hfh]
    rfl
